import Mathlib

/-!
# MiniVim: a shallow embedding of the editing engine

The definitions below follow `src/project/multifile.cpp` function by function
(`normal_mode`, `insert_mode`, `command_mode`, `undo`, `redo`,
`handle_search_replace`, `is_number`, `adjust_window`, the cursor clamp of
`draw`, `loadFile`, `saveFile`, `run`).

Modelling conventions.
* `std::string` is a list of characters (`Str`); `std::vector<string>` is a
  list of `Str`; a `std::stack` is a list whose head is the top.
* `int` is `Int`.  Sizes are assumed to fit an `int` (below `2 ^ 31`), so a
  size converted to `int` is itself; the one place where a value really
  leaves the `int` range, `std::stoi`, is modelled with its range check.
  A comparison between an `int` and a `size_t` converts the `int` to
  `size_t` first (`toSizeT`): a negative `int` becomes a huge unsigned value.
* Every operation returns `Except Stop _`.  `Stop.undefinedBehaviour` is an
  out-of-range `operator[]`, `erase` or `insert` on a vector;
  `Stop.uncaught` is a C++ exception that nobody catches
  (`std::out_of_range` from `stoi`, `substr`, `erase`, `insert`);
  `Stop.exited` is `exit(0)`, with the file store left behind;
  `Stop.outOfFuel` says the replacement loop was
  still running when the iteration budget ran out.
* Files live in the state: `disk` maps a path to its contents, and a path
  listed in `unwritable` cannot be opened for writing.  An `ifstream` opens
  exactly the paths present in `disk`; an `ofstream` opens every path not in
  `unwritable` and truncates it.  Finer distinctions (a file that can be
  written but not read back, a write that fails after the file was opened)
  are not modelled.
* `getch()` reads from an explicit list of pending key codes; on an empty
  list it returns `ERR` (-1), as ncurses does when no input can be read.
* Screen painting (`clear`, `mvprintw`, `move`, `refresh`, ...) has no effect
  on the editor state and is left out.
-/

namespace Vim

/-- A `std::string`. -/
abbrev Str := List Char

/-- The ways a handler can fail to return normally. -/
inductive Stop
  | exited (disk : List (Str × Str))
  | uncaught
  | undefinedBehaviour
  | outOfFuel
  deriving DecidableEq, Repr

/-- One entry of `stack<pair<string, pair<int, string>>>`:
operation type, row, text. -/
abbrev UndoRecord := String × Int × Str

/-- The data members of class `MiniVim`, together with the file system that
`loadFile` and `saveFile` talk to: the file store (`disk`: path and contents)
and the paths that cannot be opened for writing (`unwritable`: a missing
directory, a read-only file, ...). -/
structure MiniVim where
  file_history : List Str
  current_file_index : Nat
  filename : Str
  lines : List Str
  cursor_x : Int
  cursor_y : Int
  top_line : Int
  left_column : Int
  screen_width : Int
  screen_height : Int
  insert_mode_active : Bool
  command_mode_active : Bool
  command_buffer : Str
  copied_line : Str
  undo_stack : List UndoRecord
  redo_stack : List UndoRecord
  disk : List (Str × Str)
  unwritable : List Str
  deriving DecidableEq, Repr

/-! ## Machine-level helpers -/

/-- Conversion of an `int` to `size_t` (64 bit) in a mixed comparison. -/
def toSizeT (x : Int) : Int := if x < 0 then x + 2 ^ 64 else x

/-- The `size_t` value of `size() - 1` (wraps around for an empty
container). -/
def sizeMinusOne (n : Nat) : Int := if n = 0 then 2 ^ 64 - 1 else (n : Int) - 1

/-- The conversion `char ch = getch()` in `run` (signed 8-bit `char`). -/
def toChar8 (k : Int) : Int := (k + 128) % 256 - 128

/-- The character stored when an `int` key is written into a string. -/
def keyChar (ch : Int) : Char := Char.ofNat (ch % 256).toNat

/-- `KEY_BACKSPACE` of ncurses (octal 0407). -/
def KEY_BACKSPACE : Int := 263

/-- `INT_MAX` for a 32-bit `int`. -/
def INT_MAX : Int := 2147483647

/-- Reading `lines[i]`: undefined when `i` is out of range. -/
def lineAt (ls : List Str) (i : Int) : Except Stop Str :=
  if 0 ≤ i ∧ i < ls.length then .ok (ls.getD i.toNat []) else .error .undefinedBehaviour

/-- `lines.erase(lines.begin() + i)`: undefined unless `0 <= i < size`. -/
def vecErase (ls : List Str) (i : Int) : Except Stop (List Str) :=
  if 0 ≤ i ∧ i < ls.length then .ok (ls.take i.toNat ++ ls.drop (i.toNat + 1))
  else .error .undefinedBehaviour

/-- `lines.insert(lines.begin() + i, l)`: undefined unless `0 <= i <= size`. -/
def vecInsert (ls : List Str) (i : Int) (l : Str) : Except Stop (List Str) :=
  if 0 ≤ i ∧ i ≤ ls.length then .ok (ls.take i.toNat ++ l :: ls.drop i.toNat)
  else .error .undefinedBehaviour

/-- `getch()`: next pending key code, `ERR` when there is none. -/
def getch : List Int → Int × List Int
  | [] => (-1, [])
  | k :: ks => (k, ks)

/-- Search of a character in the suffix that starts at index `i`. -/
def findCharAt (c : Char) : Str → Nat → Option Nat
  | [], _ => none
  | d :: ds, i => if d = c then some i else findCharAt c ds (i + 1)

/-- `s.find(c, pos)` for a character; `none` is `npos`. -/
def findChar (s : Str) (c : Char) (pos : Nat) : Option Nat :=
  findCharAt c (s.drop pos) pos

/-- `p + 1` on a `size_t` position: `npos + 1` wraps around to 0. -/
def nposSucc : Option Nat → Nat
  | none => 0
  | some i => i + 1

/-- Search of a substring in the suffix that starts at index `i`. -/
def findAt (pat : Str) : Str → Nat → Option Nat
  | [], i => if pat.isEmpty then some i else none
  | c :: cs, i => if pat.isPrefixOf (c :: cs) then some i else findAt pat cs (i + 1)

/-- `s.find(pat, pos)` for a string: the least index `>= pos` at which `pat`
occurs; `none` is `npos` (also when `pos > size`). -/
def find (s pat : Str) (pos : Nat) : Option Nat :=
  if pos > s.length then none else findAt pat (s.drop pos) pos

/-- `s.substr(pos, n)`; `n = none` is the default count `npos`.  Throws
`std::out_of_range` when `pos > size`. -/
def substr (s : Str) (pos : Nat) (n : Option Nat) : Except Stop Str :=
  if pos > s.length then .error .uncaught
  else match n with
    | none => .ok (s.drop pos)
    | some k => .ok ((s.drop pos).take k)

/-! ## Files -/

/-- The `while (getline(file, line))` loop over a file's text; `acc` holds the
characters of the line being read, newest first. -/
def getlinesAux : Str → Str → List Str
  | [], acc => if acc.isEmpty then [] else [acc.reverse]
  | c :: cs, acc => if c = '\n' then acc.reverse :: getlinesAux cs [] else getlinesAux cs (c :: acc)

/-- All lines `getline` extracts from a text. -/
def getlines (text : Str) : List Str := getlinesAux text []

/-- The text `saveFile` writes: every line followed by a newline. -/
def writtenText (ls : List Str) : Str := (ls.map (fun l => l ++ ['\n'])).flatten

/-- `MiniVim::loadFile`. -/
def loadFile (s : MiniVim) : Except Stop MiniVim :=
  match s.file_history[s.current_file_index]? with
  | none => .error .undefinedBehaviour
  | some name =>
    let read : List Str :=
      match s.disk.lookup name with
      | some text => getlines text
      | none => []
    .ok { s with filename := name, lines := if read.isEmpty then [[]] else read }

/-- `MiniVim::saveFile`: `ofstream file(filename)`, and the lines are written
only `if (file.is_open())`; when the file cannot be opened nothing is written
and nothing is reported. -/
def saveFile (s : MiniVim) : MiniVim :=
  { s with disk :=
      if s.filename ∈ s.unwritable then s.disk
      else (s.filename, writtenText s.lines) :: s.disk }

/-! ## Viewport and drawing -/

/-- `MiniVim::adjust_window`. -/
def adjust_window (s : MiniVim) : MiniVim :=
  let top_line :=
    if s.cursor_y < s.top_line then s.cursor_y
    else if s.cursor_y ≥ s.top_line + s.screen_height - 2 then s.cursor_y - (s.screen_height - 3)
    else s.top_line
  let left_column :=
    if s.cursor_x < s.left_column then s.cursor_x
    else if s.cursor_x ≥ s.left_column + s.screen_width - 10 then s.cursor_x - (s.screen_width - 11)
    else s.left_column
  { s with top_line := top_line, left_column := left_column }

/-- The state change made by `MiniVim::draw`: the cursor clamp of lines
130-132.  The painting loop only reads `lines[i]` for `i < lines.size()`. -/
def draw (s : MiniVim) : Except Stop MiniVim := do
  let cursor_y := if toSizeT s.cursor_y ≥ s.lines.length then (s.lines.length : Int) - 1 else s.cursor_y
  let line ← lineAt s.lines cursor_y
  let cursor_x := min s.cursor_x ((line.length : Int) - 1)
  let cursor_x := max cursor_x 0
  pure { s with cursor_y := cursor_y, cursor_x := cursor_x }

/-! ## Undo and redo -/

/-- `MiniVim::undo`. -/
def undo (s : MiniVim) : Except Stop MiniVim :=
  match s.undo_stack with
  | [] => .ok s
  | operation :: rest =>
    let s1 := { s with undo_stack := rest, redo_stack := operation :: s.redo_stack }
    if operation.1 = "delete" then do
      let lines ← vecInsert s1.lines operation.2.1 operation.2.2
      pure { s1 with lines := lines }
    else if operation.1 = "paste" then do
      let lines ← vecErase s1.lines operation.2.1
      pure { s1 with lines := lines }
    else .ok s1

/-- `MiniVim::redo`. -/
def redo (s : MiniVim) : Except Stop MiniVim :=
  match s.redo_stack with
  | [] => .ok s
  | operation :: rest =>
    let s1 := { s with redo_stack := rest, undo_stack := operation :: s.undo_stack }
    if operation.1 = "delete" then do
      let lines ← vecErase s1.lines operation.2.1
      pure { s1 with lines := lines }
    else if operation.1 = "paste" then do
      let lines ← vecInsert s1.lines operation.2.1 operation.2.2
      pure { s1 with lines := lines }
    else .ok s1

/-! ## Search and replace -/

/-- The `while` loop of `handle_search_replace`; `fuel` bounds the number of
times the loop condition is evaluated. -/
def replace_loop (old_text new_text : Str) (global : Bool) : Nat → Str → Nat → Except Stop Str
  | 0, _, _ => .error .outOfFuel
  | fuel + 1, current_line, pos =>
    match find current_line old_text pos with
    | none => .ok current_line
    | some p =>
      let replaced := current_line.take p ++ new_text ++ current_line.drop (p + old_text.length)
      if !global then .ok replaced
      else replace_loop old_text new_text global fuel replaced (p + new_text.length)

/-- The three strings `handle_search_replace` extracts from the command:
`old_text`, `new_text` and the `global` flag; `none` when the command has
fewer than two slashes (the early `return`). -/
def parse_search_replace (command : Str) : Except Stop (Option (Str × Str × Bool)) :=
  let first_slash := findChar command '/' 0
  let second_slash := findChar command '/' (nposSucc first_slash)
  let third_slash := findChar command '/' (nposSucc second_slash)
  match first_slash, second_slash with
  | some f, some sd => do
    let old_text ← substr command (f + 1) (some (sd - f - 1))
    let new_text ←
      match third_slash with
      | some t => substr command (sd + 1) (some (t - sd - 1))
      | none => substr command (sd + 1) none
    let global ←
      match third_slash with
      | some t => do
        let rest ← substr command (t + 1) none
        pure (decide (rest = ['g']))
      | none => pure false
    pure (some (old_text, new_text, global))
  | _, _ => pure none

/-- `MiniVim::handle_search_replace`. -/
def handle_search_replace (fuel : Nat) (s : MiniVim) (command : Str) : Except Stop MiniVim := do
  match ← parse_search_replace command with
  | none => pure s
  | some (old_text, new_text, global) =>
    let current_line ← lineAt s.lines s.cursor_y
    let replaced ← replace_loop old_text new_text global fuel current_line 0
    let s1 := { s with lines := s.lines.set s.cursor_y.toNat replaced }
    let s2 := { s1 with cursor_x := min s1.cursor_x ((replaced.length : Int) - 1) }
    draw (adjust_window s2)

/-- `MiniVim::is_number`. -/
def is_number (str : Str) : Bool :=
  !str.isEmpty && str.all Char.isDigit

/-- `std::stoi` on a string of decimal digits (its only use is behind
`is_number`): the value, or `std::out_of_range` when it exceeds `INT_MAX`. -/
def stoi (str : Str) : Except Stop Int :=
  let v : Nat := str.foldl (fun acc c => 10 * acc + (c.toNat - 48)) 0
  if (v : Int) > INT_MAX then .error .uncaught else .ok (v : Int)

/-! ## Mode handlers -/

/-- `MiniVim::normal_mode`.  The `switch` is an `if` chain over the (disjoint)
case labels; `input` is what `getch()` reads for a two-key command. -/
def normal_mode (s : MiniVim) (ch : Int) (input : List Int) : Except Stop (MiniVim × List Int) :=
  if ch = 104 ∨ ch = 4 then -- 'h'
    let s1 := if s.cursor_x > 0 then { s with cursor_x := s.cursor_x - 1 } else s
    pure (adjust_window s1, input)
  else if ch = 106 ∨ ch = 2 then -- 'j'
    let s1 :=
      if toSizeT s.cursor_y < sizeMinusOne s.lines.length then { s with cursor_y := s.cursor_y + 1 }
      else s
    pure (adjust_window s1, input)
  else if ch = 107 ∨ ch = 3 then -- 'k'
    let s1 := if s.cursor_y > 0 then { s with cursor_y := s.cursor_y - 1 } else s
    pure (adjust_window s1, input)
  else if ch = 108 ∨ ch = 5 then do -- 'l'
    let line ← lineAt s.lines s.cursor_y
    let s1 := if toSizeT s.cursor_x < line.length then { s with cursor_x := s.cursor_x + 1 } else s
    pure (adjust_window s1, input)
  else if ch = 105 then -- 'i'
    pure ({ s with insert_mode_active := true }, input)
  else if ch = 58 then -- ':'
    pure ({ s with command_mode_active := true, command_buffer := [] }, input)
  else if ch = 48 then -- '0'
    pure (adjust_window { s with cursor_x := 0 }, input)
  else if ch = 36 then do -- '$'
    let line ← lineAt s.lines s.cursor_y
    let s1 :=
      if !line.isEmpty then { s with cursor_x := (line.length : Int) - 1 }
      else { s with cursor_x := 0 }
    pure (adjust_window s1, input)
  else if ch = 103 then -- 'g'
    let (k, rest) := getch input
    if k = 103 then pure (adjust_window { s with cursor_y := 0 }, rest)
    else pure (s, rest)
  else if ch = 71 then -- 'G'
    pure (adjust_window { s with cursor_y := (s.lines.length : Int) - 1 }, input)
  else if ch = 100 then -- 'd'
    let (k, rest) := getch input
    if k = 100 ∧ toSizeT s.cursor_y < s.lines.length then do
      let deleted_line ← lineAt s.lines s.cursor_y
      let undo_stack := ("delete", s.cursor_y, deleted_line) :: s.undo_stack
      let erased ← vecErase s.lines s.cursor_y
      let lines := if erased.isEmpty then [[]] else erased
      let s1 := { s with undo_stack := undo_stack, lines := lines }
      if toSizeT s1.cursor_y ≥ lines.length then do
        let cursor_y := s1.cursor_y - 1
        let line ← lineAt lines cursor_y
        let s2 := { s1 with cursor_y := cursor_y, cursor_x := min s1.cursor_x (line.length : Int) }
        pure (adjust_window s2, rest)
      else pure (adjust_window s1, rest)
    else pure (adjust_window s, rest)
  else if ch = 121 then do -- 'y'
    let (k, rest) := getch input
    if k = 121 then do
      let line ← lineAt s.lines s.cursor_y
      pure ({ s with copied_line := line }, rest)
    else pure (s, rest)
  else if ch = 112 then -- 'p'
    if !s.copied_line.isEmpty then do
      let undo_stack := ("paste", s.cursor_y, s.copied_line) :: s.undo_stack
      let lines ← vecInsert s.lines (s.cursor_y + 1) s.copied_line
      let s1 := { s with undo_stack := undo_stack, lines := lines, cursor_y := s.cursor_y + 1 }
      pure (adjust_window s1, input)
    else pure (adjust_window s, input)
  else if ch = 117 then do -- 'u'
    let s1 ← undo s
    pure (s1, input)
  else if ch = 18 then do -- Ctrl+r
    let s1 ← redo s
    pure (s1, input)
  else pure (s, input)

/-- `MiniVim::insert_mode`. -/
def insert_mode (s : MiniVim) (ch : Int) : Except Stop MiniVim :=
  if ch = 27 then pure { s with insert_mode_active := false }
  else if ch = 4 then
    let s1 := if s.cursor_x > 0 then { s with cursor_x := s.cursor_x - 1 } else s
    pure (adjust_window s1)
  else if ch = 5 then do
    let line ← lineAt s.lines s.cursor_y
    let s1 := if toSizeT s.cursor_x < line.length then { s with cursor_x := s.cursor_x + 1 } else s
    pure (adjust_window s1)
  else if ch = 3 then
    let s1 := if s.cursor_y > 0 then { s with cursor_y := s.cursor_y - 1 } else s
    pure (adjust_window s1)
  else if ch = 2 then
    let s1 :=
      if toSizeT s.cursor_y < sizeMinusOne s.lines.length then { s with cursor_y := s.cursor_y + 1 }
      else s
    pure (adjust_window s1)
  else if ch = 10 then do
    let line ← lineAt s.lines s.cursor_y
    let new_line ← substr line (toSizeT s.cursor_x).toNat none
    let head ← substr line 0 (some (toSizeT s.cursor_x).toNat)
    let lines ← vecInsert (s.lines.set s.cursor_y.toNat head) (s.cursor_y + 1) new_line
    pure (adjust_window { s with lines := lines, cursor_y := s.cursor_y + 1, cursor_x := 0 })
  else if ch = 7 ∨ ch = KEY_BACKSPACE then
    if s.cursor_x > 0 then do
      let line ← lineAt s.lines s.cursor_y
      let pos := (s.cursor_x - 1).toNat
      if pos > line.length then .error .uncaught
      else
        let erased := line.take pos ++ line.drop (pos + 1)
        pure (adjust_window
          { s with lines := s.lines.set s.cursor_y.toNat erased, cursor_x := s.cursor_x - 1 })
    else if s.cursor_y > 0 then do
      let previous ← lineAt s.lines (s.cursor_y - 1)
      let line ← lineAt s.lines s.cursor_y
      let joined := s.lines.set (s.cursor_y - 1).toNat (previous ++ line)
      let lines ← vecErase joined s.cursor_y
      pure (adjust_window
        { s with lines := lines, cursor_x := (previous.length : Int), cursor_y := s.cursor_y - 1 })
    else pure (adjust_window s)
  else do
    let line ← lineAt s.lines s.cursor_y
    let padded :=
      if toSizeT s.cursor_x > line.length then
        line ++ List.replicate (toSizeT (s.cursor_x - (line.length : Int))).toNat ' '
      else line
    let pos := (toSizeT s.cursor_x).toNat
    if pos > padded.length then .error .uncaught
    else
      let inserted := padded.take pos ++ keyChar ch :: padded.drop pos
      pure (adjust_window
        { s with lines := s.lines.set s.cursor_y.toNat inserted, cursor_x := s.cursor_x + 1 })

/-- The command dispatch of `command_mode` on Enter (the `if`/`else if` chain
of lines 351-416), before the command buffer is cleared. -/
def execute_command (fuel : Nat) (s : MiniVim) (input : List Int) :
    Except Stop (MiniVim × List Int) :=
  if s.command_buffer = ['q'] then .error (.exited s.disk)
  else if s.command_buffer = ['w'] then pure (saveFile s, input)
  else if s.command_buffer = ['w', 'q'] then .error (.exited (saveFile s).disk)
  else if ['s', '/'].isPrefixOf s.command_buffer then do
    let s1 ← handle_search_replace fuel s s.command_buffer
    pure (s1, input)
  else if is_number s.command_buffer then do
    let target_line ← stoi s.command_buffer
    if target_line ≥ 1 ∧ toSizeT target_line ≤ s.lines.length then do
      let s1 := adjust_window { s with cursor_y := target_line - 1 }
      let line ← lineAt s1.lines s1.cursor_y
      pure ({ s1 with cursor_x := min s1.cursor_x (line.length : Int) }, input)
    else pure (s, input)
  else if ['e', ' '].isPrefixOf s.command_buffer then do
    let new_filename := s.command_buffer.drop 2
    let file_history := s.file_history ++ [new_filename]
    let s1 ← loadFile
      { s with file_history := file_history, current_file_index := file_history.length - 1 }
    pure ({ s1 with cursor_x := 0, cursor_y := 0, top_line := 0, left_column := 0 }, input)
  else if s.command_buffer = ['N'] then
    if s.current_file_index > 0 then do
      let s1 ← loadFile { s with current_file_index := s.current_file_index - 1 }
      pure ({ s1 with cursor_x := 0, cursor_y := 0, top_line := 0, left_column := 0 }, input)
    else pure (s, input)
  else if s.command_buffer = ['n'] then
    if (s.current_file_index : Int) < sizeMinusOne s.file_history.length then do
      let s1 ← loadFile { s with current_file_index := s.current_file_index + 1 }
      pure ({ s1 with cursor_x := 0, cursor_y := 0, top_line := 0, left_column := 0 }, input)
    else pure (s, input)
  else if s.command_buffer = ['l', 's'] then
    pure (s, (getch input).2)
  else if ['b', ' '].isPrefixOf s.command_buffer then do
    let buffer_number_str := s.command_buffer.drop 2
    if is_number buffer_number_str then do
      let n ← stoi buffer_number_str
      let buffer_number := toSizeT (n - 1)
      if buffer_number < s.file_history.length then do
        let s1 ← loadFile { s with current_file_index := buffer_number.toNat }
        pure ({ s1 with cursor_x := 0, cursor_y := 0, top_line := 0, left_column := 0 }, input)
      else pure (s, input)
    else pure (s, input)
  else pure (s, input)

/-- `MiniVim::command_mode`. -/
def command_mode (fuel : Nat) (s : MiniVim) (ch : Int) (input : List Int) :
    Except Stop (MiniVim × List Int) :=
  if ch = 27 then
    pure ({ s with command_mode_active := false, command_buffer := [] }, input)
  else if ch = 10 then do
    let (s1, rest) ← execute_command fuel s input
    pure ({ s1 with command_buffer := [], command_mode_active := false }, rest)
  else if ch = 7 ∨ ch = KEY_BACKSPACE then
    pure ({ s with command_buffer := s.command_buffer.dropLast }, input)
  else pure ({ s with command_buffer := s.command_buffer ++ [keyChar ch] }, input)

/-- One iteration of the `while (true)` loop of `MiniVim::run`. -/
def run_step (fuel : Nat) (s : MiniVim) (input : List Int) : Except Stop (MiniVim × List Int) := do
  let s1 ← draw s
  let (k, rest) := getch input
  let ch := toChar8 k
  if s1.command_mode_active then command_mode fuel s1 ch rest
  else if s1.insert_mode_active then do
    let s2 ← insert_mode s1 ch
    pure (s2, rest)
  else normal_mode s1 ch rest

/-- The run loop, `n` iterations. -/
def run_steps (fuel : Nat) : Nat → MiniVim → List Int → Except Stop (MiniVim × List Int)
  | 0, s, input => pure (s, input)
  | n + 1, s, input => do
    let (s1, rest) ← run_step fuel s input
    run_steps fuel n s1 rest

/-- The constructor `MiniVim(filenames)` (cursor and viewport at 0, both mode
flags false, empty strings and stacks, `loadFile()` of the first file),
followed by the screen size that `init()` reads from the terminal. -/
def construct (filenames : List Str) (disk : List (Str × Str)) (unwritable : List Str)
    (screen_height screen_width : Int) : Except Stop MiniVim :=
  loadFile
    { file_history := filenames, current_file_index := 0, filename := [], lines := [],
      cursor_x := 0, cursor_y := 0, top_line := 0, left_column := 0,
      screen_width := screen_width, screen_height := screen_height,
      insert_mode_active := false, command_mode_active := false,
      command_buffer := [], copied_line := [], undo_stack := [], redo_stack := [],
      disk := disk, unwritable := unwritable }

/-- Entering a list of commands one after the other: each command is put in
the command buffer in Command mode and Enter is pressed. -/
def run_commands (fuel : Nat) : List Str → MiniVim → List Int → Except Stop (MiniVim × List Int)
  | [], s, input => pure (s, input)
  | command :: more, s, input => do
    let (s1, rest) ←
      command_mode fuel { s with command_buffer := command, command_mode_active := true } 10 input
    run_commands fuel more s1 rest

/-- A sample editor state over the given lines, cursor row and column, in
Normal mode on a 24 x 80 screen, with empty clipboard and empty stacks. -/
def sample (ls : List Str) (row col : Int) : MiniVim :=
  { file_history := [['a']], current_file_index := 0, filename := ['a'], lines := ls,
    cursor_x := col, cursor_y := row, top_line := 0, left_column := 0,
    screen_width := 80, screen_height := 24,
    insert_mode_active := false, command_mode_active := false,
    command_buffer := [], copied_line := [], undo_stack := [], redo_stack := [],
    disk := [], unwritable := [] }

/-- A sample state in Command mode: the single line `foofoofoo`, cursor at
(0, 0), and the given command buffer. -/
def fooState (command : Str) : MiniVim :=
  { sample [['f', 'o', 'o', 'f', 'o', 'o', 'f', 'o', 'o']] 0 0 with
    command_buffer := command, command_mode_active := true }

/-- A sample state in Command mode: the three lines `a`, `b`, `c`, cursor at
(0, 0), and the given command buffer. -/
def jumpState (command : Str) : MiniVim :=
  { sample [['a'], ['b'], ['c']] 0 0 with command_buffer := command, command_mode_active := true }

/-- A sample state in Command mode for the line jump: a first line of 100
characters `x` and a second line `short`, the cursor at (row 0, column 90), the
window scrolled to `left_column = 30` (columns 30 to 99 are visible on the
80-column screen), and the command buffer `2`. -/
def wideState : MiniVim :=
  { sample [List.replicate 100 'x', ['s', 'h', 'o', 'r', 't']] 0 90 with
    left_column := 30, command_buffer := ['2'], command_mode_active := true }

/-- A sample state in Command mode with the file list `[a.txt, b.txt]`: the
current index, the command buffer and the file store are given; `a.txt` holds
the line `A`, `b.txt` the line `B`. -/
def twoFiles (index : Nat) (command : Str) : MiniVim :=
  { sample [['A']] 0 0 with
    file_history := [['a', '.', 't', 'x', 't'], ['b', '.', 't', 'x', 't']],
    current_file_index := index,
    filename := if index = 0 then ['a', '.', 't', 'x', 't'] else ['b', '.', 't', 'x', 't'],
    lines := if index = 0 then [['A']] else [['B']],
    disk := [(['a', '.', 't', 'x', 't'], ['A', '\n']), (['b', '.', 't', 'x', 't'], ['B', '\n'])],
    command_buffer := command, command_mode_active := true }

/-! ## Specification-side definitions -/

/-- The line with every non-overlapping occurrence of `old`, found scanning
left to right, replaced by `new`; scanning resumes right after the matched
occurrence, so replacement text is never scanned.  `skip` counts the
characters of the occurrence just matched that are still to be passed over. -/
def replaceAllAux (old new : Str) : Nat → Str → Str
  | _, [] => []
  | skip + 1, _ :: cs => replaceAllAux old new skip cs
  | 0, c :: cs =>
    if old.isPrefixOf (c :: cs) then new ++ replaceAllAux old new (old.length - 1) cs
    else c :: replaceAllAux old new 0 cs

/-- Replacement of all non-overlapping occurrences of `old` by `new`, as the
substitute command with a trailing `g` is specified. -/
def replaceAll (old new line : Str) : Str := replaceAllAux old new 0 line

/-- The cursor lies inside the rendered window: rows `top_line` up to
`top_line + screen_height - 2` (exclusive) and columns `left_column` up to
`left_column + screen_width - 10` (exclusive). -/
def InWindow (s : MiniVim) : Prop :=
  s.top_line ≤ s.cursor_y ∧ s.cursor_y < s.top_line + s.screen_height - 2 ∧
  s.left_column ≤ s.cursor_x ∧ s.cursor_x < s.left_column + s.screen_width - 10

/-- The BufferSet invariant: the file list is non-empty and the current
index points into it. -/
def BufferSetInv (s : MiniVim) : Prop :=
  s.file_history ≠ [] ∧ s.current_file_index < s.file_history.length

/-- A command buffer that matches no command of the grammar: it is none of
`q`, `w`, `wq`, `n`, `N`, `ls`, is not a non-empty string of digits, does not
begin with `s/` or with `e `, and is not `b ` followed by digits. -/
def NoCommand (cb : Str) : Prop :=
  cb ≠ ['q'] ∧ cb ≠ ['w'] ∧ cb ≠ ['w', 'q'] ∧ cb ≠ ['n'] ∧ cb ≠ ['N'] ∧ cb ≠ ['l', 's'] ∧
  is_number cb = false ∧ ['s', '/'].isPrefixOf cb = false ∧ ['e', ' '].isPrefixOf cb = false ∧
  ¬ (['b', ' '].isPrefixOf cb = true ∧ is_number (cb.drop 2) = true)

/-- A command that begins with `s/` and has fewer than two `/` characters. -/
def MalformedSubstitute (cb : Str) : Prop :=
  ∃ body, cb = 's' :: '/' :: body ∧ '/' ∉ body

/-- The mode flags are never both set. -/
def ModeInv (s : MiniVim) : Prop :=
  ¬ (s.insert_mode_active = true ∧ s.command_mode_active = true)

/-- What the `dd` handler leaves behind when the cursor was on row `r` (a
summary used by the proofs; the viewport and the cursor column are left
open). -/
def DdPost (s : MiniVim) (r : Nat) (s' : MiniVim) : Prop :=
  s'.lines = (if s.lines.length = 1 then [[]] else s.lines.eraseIdx r) ∧
  s'.undo_stack = ("delete", (r : Int), s.lines.getD r []) :: s.undo_stack ∧
  s'.redo_stack = s.redo_stack ∧
  s'.cursor_y = (if r + 1 = s.lines.length ∧ 1 < s.lines.length then (r : Int) - 1 else r) ∧
  s'.insert_mode_active = s.insert_mode_active ∧
  s'.command_mode_active = s.command_mode_active ∧
  s'.copied_line = s.copied_line


/-! ## Helper lemmas -/

theorem toSizeT_natCast (n : Nat) : toSizeT (n : Int) = (n : Int) := by
  unfold toSizeT
  have : ¬ ((n : Int) < 0) := by omega
  simp [this]

theorem lineAt_natCast (ls : List Str) (r : Nat) (h : r < ls.length) :
    lineAt ls (r : Int) = .ok (ls.getD r []) := by
  unfold lineAt
  have h1 : (0 : Int) ≤ r ∧ (r : Int) < ls.length := by omega
  simp [h1]

theorem vecErase_natCast (ls : List Str) (r : Nat) (h : r < ls.length) :
    vecErase ls (r : Int) = .ok (ls.eraseIdx r) := by
  unfold vecErase
  have h1 : (0 : Int) ≤ r ∧ (r : Int) < ls.length := by omega
  simp [h1, List.eraseIdx_eq_take_drop_succ]

theorem vecInsert_natCast (ls : List Str) (r : Nat) (l : Str) (h : r ≤ ls.length) :
    vecInsert ls (r : Int) l = .ok (ls.take r ++ l :: ls.drop r) := by
  unfold vecInsert
  have h1 : (0 : Int) ≤ r ∧ (r : Int) ≤ ls.length := by omega
  simp [h1]


theorem normal_mode_dd (s : MiniVim) (r : Nat) (rest : List Int)
    (hr : r < s.lines.length) (hy : s.cursor_y = (r : Int)) :
    ∃ s', normal_mode s 100 (100 :: rest) = .ok (s', rest) ∧ DdPost s r s' := by
  have hlt : (r : Int) < s.lines.length := by omega
  simp only [normal_mode, getch, hy, toSizeT_natCast, lineAt_natCast _ _ hr, vecErase_natCast _ _ hr]
  simp only [hlt, bind, Except.bind, pure, Except.pure]
  by_cases h1 : s.lines.length = 1
  · have hr0 : r = 0 := by omega
    subst hr0
    have he : s.lines.eraseIdx 0 = [] := by
      apply List.eq_nil_of_length_eq_zero
      rw [List.length_eraseIdx]; simp [h1]
    simp [he, h1, DdPost, adjust_window]
  · have hl : (s.lines.eraseIdx r).length = s.lines.length - 1 := by
      rw [List.length_eraseIdx]; simp [hr]
    have hne : s.lines.eraseIdx r ≠ [] := by
      intro h; rw [h] at hl; simp at hl; omega
    by_cases h2 : r + 1 = s.lines.length
    · have h3 : (0:Int) ≤ (r:Int) - 1 ∧ (r:Int) - 1 < (s.lines.eraseIdx r).length := by omega
      have h4 : ((s.lines.eraseIdx r).length : Int) ≤ r := by omega
      have h5 : 1 < s.lines.length := by omega
      simp [hne, h1, h2, DdPost, adjust_window, lineAt, h3, h4, h5]
    · have h4 : ¬ ((s.lines.eraseIdx r).length : Int) ≤ r := by omega
      simp [hne, h1, h2, DdPost, adjust_window, h4]

theorem toChar8_small (k : Int) (h0 : 0 ≤ k) (h1 : k < 128) : toChar8 k = k := by
  unfold toChar8; omega

theorem draw_valid (s : MiniVim) (r : Nat) (hr : r < s.lines.length) (hy : s.cursor_y = (r : Int)) :
    draw s = .ok { s with cursor_x := max (min s.cursor_x (((s.lines.getD r []).length : Int) - 1)) 0 } := by
  have hlt : ¬ ((s.lines.length : Int) ≤ r) := by omega
  simp only [draw, hy, toSizeT_natCast, ge_iff_le, hlt, if_false, lineAt_natCast _ _ hr]
  simp [bind, Except.bind, pure, Except.pure, ← hy]

theorem run_step_normal (fuel : Nat) (s : MiniVim) (r : Nat) (k : Int) (rest : List Int)
    (hr : r < s.lines.length) (hy : s.cursor_y = (r : Int))
    (hi : s.insert_mode_active = false) (hc : s.command_mode_active = false) :
    run_step fuel s (k :: rest) =
      normal_mode { s with cursor_x := max (min s.cursor_x (((s.lines.getD r []).length : Int) - 1)) 0 }
        (toChar8 k) rest := by
  simp [run_step, draw_valid s r hr hy, getch, bind, Except.bind, hi, hc]

theorem run_step_dd (fuel : Nat) (s : MiniVim) (r : Nat) (rest : List Int)
    (hr : r < s.lines.length) (hy : s.cursor_y = (r : Int))
    (hi : s.insert_mode_active = false) (hc : s.command_mode_active = false) :
    ∃ s1, run_step fuel s (100 :: 100 :: rest) = .ok (s1, rest) ∧ DdPost s r s1 := by
  rw [run_step_normal fuel s r 100 _ hr hy hi hc, toChar8_small 100 (by decide) (by decide)]
  exact normal_mode_dd _ r rest hr hy

theorem DdPost.cursor_valid {s s1 : MiniVim} {r : Nat} (h : DdPost s r s1)
    (hr : r < s.lines.length) :
    ∃ r1 : Nat, r1 < s1.lines.length ∧ s1.cursor_y = (r1 : Int) ∧ r ≤ s1.lines.length := by
  obtain ⟨hl, -, -, hcy, -⟩ := h
  have hlen : s1.lines.length = if s.lines.length = 1 then 1 else s.lines.length - 1 := by
    rw [hl]; split
    · rfl
    · rw [List.length_eraseIdx]; simp [hr]
  by_cases h1 : s.lines.length = 1
  · refine ⟨r, ?_, ?_, ?_⟩
    · rw [hlen]; simp [h1]; omega
    · rw [hcy]; simp [h1]
    · rw [hlen]; simp [h1]; omega
  · by_cases h2 : r + 1 = s.lines.length
    · refine ⟨r - 1, ?_, ?_, ?_⟩
      · rw [hlen]; simp [h1]; omega
      · rw [hcy]; have : 1 < s.lines.length := by omega
        simp [h2, this]; omega
      · rw [hlen]; simp [h1]; omega
    · refine ⟨r, ?_, ?_, ?_⟩
      · rw [hlen]; simp [h1]; omega
      · rw [hcy]; simp [h2]
      · rw [hlen]; simp [h1]; omega

theorem run_step_undo_delete (fuel : Nat) (t : MiniVim) (r1 r : Nat) (text : Str)
    (U : List UndoRecord) (rest : List Int)
    (hr1 : r1 < t.lines.length) (hy : t.cursor_y = (r1 : Int))
    (hi : t.insert_mode_active = false) (hc : t.command_mode_active = false)
    (hu : t.undo_stack = ("delete", (r : Int), text) :: U) (hr : r ≤ t.lines.length) :
    ∃ t', run_step fuel t (117 :: rest) = .ok (t', rest) ∧
      t'.lines = t.lines.take r ++ text :: t.lines.drop r ∧
      t'.undo_stack = U ∧ t'.redo_stack = ("delete", (r : Int), text) :: t.redo_stack ∧
      t'.cursor_y = t.cursor_y ∧
      t'.insert_mode_active = false ∧ t'.command_mode_active = false := by
  rw [run_step_normal fuel t r1 117 _ hr1 hy hi hc, toChar8_small 117 (by decide) (by decide)]
  simp [normal_mode, undo, hu, vecInsert_natCast _ _ _ hr, bind, Except.bind, pure, Except.pure, hi, hc]

theorem run_step_redo_delete (fuel : Nat) (t : MiniVim) (r1 r : Nat) (text : Str)
    (R : List UndoRecord) (rest : List Int)
    (hr1 : r1 < t.lines.length) (hy : t.cursor_y = (r1 : Int))
    (hi : t.insert_mode_active = false) (hc : t.command_mode_active = false)
    (hu : t.redo_stack = ("delete", (r : Int), text) :: R) (hr : r < t.lines.length) :
    ∃ t', run_step fuel t (18 :: rest) = .ok (t', rest) ∧
      t'.lines = t.lines.eraseIdx r ∧
      t'.redo_stack = R ∧ t'.undo_stack = ("delete", (r : Int), text) :: t.undo_stack := by
  rw [run_step_normal fuel t r1 18 _ hr1 hy hi hc, toChar8_small 18 (by decide) (by decide)]
  simp [normal_mode, redo, hu, vecErase_natCast _ _ hr, bind, Except.bind, pure, Except.pure]

theorem eraseIdx_insert_same (L : List Str) (r : Nat) (x : Str) (h : r ≤ L.length) :
    (L.take r ++ x :: L.drop r).eraseIdx r = L := by
  have h1 : (L.take r).length = r := by simp [h]
  rw [List.eraseIdx_append_of_length_le (by omega)]
  simp [h1]

theorem getElem?_insert_same (L : List Str) (r : Nat) (x : Str) (h : r ≤ L.length) :
    (L.take r ++ x :: L.drop r)[r]? = some x := by
  have h1 : (L.take r).length = r := by simp [h]
  rw [List.getElem?_append_right (by omega)]
  simp [h1]

/-! ## Claims -/

/-- C1: in `normal_mode`, with the cursor on a valid row `r` of a non-empty
buffer, the keys `d`, `d` return normally and leave the line sequence with row
`r` removed, except that a buffer of exactly one line becomes the single empty
line; the buffer is never left empty. -/
theorem dd_removes_cursor_row (s : MiniVim) (r : Nat) (rest : List Int)
    (hr : r < s.lines.length) (hy : s.cursor_y = (r : Int)) :
    ∃ s', normal_mode s 100 (100 :: rest) = .ok (s', rest) ∧
      s'.lines = (if s.lines.length = 1 then [[]] else s.lines.eraseIdx r) ∧
      (s.lines.length = 1 → s'.lines.length = 1 ∧ s'.lines[0]? = some []) ∧
      s'.lines ≠ [] := by
  obtain ⟨s', hs', hpost⟩ := normal_mode_dd s r rest hr hy
  obtain ⟨r1, hr1, -, -⟩ := hpost.cursor_valid hr
  refine ⟨s', hs', hpost.1, ?_, ?_⟩
  · intro h1
    rw [hpost.1]; simp [h1]
  · intro h; rw [h] at hr1; simp at hr1

theorem dd_removes_cursor_row_witness :
    (1 : Nat) < (sample [['a'], ['b'], ['c']] 1 0).lines.length ∧
    (sample [['a'], ['b'], ['c']] 1 0).cursor_y = ((1 : Nat) : Int) ∧
    ∃ s', normal_mode (sample [['a'], ['b'], ['c']] 1 0) 100 (100 :: []) = .ok (s', []) ∧
      s'.lines = (if (sample [['a'], ['b'], ['c']] 1 0).lines.length = 1 then [[]]
        else (sample [['a'], ['b'], ['c']] 1 0).lines.eraseIdx 1) ∧
      ((sample [['a'], ['b'], ['c']] 1 0).lines.length = 1 →
        s'.lines.length = 1 ∧ s'.lines[0]? = some []) ∧
      s'.lines ≠ [] :=
  ⟨by decide, rfl, dd_removes_cursor_row (sample [['a'], ['b'], ['c']] 1 0) 1 [] (by decide) rfl⟩

/-- C2: in Normal mode on a valid row `r`, the keys `d`, `d`, `u` (two
iterations of the run loop) return normally and the line at row `r` is again
the text row `r` held before the deletion. -/
theorem dd_undo_restores_row (fuel : Nat) (s : MiniVim) (r : Nat) (rest : List Int)
    (hr : r < s.lines.length) (hy : s.cursor_y = (r : Int))
    (hi : s.insert_mode_active = false) (hc : s.command_mode_active = false) :
    ∃ s', run_steps fuel 2 s (100 :: 100 :: 117 :: rest) = .ok (s', rest) ∧
      s'.lines[r]? = s.lines[r]? := by
  obtain ⟨s1, hs1, hpost⟩ := run_step_dd fuel s r (117 :: rest) hr hy hi hc
  obtain ⟨r1, hr1, hy1, hle⟩ := hpost.cursor_valid hr
  obtain ⟨hl, hu, hrd, -, hi1, hc1, -⟩ := hpost
  obtain ⟨s2, hs2, hl2, -⟩ := run_step_undo_delete fuel s1 r1 r _ _ rest hr1 hy1
    (hi1.trans hi) (hc1.trans hc) hu hle
  refine ⟨s2, ?_, ?_⟩
  · simp [run_steps, hs1, hs2, bind, Except.bind, pure, Except.pure]
  · rw [hl2, getElem?_insert_same _ _ _ hle]
    simp [List.getD, List.getElem?_eq_getElem hr]

theorem dd_undo_restores_row_witness :
    (0 : Nat) < (sample [['a']] 0 0).lines.length ∧
    (sample [['a']] 0 0).cursor_y = ((0 : Nat) : Int) ∧
    (sample [['a']] 0 0).insert_mode_active = false ∧
    (sample [['a']] 0 0).command_mode_active = false ∧
    ∃ s', run_steps 0 2 (sample [['a']] 0 0) (100 :: 100 :: 117 :: []) = .ok (s', []) ∧
      s'.lines[0]? = (sample [['a']] 0 0).lines[0]? :=
  ⟨by decide, rfl, rfl, rfl, dd_undo_restores_row 0 (sample [['a']] 0 0) 0 [] (by decide) rfl rfl rfl⟩

/-- C3: in Normal mode on a valid row `r`, the keys `d`, `d`, `u`, Ctrl-R
leave the same lines, undo stack and redo stack as the keys `d`, `d` alone. -/
theorem dd_undo_redo_round_trip (fuel : Nat) (s : MiniVim) (r : Nat) (rest : List Int)
    (hr : r < s.lines.length) (hy : s.cursor_y = (r : Int))
    (hi : s.insert_mode_active = false) (hc : s.command_mode_active = false) :
    ∃ s1 s3, run_steps fuel 1 s (100 :: 100 :: rest) = .ok (s1, rest) ∧
      run_steps fuel 3 s (100 :: 100 :: 117 :: 18 :: rest) = .ok (s3, rest) ∧
      s3.lines = s1.lines ∧ s3.undo_stack = s1.undo_stack ∧ s3.redo_stack = s1.redo_stack := by
  obtain ⟨s1, hs1, hpost⟩ := run_step_dd fuel s r rest hr hy hi hc
  obtain ⟨t1, ht1, hpost'⟩ := run_step_dd fuel s r (117 :: 18 :: rest) hr hy hi hc
  obtain ⟨r1, hr1, hy1, hle⟩ := hpost'.cursor_valid hr
  obtain ⟨hl, hu, hrd, -, hi1, hc1, -⟩ := hpost'
  obtain ⟨t2, ht2, hl2, hu2, hrd2, hy2, hi2, hc2⟩ := run_step_undo_delete fuel t1 r1 r _ _
    (18 :: rest) hr1 hy1 (hi1.trans hi) (hc1.trans hc) hu hle
  have hr2 : r1 < t2.lines.length := by rw [hl2]; simp; omega
  have hlt2 : r < t2.lines.length := by rw [hl2]; simp; omega
  obtain ⟨t3, ht3, hl3, hrd3, hu3⟩ := run_step_redo_delete fuel t2 r1 r _ _ rest hr2
    (hy2.trans hy1) hi2 hc2 hrd2 hlt2
  refine ⟨s1, t3, ?_, ?_, ?_, ?_, ?_⟩
  · simp [run_steps, hs1, bind, Except.bind, pure, Except.pure]
  · simp [run_steps, ht1, ht2, ht3, bind, Except.bind, pure, Except.pure]
  · rw [hl3, hl2, eraseIdx_insert_same _ _ _ hle, hl, hpost.1]
  · rw [hu3, hu2, hpost.2.1]
  · rw [hrd3, hrd, hpost.2.2.1]

theorem dd_undo_redo_round_trip_witness :
    (0 : Nat) < (sample [['a']] 0 0).lines.length ∧
    (sample [['a']] 0 0).cursor_y = ((0 : Nat) : Int) ∧
    (sample [['a']] 0 0).insert_mode_active = false ∧
    (sample [['a']] 0 0).command_mode_active = false ∧
    ∃ s1 s3, run_steps 0 1 (sample [['a']] 0 0) (100 :: 100 :: []) = .ok (s1, []) ∧
      run_steps 0 3 (sample [['a']] 0 0) (100 :: 100 :: 117 :: 18 :: []) = .ok (s3, []) ∧
      s3.lines = s1.lines ∧ s3.undo_stack = s1.undo_stack ∧ s3.redo_stack = s1.redo_stack :=
  ⟨by decide, rfl, rfl, rfl,
    dd_undo_redo_round_trip 0 (sample [['a']] 0 0) 0 [] (by decide) rfl rfl rfl⟩

theorem eraseIdx_insert_below (L : List Str) (r : Nat) (x : Str) (h : r < L.length) :
    (L.take (r + 1) ++ x :: L.drop (r + 1)).eraseIdx r = L.set r x := by
  induction L generalizing r with
  | nil => simp at h
  | cons a as ih =>
    cases r with
    | zero => simp
    | succ r =>
      have h' : r < as.length := by simpa using h
      simpa using ih r h'

/-- What `p` followed by `u` does in general: on a valid row `r` with a
non-empty clipboard, the two keys return normally and leave the buffer with
row `r` overwritten by the clipboard text (the pasted copy stays, the line the
cursor was on is erased). -/
theorem paste_undo_overwrites_cursor_row (fuel : Nat) (s : MiniVim) (r : Nat) (rest : List Int)
    (hr : r < s.lines.length) (hy : s.cursor_y = (r : Int))
    (hi : s.insert_mode_active = false) (hc : s.command_mode_active = false)
    (hne : s.copied_line ≠ []) :
    ∃ s', run_steps fuel 2 s (112 :: 117 :: rest) = .ok (s', rest) ∧
      s'.lines = s.lines.set r s.copied_line := by
  have hle : r + 1 ≤ s.lines.length := hr
  have hins := vecInsert_natCast s.lines (r + 1) s.copied_line hle
  push_cast at hins
  have hstep1 : ∃ s1, run_step fuel s (112 :: 117 :: rest) = .ok (s1, 117 :: rest) ∧
      s1.lines = s.lines.take (r + 1) ++ s.copied_line :: s.lines.drop (r + 1) ∧
      s1.cursor_y = ((r + 1 : Nat) : Int) ∧
      s1.undo_stack = ("paste", (r : Int), s.copied_line) :: s.undo_stack ∧
      s1.insert_mode_active = false ∧ s1.command_mode_active = false := by
    rw [run_step_normal fuel s r 112 _ hr hy hi hc, toChar8_small 112 (by decide) (by decide)]
    simp [normal_mode, hy, hne, hins, bind, Except.bind, pure, Except.pure, adjust_window, hi, hc]
  obtain ⟨s1, hs1, hl1, hy1, hu1, hi1, hc1⟩ := hstep1
  have hlen1 : s1.lines.length = s.lines.length + 1 := by rw [hl1]; simp; omega
  have hr1 : r + 1 < s1.lines.length := by omega
  have hr1' : r < s1.lines.length := by omega
  have hstep2 : ∃ s2, run_step fuel s1 (117 :: rest) = .ok (s2, rest) ∧
      s2.lines = s1.lines.eraseIdx r := by
    rw [run_step_normal fuel s1 (r + 1) 117 _ hr1 hy1 hi1 hc1,
      toChar8_small 117 (by decide) (by decide)]
    simp [normal_mode, undo, hu1, vecErase_natCast _ _ hr1', bind, Except.bind, pure, Except.pure]
  obtain ⟨s2, hs2, hl2⟩ := hstep2
  refine ⟨s2, ?_, ?_⟩
  · simp [run_steps, hs1, hs2, bind, Except.bind, pure, Except.pure]
  · rw [hl2, hl1, eraseIdx_insert_below _ _ _ hr]

/-- C4: the claim fails on the code.  On the buffer `["a", "b"]` with the
cursor on row 1, the keys `y`, `y`, `k`, `p`, `u` (yank row 1, move up, paste,
undo) run normally; the paste inserted `"b"` at row 1, yet the undo erases row
0, the row stored in the Paste record, and leaves `["b", "b"]` instead of the
lines `["a", "b"]` that were there before `p`. -/
theorem paste_undo_erases_line_above :
    ∃ s2 s4,
      run_steps 0 2 (sample [['a'], ['b']] 1 0) [121, 121, 107, 112, 117] = .ok (s2, [112, 117]) ∧
      run_steps 0 4 (sample [['a'], ['b']] 1 0) [121, 121, 107, 112, 117] = .ok (s4, []) ∧
      s2.cursor_y = 0 ∧ s2.copied_line = ['b'] ∧
      s2.lines = [['a'], ['b']] ∧ s4.lines = [['b'], ['b']] :=
  ⟨_, _, rfl, rfl, rfl, rfl, rfl, rfl⟩

/-- C5: in Normal mode on a valid row `r` whose line is non-empty, the keys
`y`, `y`, `p` return normally with one more line: the old rows `0..r`, then a
copy of row `r`, then the old rows after `r`; rows `r` and `r + 1` both hold
the old text of row `r`, and the cursor row is `r + 1`. -/
theorem yy_p_duplicates_row (fuel : Nat) (s : MiniVim) (r : Nat) (rest : List Int)
    (hr : r < s.lines.length) (hy : s.cursor_y = (r : Int))
    (hi : s.insert_mode_active = false) (hc : s.command_mode_active = false)
    (hne : s.lines.getD r [] ≠ []) :
    ∃ s', run_steps fuel 2 s (121 :: 121 :: 112 :: rest) = .ok (s', rest) ∧
      s'.lines = s.lines.take (r + 1) ++ s.lines.getD r [] :: s.lines.drop (r + 1) ∧
      s'.lines.length = s.lines.length + 1 ∧
      s'.lines[r]? = s.lines[r]? ∧ s'.lines[r + 1]? = s.lines[r]? ∧
      s'.cursor_y = (r : Int) + 1 := by
  have hle : r + 1 ≤ s.lines.length := hr
  have hgd : s.lines[r]? = some (s.lines.getD r []) := by
    simp [List.getD, List.getElem?_eq_getElem hr]
  have hstep1 : ∃ s1, run_step fuel s (121 :: 121 :: 112 :: rest) = .ok (s1, 112 :: rest) ∧
      s1.lines = s.lines ∧ s1.cursor_y = (r : Int) ∧ s1.copied_line = s.lines.getD r [] ∧
      s1.insert_mode_active = false ∧ s1.command_mode_active = false := by
    rw [run_step_normal fuel s r 121 _ hr hy hi hc, toChar8_small 121 (by decide) (by decide)]
    simp [normal_mode, getch, hy, lineAt_natCast _ _ hr, bind, Except.bind, pure, Except.pure, hi, hc]
  obtain ⟨s1, hs1, hl1, hy1, hcl1, hi1, hc1⟩ := hstep1
  have hr1 : r < s1.lines.length := by rw [hl1]; exact hr
  have hle1 : r + 1 ≤ s1.lines.length := hr1
  have hins := vecInsert_natCast s1.lines (r + 1) (s.lines.getD r []) hle1
  have hstep2 : ∃ s2, run_step fuel s1 (112 :: rest) = .ok (s2, rest) ∧
      s2.lines = s1.lines.take (r + 1) ++ s.lines.getD r [] :: s1.lines.drop (r + 1) ∧
      s2.cursor_y = (r : Int) + 1 := by
    rw [run_step_normal fuel s1 r 112 _ hr1 hy1 hi1 hc1, toChar8_small 112 (by decide) (by decide)]
    push_cast at hins
    simp only [List.getD_eq_getElem?_getD] at hne hins
    simp [normal_mode, hy1, hcl1, hne, hins, bind, Except.bind, pure, Except.pure, adjust_window]
  obtain ⟨s2, hs2, hl2, hy2⟩ := hstep2
  rw [hl1] at hl2
  have hlen : (s.lines.take (r + 1)).length = r + 1 := by simp; omega
  refine ⟨s2, ?_, hl2, ?_, ?_, ?_, hy2⟩
  · simp [run_steps, hs1, hs2, bind, Except.bind, pure, Except.pure]
  · rw [hl2]; simp; omega
  · rw [hl2, List.getElem?_append_left (by omega), List.getElem?_take_of_lt (by omega)]
  · rw [hl2, List.getElem?_append_right (by omega), hlen, hgd]; simp

theorem yy_p_duplicates_row_witness :
    (0 : Nat) < (sample [['a', 'b', 'c']] 0 0).lines.length ∧
    (sample [['a', 'b', 'c']] 0 0).cursor_y = ((0 : Nat) : Int) ∧
    (sample [['a', 'b', 'c']] 0 0).insert_mode_active = false ∧
    (sample [['a', 'b', 'c']] 0 0).command_mode_active = false ∧
    (sample [['a', 'b', 'c']] 0 0).lines.getD 0 [] ≠ [] ∧
    ∃ s', run_steps 0 2 (sample [['a', 'b', 'c']] 0 0) (121 :: 121 :: 112 :: []) = .ok (s', []) ∧
      s'.lines = [['a', 'b', 'c'], ['a', 'b', 'c']] ∧
      s'.lines.length = 1 + 1 ∧
      s'.lines[0]? = some ['a', 'b', 'c'] ∧ s'.lines[0 + 1]? = some ['a', 'b', 'c'] ∧
      s'.cursor_y = ((0 : Nat) : Int) + 1 :=
  ⟨by decide, rfl, rfl, rfl, by decide,
    yy_p_duplicates_row 0 (sample [['a', 'b', 'c']] 0 0) 0 [] (by decide) rfl rfl rfl (by decide)⟩

theorem replaceAllAux_skip (old new : Str) (n : Nat) (l : Str) :
    replaceAllAux old new n l = replaceAll old new (l.drop n) := by
  induction n generalizing l with
  | zero => simp [replaceAll]
  | succ n ih =>
    cases l with
    | nil => simp [replaceAll, replaceAllAux]
    | cons c cs => simp [replaceAllAux, ih]

theorem replaceAll_nil (old new : Str) : replaceAll old new [] = [] := by
  simp [replaceAll, replaceAllAux]

theorem replaceAll_cons_match (old new : Str) (c : Char) (cs : Str) (hne : old ≠ [])
    (h : old <+: c :: cs) :
    replaceAll old new (c :: cs) = new ++ replaceAll old new ((c :: cs).drop old.length) := by
  have hp : old.isPrefixOf (c :: cs) = true := by simpa using h
  have hlen : old.length = (old.length - 1) + 1 := by
    cases old with
    | nil => exact absurd rfl hne
    | cons a as => simp
  unfold replaceAll
  rw [replaceAllAux, if_pos hp, replaceAllAux_skip]
  conv => rhs; rw [hlen]
  simp [replaceAll]

theorem replaceAll_cons_skip (old new : Str) (c : Char) (cs : Str)
    (h : ¬ old <+: c :: cs) :
    replaceAll old new (c :: cs) = c :: replaceAll old new cs := by
  have hp : ¬ old.isPrefixOf (c :: cs) = true := by simpa using h
  unfold replaceAll
  rw [replaceAllAux, if_neg hp]

theorem findAt_shift (pat : Str) (l : Str) (i : Nat) :
    findAt pat l i = (findAt pat l 0).map (· + i) := by
  induction l generalizing i with
  | nil => simp [findAt]
  | cons c cs ih =>
    simp only [findAt]
    split
    · simp
    · rw [ih (i + 1), ih (0 + 1)]
      cases findAt pat cs 0 <;> simp; omega

theorem findAt_none (pat l : Str) (hne : pat ≠ []) (h : findAt pat l 0 = none) :
    ∀ j, ¬ pat <+: l.drop j := by
  induction l with
  | nil =>
    intro j hp
    simp at hp; exact hne hp
  | cons c cs ih =>
    simp only [findAt] at h
    split at h
    · simp at h
    · rename_i hp
      rw [findAt_shift] at h
      have h' : findAt pat cs 0 = none := by
        cases hf : findAt pat cs 0 with
        | none => rfl
        | some v => rw [hf] at h; simp at h
      intro j
      cases j with
      | zero => simpa using hp
      | succ j => simpa using ih h' j

theorem findAt_some (pat l : Str) (k : Nat) (hne : pat ≠ []) (h : findAt pat l 0 = some k) :
    k + pat.length ≤ l.length ∧ pat <+: l.drop k ∧ ∀ j, j < k → ¬ pat <+: l.drop j := by
  induction l generalizing k with
  | nil => simp [findAt, hne] at h
  | cons c cs ih =>
    simp only [findAt] at h
    split at h
    · rename_i hp
      have hk : k = 0 := by simpa using h.symm
      subst hk
      have hp' : pat <+: c :: cs := by simpa using hp
      refine ⟨?_, by simpa using hp', by simp⟩
      simpa using hp'.length_le
    · rename_i hp
      rw [findAt_shift] at h
      cases hf : findAt pat cs 0 with
      | none => rw [hf] at h; simp at h
      | some v =>
        rw [hf] at h
        have hk : k = v + 1 := by simpa using h.symm
        subst hk
        obtain ⟨h1, h2, h3⟩ := ih v hf
        refine ⟨by simp; omega, by simpa using h2, ?_⟩
        intro j hj
        cases j with
        | zero => simpa using hp
        | succ j => simpa using h3 j (by omega)

theorem replaceAll_of_findAt_none (pat new l : Str) (hne : pat ≠ [])
    (h : findAt pat l 0 = none) : replaceAll pat new l = l := by
  induction l with
  | nil => exact replaceAll_nil _ _
  | cons c cs ih =>
    have hall := findAt_none pat (c :: cs) hne h
    have h0 : ¬ pat <+: c :: cs := by simpa using hall 0
    rw [replaceAll_cons_skip _ _ _ _ h0, ih]
    simp only [findAt] at h
    split at h
    · simp at h
    · rw [findAt_shift] at h
      cases hf : findAt pat cs 0 with
      | none => rfl
      | some v => rw [hf] at h; simp at h

theorem replaceAll_of_findAt_some (pat new l : Str) (k : Nat) (hne : pat ≠ [])
    (h : findAt pat l 0 = some k) :
    replaceAll pat new l = l.take k ++ new ++ replaceAll pat new (l.drop (k + pat.length)) := by
  induction l generalizing k with
  | nil => simp [findAt, hne] at h
  | cons c cs ih =>
    simp only [findAt] at h
    split at h
    · rename_i hp
      have hk : k = 0 := by simpa using h.symm
      subst hk
      have hp' : pat <+: c :: cs := by simpa using hp
      rw [replaceAll_cons_match _ _ _ _ hne hp']
      simp
    · rename_i hp
      have hp' : ¬ pat <+: c :: cs := by simpa using hp
      rw [findAt_shift] at h
      cases hf : findAt pat cs 0 with
      | none => rw [hf] at h; simp at h
      | some v =>
        rw [hf] at h
        have hk : k = v + 1 := by simpa using h.symm
        subst hk
        rw [replaceAll_cons_skip _ _ _ _ hp', ih v hf]
        simp [Nat.add_right_comm]

theorem find_append_left (done rest pat : Str) :
    find (done ++ rest) pat done.length = (findAt pat rest 0).map (· + done.length) := by
  unfold find
  have h : ¬ done.length > (done ++ rest).length := by simp
  rw [if_neg h, List.drop_left, findAt_shift]

theorem replace_loop_global (old new : Str) (hne : old ≠ []) :
    ∀ (fuel : Nat) (done rest : Str), rest.length < fuel →
      replace_loop old new true fuel (done ++ rest) done.length
        = .ok (done ++ replaceAll old new rest) := by
  intro fuel
  induction fuel with
  | zero => intro done rest h; omega
  | succ fuel ih =>
    intro done rest hlt
    rw [replace_loop, find_append_left]
    cases hf : findAt old rest 0 with
    | none =>
      simp [replaceAll_of_findAt_none old new rest hne hf]
    | some k =>
      obtain ⟨hk, -, -⟩ := findAt_some old rest k hne hf
      have hpos : 0 < old.length := List.length_pos.mpr hne
      have hkl : k ≤ rest.length := by omega
      have htake : (done ++ rest).take (k + done.length) = done ++ rest.take k := by
        rw [Nat.add_comm, List.take_append]
      have hdrop : (done ++ rest).drop (k + done.length + old.length)
          = rest.drop (k + old.length) := by
        have : k + done.length + old.length = done.length + (k + old.length) := by omega
        rw [this, List.drop_append]
      have hlen : k + done.length + new.length = (done ++ rest.take k ++ new).length := by
        simp [hkl]; omega
      simp only [Option.map_some', Bool.not_true, Bool.false_eq_true, if_false]
      rw [htake, hdrop, hlen, ih (done ++ rest.take k ++ new) (rest.drop (k + old.length))
        (by simp; omega), replaceAll_of_findAt_some old new rest k hne hf]
      simp

theorem replace_loop_global_from_start (old new : Str) (hne : old ≠ []) (fuel : Nat)
    (line : Str) (h : line.length < fuel) :
    replace_loop old new true fuel line 0 = .ok (replaceAll old new line) := by
  simpa using replace_loop_global old new hne fuel [] line h

theorem replace_loop_first (old new : Str) (fuel : Nat) (line : Str) :
    replace_loop old new false (fuel + 1) line 0 =
      .ok (match findAt old line 0 with
        | none => line
        | some p => line.take p ++ new ++ line.drop (p + old.length)) := by
  rw [replace_loop]
  have h : find line old 0 = findAt old line 0 := by simp [find]
  rw [h]
  cases findAt old line 0 <;> simp

theorem replace_loop_ok_or_fuel (old new : Str) (g : Bool) :
    ∀ (fuel : Nat) (line : Str) (pos : Nat),
      replace_loop old new g fuel line pos = .error .outOfFuel ∨
      ∃ x, replace_loop old new g fuel line pos = .ok x := by
  intro fuel
  induction fuel with
  | zero => intro line pos; left; rfl
  | succ fuel ih =>
    intro line pos
    rw [replace_loop]
    cases find line old pos with
    | none => right; exact ⟨_, rfl⟩
    | some p =>
      cases g with
      | false => right; exact ⟨_, rfl⟩
      | true => simpa using ih _ _

theorem findCharAt_append (c : Char) (a b : Str) (i : Nat) (h : c ∉ a) :
    findCharAt c (a ++ c :: b) i = some (i + a.length) := by
  induction a generalizing i with
  | nil => simp [findCharAt]
  | cons d ds ih =>
    have hd : d ≠ c := fun e => h (by simp [e])
    have hds : c ∉ ds := fun e => h (by simp [e])
    have hstep : findCharAt c ((d :: ds) ++ c :: b) i = findCharAt c (ds ++ c :: b) (i + 1) := by
      simp [findCharAt, hd]
    rw [hstep, ih (i + 1) hds]
    simp only [List.length_cons, Option.some.injEq]; omega

theorem findCharAt_bounds (c : Char) (l : Str) (i k : Nat) (h : findCharAt c l i = some k) :
    i ≤ k ∧ k < i + l.length := by
  induction l generalizing i with
  | nil => simp [findCharAt] at h
  | cons d ds ih =>
    simp only [findCharAt] at h
    split at h
    · have : i = k := by simpa using h
      subst this; simp
    · obtain ⟨h1, h2⟩ := ih (i + 1) h
      simp; omega

theorem findChar_bounds (s : Str) (c : Char) (pos k : Nat) (h : findChar s c pos = some k) :
    pos ≤ k ∧ k < s.length := by
  unfold findChar at h
  obtain ⟨h1, h2⟩ := findCharAt_bounds c _ pos k h
  rw [List.length_drop] at h2
  omega

theorem parse_search_replace_form (old new tail : Str) (ho : '/' ∉ old) (hn : '/' ∉ new) :
    parse_search_replace ('s' :: '/' :: (old ++ '/' :: (new ++ '/' :: tail)))
      = .ok (some (old, new, decide (tail = ['g']))) := by
  have h1 : findChar ('s' :: '/' :: (old ++ '/' :: (new ++ '/' :: tail))) '/' 0 = some 1 := by
    simp [findChar, findCharAt]
  have h2 : findChar ('s' :: '/' :: (old ++ '/' :: (new ++ '/' :: tail))) '/' 2
      = some (2 + old.length) := by
    simp [findChar, findCharAt_append _ _ _ _ ho]
  have h3 : findChar ('s' :: '/' :: (old ++ '/' :: (new ++ '/' :: tail))) '/' (2 + old.length + 1)
      = some (2 + old.length + 1 + new.length) := by
    have hd : List.drop (2 + old.length + 1) ('s' :: '/' :: (old ++ '/' :: (new ++ '/' :: tail)))
        = new ++ '/' :: tail := by
      have : 2 + old.length + 1 = (old.length + 1) + 1 + 1 := by omega
      rw [this, List.drop_succ_cons, List.drop_succ_cons]
      have h' : old ++ '/' :: (new ++ '/' :: tail) = (old ++ ['/']) ++ (new ++ '/' :: tail) := by
        simp
      rw [h', List.drop_left' (by simp)]
    rw [findChar, hd, findCharAt_append _ _ _ _ hn]
  unfold parse_search_replace
  simp only [h1, nposSucc, h2, h3]
  have hlen : ('s' :: '/' :: (old ++ '/' :: (new ++ '/' :: tail))).length
      = old.length + new.length + tail.length + 4 := by
    simp; omega
  have hd1 : List.drop (1 + 1) ('s' :: '/' :: (old ++ '/' :: (new ++ '/' :: tail)))
      = old ++ '/' :: (new ++ '/' :: tail) := by simp
  have hd3 : List.drop (2 + old.length + 1 + new.length + 1)
      ('s' :: '/' :: (old ++ '/' :: (new ++ '/' :: tail))) = tail := by
    have : 2 + old.length + 1 + new.length + 1 = (old.length + 1 + (new.length + 1)) + 1 + 1 := by
      omega
    rw [this, List.drop_succ_cons, List.drop_succ_cons]
    have h' : old ++ '/' :: (new ++ '/' :: tail) = ((old ++ ['/']) ++ (new ++ ['/'])) ++ tail := by
      simp
    rw [h', List.drop_left' (by simp; omega)]
  have hd2 : List.drop (2 + old.length + 1) ('s' :: '/' :: (old ++ '/' :: (new ++ '/' :: tail)))
      = new ++ '/' :: tail := by
    have : 2 + old.length + 1 = (old.length + 1) + 1 + 1 := by omega
    rw [this, List.drop_succ_cons, List.drop_succ_cons]
    have h' : old ++ '/' :: (new ++ '/' :: tail) = (old ++ ['/']) ++ (new ++ '/' :: tail) := by
      simp
    rw [h', List.drop_left' (by simp)]
  have hc1 : ¬ (1 + 1 > ('s' :: '/' :: (old ++ '/' :: (new ++ '/' :: tail))).length) := by omega
  have hc2 : ¬ (2 + old.length + 1 > ('s' :: '/' :: (old ++ '/' :: (new ++ '/' :: tail))).length) := by
    omega
  have hc3 : ¬ (2 + old.length + 1 + new.length + 1
      > ('s' :: '/' :: (old ++ '/' :: (new ++ '/' :: tail))).length) := by omega
  have hn1 : 2 + old.length - 1 - 1 = old.length := by omega
  have hn2 : 2 + old.length + 1 + new.length - (2 + old.length) - 1 = new.length := by omega
  simp only [substr, if_neg hc1, if_neg hc2, if_neg hc3, hd1, hd2, hd3, hn1, hn2,
    List.take_left, bind, Except.bind, pure, Except.pure]

theorem handle_search_replace_of_parse (fuel : Nat) (s : MiniVim) (r : Nat) (command : Str)
    (o n x : Str) (g : Bool)
    (hr : r < s.lines.length) (hy : s.cursor_y = (r : Int))
    (hp : parse_search_replace command = .ok (some (o, n, g)))
    (hl : replace_loop o n g fuel (s.lines.getD r []) 0 = .ok x) :
    ∃ s', handle_search_replace fuel s command = .ok s' ∧ s'.lines = s.lines.set r x ∧
      s'.cursor_y = s.cursor_y ∧ s'.undo_stack = s.undo_stack ∧ s'.redo_stack = s.redo_stack := by
  have hr' : r < (s.lines.set r x).length := by simpa using hr
  unfold handle_search_replace
  simp only [hp, bind, Except.bind, hy, lineAt_natCast _ _ hr, hl, Int.toNat_ofNat]
  rw [draw_valid _ r (by simpa [adjust_window] using hr) (by simp [adjust_window])]
  exact ⟨_, rfl, by simp [adjust_window], by simp [adjust_window], by simp [adjust_window],
    by simp [adjust_window]⟩

theorem parse_search_replace_ok (command : Str) :
    ∃ x, parse_search_replace command = .ok x := by
  unfold parse_search_replace
  cases h1 : findChar command '/' 0 with
  | none => simp [pure, Except.pure]
  | some f =>
    simp only [nposSucc]
    cases h2 : findChar command '/' (f + 1) with
    | none => simp [pure, Except.pure]
    | some sd =>
      have hf := findChar_bounds _ _ _ _ h1
      have hsd := findChar_bounds _ _ _ _ h2
      have hc1 : ¬ (f + 1 > command.length) := by omega
      have hc2 : ¬ (sd + 1 > command.length) := by omega
      simp only [nposSucc]
      cases h3 : findChar command '/' (sd + 1) with
      | none =>
        simp [substr, hc1, hc2, bind, Except.bind, pure, Except.pure]
      | some t =>
        have ht := findChar_bounds _ _ _ _ h3
        have hc3 : ¬ (t + 1 > command.length) := by omega
        simp [substr, hc1, hc2, hc3, bind, Except.bind, pure, Except.pure]

theorem handle_search_replace_no_parse (fuel : Nat) (s : MiniVim) (command : Str)
    (hp : parse_search_replace command = .ok none) :
    handle_search_replace fuel s command = .ok s := by
  unfold handle_search_replace
  simp only [hp, bind, Except.bind, pure, Except.pure]

theorem handle_search_replace_fuel (fuel : Nat) (s : MiniVim) (r : Nat) (command : Str)
    (o n : Str) (g : Bool)
    (hr : r < s.lines.length) (hy : s.cursor_y = (r : Int))
    (hp : parse_search_replace command = .ok (some (o, n, g)))
    (hl : replace_loop o n g fuel (s.lines.getD r []) 0 = .error .outOfFuel) :
    handle_search_replace fuel s command = .error .outOfFuel := by
  unfold handle_search_replace
  simp only [hp, bind, Except.bind, hy, lineAt_natCast _ _ hr, hl]

theorem command_mode_search_replace (fuel : Nat) (s : MiniVim) (body : Str) (input : List Int)
    (hb : s.command_buffer = 's' :: '/' :: body) :
    command_mode fuel s 10 input =
      (handle_search_replace fuel s ('s' :: '/' :: body)).map
        (fun s1 => ({ s1 with command_buffer := [], command_mode_active := false }, input)) := by
  unfold command_mode execute_command
  rw [hb]
  cases h : handle_search_replace fuel s ('s' :: '/' :: body) <;>
    simp [h, bind, Except.bind, pure, Except.pure, Except.map, List.isPrefixOf]

/-- C6: with the cursor on a valid row, a non-empty `old` and no `/` in `old`
or `new`, the command `s/old/new/g` (given enough loop budget: more
iterations than the line has characters) returns normally and replaces the
current line by `replaceAll old new line`: all non-overlapping occurrences of
`old`, scanned left to right, replaced by `new`, never re-matching inserted
text.  This holds for `handle_search_replace` and for Enter in Command mode. -/
theorem substitute_global_replaces_all (fuel : Nat) (s : MiniVim) (r : Nat) (old new : Str)
    (input : List Int)
    (hr : r < s.lines.length) (hy : s.cursor_y = (r : Int))
    (hold : old ≠ []) (ho : '/' ∉ old) (hn : '/' ∉ new)
    (hfuel : (s.lines.getD r []).length < fuel)
    (hb : s.command_buffer = 's' :: '/' :: (old ++ '/' :: (new ++ ['/', 'g']))) :
    (∃ t, handle_search_replace fuel s ('s' :: '/' :: (old ++ '/' :: (new ++ ['/', 'g']))) = .ok t ∧
      t.lines = s.lines.set r (replaceAll old new (s.lines.getD r []))) ∧
    (∃ s', command_mode fuel s 10 input = .ok (s', input) ∧
      s'.lines = s.lines.set r (replaceAll old new (s.lines.getD r []))) := by
  have hp := parse_search_replace_form old new ['g'] ho hn
  simp only [decide_True] at hp
  obtain ⟨t, ht, hl, -⟩ := handle_search_replace_of_parse fuel s r _ old new _ true hr hy hp
    (replace_loop_global_from_start old new hold fuel _ hfuel)
  refine ⟨⟨t, ht, hl⟩, ?_⟩
  rw [command_mode_search_replace fuel s _ input hb]
  refine ⟨{ t with command_buffer := [], command_mode_active := false }, ?_, hl⟩
  simp [ht, Except.map]

theorem substitute_global_replaces_all_witness :
    (0 : Nat) < (fooState ['s', '/', 'f', 'o', 'o', '/', 'b', 'a', 'r', '/', 'g']).lines.length ∧
    (fooState ['s', '/', 'f', 'o', 'o', '/', 'b', 'a', 'r', '/', 'g']).cursor_y = ((0 : Nat) : Int) ∧
    ['f', 'o', 'o'] ≠ [] ∧ '/' ∉ ['f', 'o', 'o'] ∧ '/' ∉ ['b', 'a', 'r'] ∧
    ((fooState ['s', '/', 'f', 'o', 'o', '/', 'b', 'a', 'r', '/', 'g']).lines.getD 0 []).length < 10 ∧
    (∃ t, handle_search_replace 10 (fooState ['s', '/', 'f', 'o', 'o', '/', 'b', 'a', 'r', '/', 'g'])
        ['s', '/', 'f', 'o', 'o', '/', 'b', 'a', 'r', '/', 'g'] = .ok t ∧
      t.lines = [['b', 'a', 'r', 'b', 'a', 'r', 'b', 'a', 'r']]) ∧
    (∃ s', command_mode 10 (fooState ['s', '/', 'f', 'o', 'o', '/', 'b', 'a', 'r', '/', 'g']) 10 []
        = .ok (s', []) ∧
      s'.lines = [['b', 'a', 'r', 'b', 'a', 'r', 'b', 'a', 'r']]) :=
  ⟨by decide, rfl, by decide, by decide, by decide, by decide,
    substitute_global_replaces_all 10
      (fooState ['s', '/', 'f', 'o', 'o', '/', 'b', 'a', 'r', '/', 'g'])
      0 ['f', 'o', 'o'] ['b', 'a', 'r'] [] (by decide) rfl (by decide) (by decide) (by decide)
      (by decide) rfl⟩

/-- C7: with the cursor on a valid row, a non-empty `old` and no `/` in `old`
or `new`, the command `s/old/new/` (no trailing `g`; one loop iteration
suffices) returns normally and replaces only the first occurrence: if `i` is
the least index at which `old` occurs in the line, the new line is
`line[0..i) ++ new ++ line[i+|old|..)`; if `old` does not occur, the line is
unchanged. -/
theorem substitute_first_only (fuel : Nat) (s : MiniVim) (r : Nat) (old new : Str)
    (hr : r < s.lines.length) (hy : s.cursor_y = (r : Int))
    (hold : old ≠ []) (ho : '/' ∉ old) (hn : '/' ∉ new) (hfuel : 0 < fuel) :
    ∃ t line', handle_search_replace fuel s ('s' :: '/' :: (old ++ '/' :: (new ++ ['/']))) = .ok t ∧
      t.lines = s.lines.set r line' ∧
      (∀ i, old <+: (s.lines.getD r []).drop i →
        (∀ j, j < i → ¬ old <+: (s.lines.getD r []).drop j) →
        line' = (s.lines.getD r []).take i ++ new ++ (s.lines.getD r []).drop (i + old.length)) ∧
      ((∀ i, ¬ old <+: (s.lines.getD r []).drop i) → line' = s.lines.getD r []) := by
  have hp := parse_search_replace_form old new [] ho hn
  have hg : decide (([] : Str) = ['g']) = false := by decide
  rw [hg] at hp
  obtain ⟨f, rfl⟩ : ∃ f, fuel = f + 1 := ⟨fuel - 1, by omega⟩
  obtain ⟨t, ht, hl, -⟩ := handle_search_replace_of_parse (f + 1) s r _ old new _ false hr hy hp
    (replace_loop_first old new f _)
  refine ⟨t, _, ht, hl, ?_, ?_⟩
  · intro i hi hmin
    cases hf : findAt old (s.lines.getD r []) 0 with
    | none => exact absurd hi (findAt_none _ _ hold hf i)
    | some k =>
      obtain ⟨-, hk, hkmin⟩ := findAt_some _ _ k hold hf
      have hik : i = k := by
        rcases Nat.lt_trichotomy i k with h | h | h
        · exact absurd hi (hkmin i h)
        · exact h
        · exact absurd hk (hmin k h)
      subst hik
      rfl
  · intro hnone
    cases hf : findAt old (s.lines.getD r []) 0 with
    | none => rfl
    | some k =>
      obtain ⟨-, hk, -⟩ := findAt_some _ _ k hold hf
      exact absurd hk (hnone k)

theorem substitute_first_only_witness :
    (0 : Nat) < (fooState []).lines.length ∧ (fooState []).cursor_y = ((0 : Nat) : Int) ∧
    ['f', 'o', 'o'] ≠ [] ∧ '/' ∉ ['f', 'o', 'o'] ∧ '/' ∉ ['b', 'a', 'r'] ∧ 0 < 1 ∧
    ∃ t line', handle_search_replace 1 (fooState [])
        ('s' :: '/' :: (['f', 'o', 'o'] ++ '/' :: (['b', 'a', 'r'] ++ ['/']))) = .ok t ∧
      t.lines = (fooState []).lines.set 0 line' ∧
      (∀ i, ['f', 'o', 'o'] <+: ((fooState []).lines.getD 0 []).drop i →
        (∀ j, j < i → ¬ ['f', 'o', 'o'] <+: ((fooState []).lines.getD 0 []).drop j) →
        line' = ((fooState []).lines.getD 0 []).take i ++ ['b', 'a', 'r']
          ++ ((fooState []).lines.getD 0 []).drop (i + ['f', 'o', 'o'].length)) ∧
      ((∀ i, ¬ ['f', 'o', 'o'] <+: ((fooState []).lines.getD 0 []).drop i) →
        line' = (fooState []).lines.getD 0 []) :=
  ⟨by decide, rfl, by decide, by decide, by decide, by decide,
    substitute_first_only 1 (fooState []) 0 ['f', 'o', 'o'] ['b', 'a', 'r']
      (by decide) rfl (by decide) (by decide) (by decide) (by decide)⟩

/-- C8: with the cursor on a valid row `r`, for every command that begins
with `s/` and every loop budget, `handle_search_replace` either is still in
its loop when the budget runs out or returns normally with the same number of
lines and the same text on every row other than `r`; and it does return
normally whenever the pattern it parsed is non-empty or the command is not
global, given a budget larger than the length of the current line. -/
theorem substitute_touches_only_cursor_row (fuel : Nat) (s : MiniVim) (r : Nat) (body : Str)
    (hr : r < s.lines.length) (hy : s.cursor_y = (r : Int)) :
    (handle_search_replace fuel s ('s' :: '/' :: body) = .error .outOfFuel ∨
      ∃ s', handle_search_replace fuel s ('s' :: '/' :: body) = .ok s' ∧
        s'.lines.length = s.lines.length ∧ ∀ i, i ≠ r → s'.lines[i]? = s.lines[i]?) ∧
    (∀ o n g, parse_search_replace ('s' :: '/' :: body) = .ok (some (o, n, g)) →
      (o ≠ [] ∨ g = false) → (s.lines.getD r []).length < fuel →
      ∃ s', handle_search_replace fuel s ('s' :: '/' :: body) = .ok s') := by
  constructor
  · obtain ⟨x, hx⟩ := parse_search_replace_ok ('s' :: '/' :: body)
    cases x with
    | none =>
      right
      exact ⟨s, handle_search_replace_no_parse fuel s _ hx, rfl, fun _ _ => rfl⟩
    | some p =>
      obtain ⟨o, n, g⟩ := p
      rcases replace_loop_ok_or_fuel o n g fuel (s.lines.getD r []) 0 with hl | ⟨x, hl⟩
      · left
        exact handle_search_replace_fuel fuel s r _ o n g hr hy hx hl
      · right
        obtain ⟨s', hs', hlines, -⟩ := handle_search_replace_of_parse fuel s r _ o n x g hr hy hx hl
        refine ⟨s', hs', by simp [hlines], ?_⟩
        intro i hi
        rw [hlines, List.getElem?_set_ne (Ne.symm hi)]
  · intro o n g hp hog hfuel
    have hl : ∃ x, replace_loop o n g fuel (s.lines.getD r []) 0 = .ok x := by
      cases g with
      | true =>
        have ho : o ≠ [] := by
          rcases hog with h | h
          · exact h
          · exact absurd h (by decide)
        exact ⟨_, replace_loop_global_from_start o n ho fuel _ hfuel⟩
      | false =>
        obtain ⟨f, rfl⟩ : ∃ f, fuel = f + 1 := ⟨fuel - 1, by omega⟩
        exact ⟨_, replace_loop_first o n f _⟩
    obtain ⟨x, hx⟩ := hl
    obtain ⟨s', hs', -⟩ := handle_search_replace_of_parse fuel s r _ o n x g hr hy hp hx
    exact ⟨s', hs'⟩

theorem substitute_touches_only_cursor_row_witness :
    (1 : Nat) < (sample [['a'], ['b', 'a', 'b'], ['b']] 1 0).lines.length ∧
    (sample [['a'], ['b', 'a', 'b'], ['b']] 1 0).cursor_y = ((1 : Nat) : Int) ∧
    ((handle_search_replace 5 (sample [['a'], ['b', 'a', 'b'], ['b']] 1 0)
        ('s' :: '/' :: ['b', '/', 'c', '/', 'g']) = .error .outOfFuel ∨
      ∃ s', handle_search_replace 5 (sample [['a'], ['b', 'a', 'b'], ['b']] 1 0)
          ('s' :: '/' :: ['b', '/', 'c', '/', 'g']) = .ok s' ∧
        s'.lines.length = (sample [['a'], ['b', 'a', 'b'], ['b']] 1 0).lines.length ∧
        ∀ i, i ≠ 1 → s'.lines[i]? = (sample [['a'], ['b', 'a', 'b'], ['b']] 1 0).lines[i]?) ∧
    (∀ o n g, parse_search_replace ('s' :: '/' :: ['b', '/', 'c', '/', 'g']) = .ok (some (o, n, g)) →
      (o ≠ [] ∨ g = false) →
      ((sample [['a'], ['b', 'a', 'b'], ['b']] 1 0).lines.getD 1 []).length < 5 →
      ∃ s', handle_search_replace 5 (sample [['a'], ['b', 'a', 'b'], ['b']] 1 0)
        ('s' :: '/' :: ['b', '/', 'c', '/', 'g']) = .ok s')) :=
  ⟨by decide, rfl,
    substitute_touches_only_cursor_row 5 (sample [['a'], ['b', 'a', 'b'], ['b']] 1 0) 1
      ['b', '/', 'c', '/', 'g'] (by decide) rfl⟩

theorem execute_command_number (fuel : Nat) (s : MiniVim) (input : List Int)
    (hnum : is_number s.command_buffer = true) :
    execute_command fuel s input =
      (do
        let target_line ← stoi s.command_buffer
        if target_line ≥ 1 ∧ toSizeT target_line ≤ s.lines.length then do
          let s1 := adjust_window { s with cursor_y := target_line - 1 }
          let line ← lineAt s1.lines s1.cursor_y
          pure ({ s1 with cursor_x := min s1.cursor_x (line.length : Int) }, input)
        else pure (s, input)) := by
  unfold execute_command
  cases hb : s.command_buffer with
  | nil => rw [hb] at hnum; simp [is_number] at hnum
  | cons c cs =>
    rw [hb] at hnum
    have hd : c.isDigit = true := by
      simp [is_number] at hnum; exact hnum.1
    have hq : c ≠ 'q' := by intro h; subst h; exact absurd hd (by decide)
    have hw : c ≠ 'w' := by intro h; subst h; exact absurd hd (by decide)
    have hs : c ≠ 's' := by intro h; subst h; exact absurd hd (by decide)
    have h1 : ¬ (c :: cs = ['q']) := by simp [hq]
    have h2 : ¬ (c :: cs = ['w']) := by simp [hw]
    have h3 : ¬ (c :: cs = ['w', 'q']) := by simp [hw]
    have h4 : ¬ (['s', '/'].isPrefixOf (c :: cs) = true) := by
      simp [List.isPrefixOf, Ne.symm hs]
    rw [if_neg h1, if_neg h2, if_neg h3, if_neg h4, if_pos hnum]

/-- The numeric jump for a value that fits an `int`: Enter returns normally,
leaves the lines alone, moves to row `N - 1` when `1 <= N <= line count` and
otherwise leaves the cursor where it was; the column is then within the line. -/
theorem jump_command_within_int (fuel : Nat) (s : MiniVim) (r : Nat) (v : Int)
    (input : List Int)
    (hr : r < s.lines.length) (hy : s.cursor_y = (r : Int))
    (hx : s.cursor_x ≤ ((s.lines.getD r []).length : Int))
    (hnum : is_number s.command_buffer = true)
    (hv : stoi s.command_buffer = .ok v) :
    ∃ s', command_mode fuel s 10 input = .ok (s', input) ∧ s'.lines = s.lines ∧
      ((1 ≤ v ∧ v ≤ s.lines.length) → s'.cursor_y = v - 1) ∧
      (¬ (1 ≤ v ∧ v ≤ s.lines.length) →
        s'.cursor_y = s.cursor_y ∧ s'.cursor_x = s.cursor_x) ∧
      ∃ r' : Nat, r' < s'.lines.length ∧ s'.cursor_y = (r' : Int) ∧
        s'.cursor_x ≤ ((s'.lines.getD r' []).length : Int) := by
  unfold command_mode
  simp only [show ¬ ((10 : Int) = 27) by decide, if_false, if_true,
    execute_command_number fuel s input hnum, hv, bind, Except.bind]
  by_cases hrange : 1 ≤ v ∧ v ≤ s.lines.length
  · obtain ⟨k, rfl⟩ : ∃ k : Nat, v = (k : Int) + 1 := ⟨(v - 1).toNat, by omega⟩
    have hk : k < s.lines.length := by omega
    have hcond : ((k : Int) + 1 ≥ 1 ∧ toSizeT ((k : Int) + 1) ≤ s.lines.length) := by
      refine ⟨by omega, ?_⟩
      have := toSizeT_natCast (k + 1)
      push_cast at this
      rw [this]; omega
    rw [if_pos hcond]
    have hla := lineAt_natCast s.lines k hk
    simp only [adjust_window, add_sub_cancel_right, hla, pure, Except.pure]
    refine ⟨_, rfl, rfl, fun _ => rfl, fun h => absurd hrange h, k, hk, rfl, ?_⟩
    exact min_le_right _ _
  · have hcond : ¬ (v ≥ 1 ∧ toSizeT v ≤ s.lines.length) := by
      intro ⟨h1, h2⟩
      apply hrange
      refine ⟨h1, ?_⟩
      unfold toSizeT at h2
      have : ¬ v < 0 := by omega
      rwa [if_neg this] at h2
    rw [if_neg hcond]
    exact ⟨_, rfl, rfl, fun h => absurd h hrange, fun _ => ⟨rfl, rfl⟩, r, hr, hy, hx⟩

/-- C9: the claim fails on the code for digit strings whose value exceeds
`INT_MAX`.  On a 3-line buffer the command `2147483648` passes `is_number`,
and `std::stoi` then throws `std::out_of_range`, which nothing catches: Enter
does not return, where the claim says it is a no-op.  On the same buffer the
command `2147483647` is a no-op, `5` is a no-op and `2` moves the cursor to
row 1. -/
theorem jump_command_overflow_throws :
    is_number ['2', '1', '4', '7', '4', '8', '3', '6', '4', '8'] = true ∧
    command_mode 0 (jumpState ['2', '1', '4', '7', '4', '8', '3', '6', '4', '8']) 10 []
      = .error .uncaught ∧
    command_mode 0 (jumpState ['2', '1', '4', '7', '4', '8', '3', '6', '4', '7']) 10 []
      = .ok (sample [['a'], ['b'], ['c']] 0 0, []) ∧
    command_mode 0 (jumpState ['5']) 10 [] = .ok (sample [['a'], ['b'], ['c']] 0 0, []) ∧
    command_mode 0 (jumpState ['2']) 10 [] = .ok (sample [['a'], ['b'], ['c']] 1 0, []) :=
  ⟨rfl, rfl, rfl, rfl, rfl⟩

/-- The keys `h`, `l`, `0`, `$` (and Ctrl-D, Ctrl-E) keep a valid cursor
valid: the row is untouched and the column stays within the line. -/
theorem horizontal_moves_keep_cursor_valid (s : MiniVim) (r : Nat) (ch : Int) (input : List Int)
    (hr : r < s.lines.length) (hy : s.cursor_y = (r : Int))
    (hx0 : 0 ≤ s.cursor_x) (hx : s.cursor_x ≤ ((s.lines.getD r []).length : Int))
    (hch : ch = 104 ∨ ch = 4 ∨ ch = 108 ∨ ch = 5 ∨ ch = 48 ∨ ch = 36) :
    ∃ s', normal_mode s ch input = .ok (s', input) ∧ s'.lines = s.lines ∧
      s'.cursor_y = (r : Int) ∧ 0 ≤ s'.cursor_x ∧
      s'.cursor_x ≤ ((s'.lines.getD r []).length : Int) := by
  have hts : toSizeT s.cursor_x = s.cursor_x := by
    unfold toSizeT; rw [if_neg (by omega)]
  simp only [List.getD_eq_getElem?_getD] at hx
  rcases hch with h | h | h | h | h | h <;> subst h
  · by_cases hpos : s.cursor_x > 0 <;>
      simp [normal_mode, adjust_window, hpos, pure, Except.pure, hy] <;> omega
  · by_cases hpos : s.cursor_x > 0 <;>
      simp [normal_mode, adjust_window, hpos, pure, Except.pure, hy] <;> omega
  · by_cases hlt : s.cursor_x < ((s.lines[r]?.getD []).length : Int) <;>
      simp [normal_mode, adjust_window, hy, lineAt_natCast _ _ hr, hts, hlt, bind, Except.bind,
        pure, Except.pure] <;> omega
  · by_cases hlt : s.cursor_x < ((s.lines[r]?.getD []).length : Int) <;>
      simp [normal_mode, adjust_window, hy, lineAt_natCast _ _ hr, hts, hlt, bind, Except.bind,
        pure, Except.pure] <;> omega
  · simp [normal_mode, adjust_window, pure, Except.pure, hy]
  · by_cases he : s.lines[r]?.getD [] = [] <;>
      simp [normal_mode, adjust_window, hy, lineAt_natCast _ _ hr, he, bind, Except.bind,
        pure, Except.pure]
    have : 0 < (s.lines[r]?.getD []).length := List.length_pos.mpr he
    omega

/-- The keys `j`, `k`, `G` (and Ctrl-B, Ctrl-C) and the keys `g`, `g` keep
the cursor row within the buffer and leave lines and column as they were. -/
theorem vertical_moves_keep_row_valid (s : MiniVim) (r : Nat) (ch : Int) (input : List Int)
    (hr : r < s.lines.length) (hy : s.cursor_y = (r : Int))
    (hch : ch = 106 ∨ ch = 2 ∨ ch = 107 ∨ ch = 3 ∨ ch = 71 ∨ ch = 103) :
    ∃ s' rest, normal_mode s ch (103 :: input) = .ok (s', rest) ∧ s'.lines = s.lines ∧
      s'.cursor_x = s.cursor_x ∧ ∃ r' : Nat, r' < s'.lines.length ∧ s'.cursor_y = (r' : Int) := by
  have hsz : sizeMinusOne s.lines.length = (s.lines.length : Int) - 1 := by
    unfold sizeMinusOne; rw [if_neg (by omega)]
  rcases hch with h | h | h | h | h | h <;> subst h
  · by_cases hlt : (r : Int) < (s.lines.length : Int) - 1
    · simp [normal_mode, adjust_window, hy, toSizeT_natCast, hsz, hlt, pure, Except.pure]
      exact ⟨r + 1, by omega, by simp⟩
    · simp [normal_mode, adjust_window, hy, toSizeT_natCast, hsz, hlt, pure, Except.pure]
      exact hr
  · by_cases hlt : (r : Int) < (s.lines.length : Int) - 1
    · simp [normal_mode, adjust_window, hy, toSizeT_natCast, hsz, hlt, pure, Except.pure]
      exact ⟨r + 1, by omega, by simp⟩
    · simp [normal_mode, adjust_window, hy, toSizeT_natCast, hsz, hlt, pure, Except.pure]
      exact hr
  · by_cases hpos : 0 < r
    · simp [normal_mode, adjust_window, hy, hpos, pure, Except.pure]
      exact ⟨r - 1, by omega, by omega⟩
    · simp [normal_mode, adjust_window, hy, hpos, pure, Except.pure]
      exact hr
  · by_cases hpos : 0 < r
    · simp [normal_mode, adjust_window, hy, hpos, pure, Except.pure]
      exact ⟨r - 1, by omega, by omega⟩
    · simp [normal_mode, adjust_window, hy, hpos, pure, Except.pure]
      exact hr
  · simp [normal_mode, adjust_window, pure, Except.pure]
    exact ⟨s.lines.length - 1, by omega, by omega⟩
  · simp [normal_mode, adjust_window, getch, pure, Except.pure]
    exact ⟨0, by omega, rfl⟩

/-- C10: the claim fails on the code of `multifile.cpp`.  On the buffer
`["abc", ""]` with the valid cursor (row 0, column 3) the key `j` (and `G`)
returns with the cursor at (row 1, column 3), beyond the end of the empty
line; on `["", "abc"]` with the valid cursor (row 1, column 3) the keys `k`
and `g`, `g` return with the cursor at (row 0, column 3).  The handlers of
`j`, `k`, `gg` and `G` do not touch the column. -/
theorem vertical_moves_leave_column_unclamped :
    normal_mode (sample [['a', 'b', 'c'], []] 0 3) 106 []
      = .ok (sample [['a', 'b', 'c'], []] 1 3, []) ∧
    normal_mode (sample [['a', 'b', 'c'], []] 0 3) 71 []
      = .ok (sample [['a', 'b', 'c'], []] 1 3, []) ∧
    normal_mode (sample [[], ['a', 'b', 'c']] 1 3) 107 []
      = .ok (sample [[], ['a', 'b', 'c']] 0 3, []) ∧
    normal_mode (sample [[], ['a', 'b', 'c']] 1 3) 103 [103]
      = .ok (sample [[], ['a', 'b', 'c']] 0 3, []) ∧
    lineAt (sample [['a', 'b', 'c'], []] 1 3).lines 1 = .ok [] ∧
    lineAt (sample [[], ['a', 'b', 'c']] 0 3).lines 0 = .ok [] :=
  ⟨rfl, rfl, rfl, rfl, rfl, rfl⟩

/-- C11: the claim fails on the code.  From the buffer `["a", "b"]` with the
cursor on row 0 in Normal mode, the keys `d d`, `u`, `d d`, Ctrl-R run
normally and leave the buffer with no line at all: the second `dd` does not
clear the redo stack, and `redo` erases the only remaining row without
putting an empty line back (as `dd` does).  The next iteration of the run
loop then indexes the empty vector.  The same happens after `y y`, `p`, `i`,
Backspace, Escape, `u` on the buffer `["a"]`. -/
theorem redo_delete_empties_buffer :
    (∃ s4, run_steps 0 4 (sample [['a'], ['b']] 0 0) [100, 100, 117, 100, 100, 18] = .ok (s4, []) ∧
      s4.lines = []) ∧
    run_steps 0 5 (sample [['a'], ['b']] 0 0) [100, 100, 117, 100, 100, 18, 106]
      = .error .undefinedBehaviour ∧
    (∃ s6, run_steps 0 6 (sample [['a']] 0 0) [121, 121, 112, 105, 7, 27, 117] = .ok (s6, []) ∧
      s6.lines = []) :=
  ⟨⟨_, rfl, rfl⟩, rfl, ⟨_, rfl, rfl⟩⟩

theorem take_succ_insert (A B : Str) (x : Char) :
    (A ++ x :: B).take (A.length + 1) = A ++ [x] := by
  induction A with
  | nil => simp
  | cons a as ih => simpa using ih

theorem drop_succ_insert (A B : Str) (x : Char) :
    (A ++ x :: B).drop (A.length + 1) = B := by
  induction A with
  | nil => simp
  | cons a as ih => simp

theorem run_step_insert (fuel : Nat) (s : MiniVim) (r : Nat) (k : Int) (rest : List Int)
    (hr : r < s.lines.length) (hy : s.cursor_y = (r : Int))
    (hi : s.insert_mode_active = true) (hc : s.command_mode_active = false) :
    run_step fuel s (k :: rest) =
      (insert_mode
        { s with cursor_x := max (min s.cursor_x (((s.lines.getD r []).length : Int) - 1)) 0 }
        (toChar8 k)).map (fun s2 => (s2, rest)) := by
  simp only [run_step, draw_valid s r hr hy, getch, bind, Except.bind, hi, hc, if_true,
    Bool.false_eq_true, if_false, Except.map, pure, Except.pure]

theorem insert_mode_printing (s : MiniVim) (r c : Nat) (k : Int)
    (hr : r < s.lines.length) (hy : s.cursor_y = (r : Int)) (hx : s.cursor_x = (c : Int))
    (hc : c ≤ (s.lines.getD r []).length) (hk : 32 ≤ k ∧ k < 127) :
    insert_mode s k = .ok (adjust_window { s with
      lines := s.lines.set r
        ((s.lines.getD r []).take c ++ keyChar k :: (s.lines.getD r []).drop c),
      cursor_x := (c : Int) + 1 }) := by
  have k1 : ¬ k = 27 := by omega
  have k2 : ¬ k = 4 := by omega
  have k3 : ¬ k = 5 := by omega
  have k4 : ¬ k = 3 := by omega
  have k5 : ¬ k = 2 := by omega
  have k6 : ¬ k = 10 := by omega
  have k7 : ¬ (k = 7 ∨ k = KEY_BACKSPACE) := by unfold KEY_BACKSPACE; omega
  have hgt : ¬ ((c : Int) > ((s.lines.getD r []).length : Int)) := by omega
  have hpos : ¬ (c > (s.lines.getD r []).length) := by omega
  unfold insert_mode
  simp only [if_neg k1, if_neg k2, if_neg k3, if_neg k4, if_neg k5, if_neg k6, if_neg k7, hy, hx,
    lineAt_natCast _ _ hr, toSizeT_natCast, if_neg hgt, Int.toNat_ofNat, if_neg hpos,
    bind, Except.bind, pure, Except.pure]

/-- Typing inside a line works as the claim C12 says: in Insert mode, with the
cursor on a valid row at a column `c` strictly before the end of the line, two
printing keys `x`, `y` read by the run loop leave `x` at index `c`, `y` at
index `c + 1`, the rest of the line in place, and the cursor at column
`c + 2`. -/
theorem typing_inside_line (fuel : Nat) (s : MiniVim) (r c : Nat) (x y : Int) (rest : List Int)
    (hr : r < s.lines.length) (hy : s.cursor_y = (r : Int)) (hx : s.cursor_x = (c : Int))
    (hi : s.insert_mode_active = true) (hcm : s.command_mode_active = false)
    (hc : c < (s.lines.getD r []).length)
    (hkx : 32 ≤ x ∧ x < 127) (hky : 32 ≤ y ∧ y < 127) :
    ∃ s', run_steps fuel 2 s (x :: y :: rest) = .ok (s', rest) ∧
      s'.lines = s.lines.set r
        ((s.lines.getD r []).take c ++ keyChar x :: keyChar y :: (s.lines.getD r []).drop c) ∧
      s'.cursor_x = (c : Int) + 2 ∧ s'.cursor_y = (r : Int) := by
  have hclamp : max (min s.cursor_x (((s.lines.getD r []).length : Int) - 1)) 0 = (c : Int) := by
    rw [hx]; omega
  let s0 : MiniVim := { s with cursor_x := (c : Int) }
  let line1 := (s.lines.getD r []).take c ++ keyChar x :: (s.lines.getD r []).drop c
  let s1 : MiniVim := adjust_window { s0 with lines := s0.lines.set r line1, cursor_x := (c : Int) + 1 }
  have hstep1 : run_step fuel s (x :: y :: rest) = .ok (s1, y :: rest) := by
    rw [run_step_insert fuel s r x (y :: rest) hr hy hi hcm, hclamp,
      toChar8_small x (by omega) (by omega)]
    have h := insert_mode_printing s0 r c x hr hy rfl (by simpa using hc.le) hkx
    rw [h]
    rfl
  have hr1 : r < s1.lines.length := by simpa [s1, s0, adjust_window] using hr
  have hline1 : s1.lines.getD r [] = line1 := by
    simp [s1, s0, adjust_window, line1, hr]
  have hlen1 : line1.length = (s.lines.getD r []).length + 1 := by
    simp [line1]; omega
  have hclamp1 : max (min s1.cursor_x (((s1.lines.getD r []).length : Int) - 1)) 0
      = ((c + 1 : Nat) : Int) := by
    rw [hline1, hlen1]
    have : s1.cursor_x = (c : Int) + 1 := rfl
    rw [this]; push_cast; omega
  let s1c : MiniVim := { s1 with cursor_x := ((c + 1 : Nat) : Int) }
  let line2 := line1.take (c + 1) ++ keyChar y :: line1.drop (c + 1)
  let s2 : MiniVim := adjust_window
    { s1c with lines := s1c.lines.set r line2, cursor_x := ((c + 1 : Nat) : Int) + 1 }
  have hstep2 : run_step fuel s1 (y :: rest) = .ok (s2, rest) := by
    rw [run_step_insert fuel s1 r y rest hr1 hy hi hcm, hclamp1,
      toChar8_small y (by omega) (by omega)]
    have h := insert_mode_printing s1c r (c + 1) y hr1 hy rfl
      (by show c + 1 ≤ (s1.lines.getD r []).length; rw [hline1, hlen1]; omega) hky
    rw [h]
    have e : s1c.lines.getD r [] = line1 := hline1
    rw [e]
    rfl
  have hA : ((s.lines.getD r []).take c).length = c := by
    rw [List.length_take]; omega
  have ht : line1.take (c + 1) = (s.lines.getD r []).take c ++ [keyChar x] := by
    have h := take_succ_insert ((s.lines.getD r []).take c) ((s.lines.getD r []).drop c) (keyChar x)
    rwa [hA] at h
  have hd : line1.drop (c + 1) = (s.lines.getD r []).drop c := by
    have h := drop_succ_insert ((s.lines.getD r []).take c) ((s.lines.getD r []).drop c) (keyChar x)
    rwa [hA] at h
  refine ⟨s2, ?_, ?_, ?_, ?_⟩
  · simp only [run_steps, bind, Except.bind, pure, Except.pure, hstep1, hstep2]
  · show (s.lines.set r line1).set r line2 = _
    rw [List.set_set]
    simp only [line2, ht, hd]
    simp
  · show ((c + 1 : Nat) : Int) + 1 = (c : Int) + 2
    push_cast; omega
  · exact hy

/-- C12: the claim fails on the code when the cursor is at the end of the
line.  Through the run loop, `i` then `a`, `b` on an empty line leaves the
line `"ba"`, not `"ab"`; on the line `"xyz"` with the cursor at column 3, `i`,
`a`, `b` gives `"xyabz"` (the characters go in before the last character):
before every key `draw` pulls the column back to `length - 1`. -/
theorem typing_at_line_end_is_misplaced :
    (∃ s', run_steps 0 3 (sample [[]] 0 0) [105, 97, 98] = .ok (s', []) ∧
      s'.lines = [['b', 'a']] ∧ s'.cursor_x = 1) ∧
    (∃ s', run_steps 0 3 (sample [['x', 'y', 'z']] 0 3) [105, 97, 98] = .ok (s', []) ∧
      s'.lines = [['x', 'y', 'a', 'b', 'z']] ∧ s'.cursor_x = 4) :=
  ⟨⟨_, rfl, rfl, rfl⟩, ⟨_, rfl, rfl, rfl⟩⟩

theorem take_succ_set (L : List Str) (r : Nat) (x : Str) (h : r < L.length) :
    (L.set r x).take (r + 1) = L.take r ++ [x] := by
  induction L generalizing r with
  | nil => simp at h
  | cons a as ih =>
    cases r with
    | zero => simp
    | succ r =>
      have h' : r < as.length := by simpa using h
      simpa using ih r h'

theorem drop_succ_set (L : List Str) (r : Nat) (x : Str) :
    (L.set r x).drop (r + 1) = L.drop (r + 1) := by
  induction L generalizing r with
  | nil => simp
  | cons a as ih =>
    cases r with
    | zero => simp
    | succ r => simpa using ih r

/-- C13: in Insert mode, with the cursor on a valid row `r` at a column `c`
with `0 <= c <= length`, Enter returns normally, replaces row `r` by the two
rows `line[0..c)` and `line[c..)` (whose concatenation is the old line),
leaves every other row as it was, so that there is exactly one more line, and
puts the cursor at `(r + 1, 0)`. -/
theorem insert_enter_splits_line (s : MiniVim) (r c : Nat)
    (hr : r < s.lines.length) (hy : s.cursor_y = (r : Int)) (hx : s.cursor_x = (c : Int))
    (hc : c ≤ (s.lines.getD r []).length) :
    ∃ s', insert_mode s 10 = .ok s' ∧
      s'.lines = s.lines.take r ++
        (s.lines.getD r []).take c :: (s.lines.getD r []).drop c :: s.lines.drop (r + 1) ∧
      (s.lines.getD r []).take c ++ (s.lines.getD r []).drop c = s.lines.getD r [] ∧
      s'.lines.length = s.lines.length + 1 ∧
      s'.cursor_y = (r : Int) + 1 ∧ s'.cursor_x = 0 := by
  have hle : r + 1 ≤ (s.lines.set r ((s.lines.getD r []).take c)).length := by
    simpa using hr
  have hins := vecInsert_natCast (s.lines.set r ((s.lines.getD r []).take c)) (r + 1)
    ((s.lines.getD r []).drop c) hle
  push_cast at hins
  have hc' : ¬ (c > (s.lines.getD r []).length) := by omega
  have h0 : ¬ (0 > (s.lines.getD r []).length) := by omega
  have hlines : (s.lines.set r ((s.lines.getD r []).take c)).take (r + 1) ++
      (s.lines.getD r []).drop c :: (s.lines.set r ((s.lines.getD r []).take c)).drop (r + 1)
      = s.lines.take r ++
        (s.lines.getD r []).take c :: (s.lines.getD r []).drop c :: s.lines.drop (r + 1) := by
    rw [take_succ_set _ _ _ hr, drop_succ_set]; simp
  refine ⟨adjust_window { s with
      lines := s.lines.take r ++
        (s.lines.getD r []).take c :: (s.lines.getD r []).drop c :: s.lines.drop (r + 1),
      cursor_y := (r : Int) + 1, cursor_x := 0 }, ?_, rfl, List.take_append_drop _ _, ?_, rfl, rfl⟩
  · unfold insert_mode
    simp only [show ¬ ((10 : Int) = 27) by decide, show ¬ ((10 : Int) = 4) by decide,
      show ¬ ((10 : Int) = 5) by decide, show ¬ ((10 : Int) = 3) by decide,
      show ¬ ((10 : Int) = 2) by decide, if_false, if_true, hy, hx, toSizeT_natCast,
      Int.toNat_ofNat, lineAt_natCast _ _ hr, substr, if_neg hc', if_neg h0, List.drop_zero,
      bind, Except.bind, hins, hlines, pure, Except.pure]
  · simp [adjust_window]
    omega

theorem insert_enter_splits_line_witness :
    (1 : Nat) < (sample [['a'], ['b', 'c', 'd'], ['e']] 1 2).lines.length ∧
    (sample [['a'], ['b', 'c', 'd'], ['e']] 1 2).cursor_y = ((1 : Nat) : Int) ∧
    (sample [['a'], ['b', 'c', 'd'], ['e']] 1 2).cursor_x = ((2 : Nat) : Int) ∧
    2 ≤ ((sample [['a'], ['b', 'c', 'd'], ['e']] 1 2).lines.getD 1 []).length ∧
    ∃ s', insert_mode (sample [['a'], ['b', 'c', 'd'], ['e']] 1 2) 10 = .ok s' ∧
      s'.lines = [['a'], ['b', 'c'], ['d'], ['e']] ∧
      ['b', 'c'] ++ ['d'] = ['b', 'c', 'd'] ∧
      s'.lines.length = 3 + 1 ∧
      s'.cursor_y = ((1 : Nat) : Int) + 1 ∧ s'.cursor_x = 0 :=
  ⟨by decide, rfl, rfl, by decide,
    insert_enter_splits_line (sample [['a'], ['b', 'c', 'd'], ['e']] 1 2) 1 2
      (by decide) rfl rfl (by decide)⟩

theorem eraseIdx_succ_set (L : List Str) (k : Nat) (x : Str) (h : k + 1 < L.length) :
    (L.set k x).eraseIdx (k + 1) = L.take k ++ x :: L.drop (k + 2) := by
  induction L generalizing k with
  | nil => simp at h
  | cons a as ih =>
    cases k with
    | zero =>
      cases as with
      | nil => simp at h
      | cons b bs => simp
    | succ k =>
      have h' : k + 1 < as.length := by simpa using h
      simpa using ih k h'

/-- C14: in Insert mode with the cursor on a valid row `r`, Backspace (key 7
or `KEY_BACKSPACE`) returns normally and
* at column 0 of a row `r = k + 1`, replaces rows `k` and `k + 1` by the single
  row `lines[k] ++ lines[k + 1]`, leaves the other rows alone and puts the
  cursor at `(k, length of the old lines[k])`;
* at `(0, 0)`, changes neither lines nor cursor;
* at a column `c` with `0 < c <= length`, removes exactly the character at
  index `c - 1` of the current line and moves the cursor to column `c - 1`. -/
theorem insert_backspace_effect (s : MiniVim) (r : Nat) (ch : Int)
    (hr : r < s.lines.length) (hy : s.cursor_y = (r : Int))
    (hch : ch = 7 ∨ ch = KEY_BACKSPACE) :
    (∀ k, r = k + 1 → s.cursor_x = 0 →
      ∃ s', insert_mode s ch = .ok s' ∧
        s'.lines = s.lines.take k ++
          (s.lines.getD k [] ++ s.lines.getD (k + 1) []) :: s.lines.drop (k + 2) ∧
        s'.cursor_y = (k : Int) ∧ s'.cursor_x = ((s.lines.getD k []).length : Int)) ∧
    (r = 0 → s.cursor_x = 0 →
      ∃ s', insert_mode s ch = .ok s' ∧ s'.lines = s.lines ∧
        s'.cursor_y = s.cursor_y ∧ s'.cursor_x = s.cursor_x) ∧
    (∀ c : Nat, s.cursor_x = (c : Int) → 0 < c → c ≤ (s.lines.getD r []).length →
      ∃ s', insert_mode s ch = .ok s' ∧
        s'.lines = s.lines.set r
          ((s.lines.getD r []).take (c - 1) ++ (s.lines.getD r []).drop c) ∧
        s'.cursor_y = (r : Int) ∧ s'.cursor_x = (c : Int) - 1) := by
  have hkeys : ¬ ch = 27 ∧ ¬ ch = 4 ∧ ¬ ch = 5 ∧ ¬ ch = 3 ∧ ¬ ch = 2 ∧ ¬ ch = 10 := by
    rcases hch with h | h <;> subst h <;> decide
  obtain ⟨k1, k2, k3, k4, k5, k6⟩ := hkeys
  refine ⟨?_, ?_, ?_⟩
  · intro k hk hx
    subst hk
    have hk' : k < s.lines.length := by omega
    have hprev : s.cursor_y - 1 = (k : Int) := by rw [hy]; push_cast; omega
    have hy' : s.cursor_y = ((k + 1 : Nat) : Int) := hy
    have hpos : s.cursor_y > 0 := by rw [hy]; push_cast; omega
    have hlen : k + 1 < (s.lines.set k (s.lines.getD k [] ++ s.lines.getD (k + 1) [])).length := by
      simpa using hr
    refine ⟨adjust_window { s with
      lines := s.lines.take k ++
        (s.lines.getD k [] ++ s.lines.getD (k + 1) []) :: s.lines.drop (k + 2),
      cursor_x := ((s.lines.getD k []).length : Int), cursor_y := s.cursor_y - 1 }, ?_, rfl,
      by simp [adjust_window, hprev], rfl⟩
    unfold insert_mode
    simp only [if_neg k1, if_neg k2, if_neg k3, if_neg k4, if_neg k5, if_neg k6, if_pos hch, hx,
      show ¬ ((0 : Int) > 0) by decide, if_false, if_pos hpos, hprev, lineAt_natCast _ _ hk',
      Int.toNat_ofNat, bind, Except.bind]
    rw [hy', lineAt_natCast _ _ hr]
    simp only [vecErase_natCast _ _ hlen, eraseIdx_succ_set _ _ _ hr, pure, Except.pure]
  · intro h0 hx
    subst h0
    have hnpos : ¬ (s.cursor_y > 0) := by rw [hy]; simp
    refine ⟨adjust_window s, ?_, rfl, rfl, rfl⟩
    unfold insert_mode
    simp only [if_neg k1, if_neg k2, if_neg k3, if_neg k4, if_neg k5, if_neg k6, if_pos hch, hx,
      show ¬ ((0 : Int) > 0) by decide, if_false, if_neg hnpos, pure, Except.pure]
  · intro c hx hc hcl
    have hpos : s.cursor_x > 0 := by rw [hx]; omega
    have hpred : (s.cursor_x - 1).toNat = c - 1 := by rw [hx]; omega
    have hnot : ¬ (c - 1 > (s.lines.getD r []).length) := by omega
    have hc1 : c - 1 + 1 = c := by omega
    refine ⟨adjust_window { s with
      lines := s.lines.set r ((s.lines.getD r []).take (c - 1) ++ (s.lines.getD r []).drop c),
      cursor_x := s.cursor_x - 1 }, ?_, rfl, by simp [adjust_window, hy],
      by simp [adjust_window, hx]⟩
    unfold insert_mode
    simp only [if_neg k1, if_neg k2, if_neg k3, if_neg k4, if_neg k5, if_neg k6, if_pos hch,
      if_pos hpos, hy, lineAt_natCast _ _ hr, hpred, if_neg hnot, hc1, Int.toNat_ofNat,
      bind, Except.bind, pure, Except.pure]

theorem insert_backspace_effect_witness :
    (1 : Nat) < (sample [['a', 'b'], ['c']] 1 0).lines.length ∧
    (sample [['a', 'b'], ['c']] 1 0).cursor_y = ((1 : Nat) : Int) ∧
    ((7 : Int) = 7 ∨ (7 : Int) = KEY_BACKSPACE) ∧
    (∀ k, 1 = k + 1 → (sample [['a', 'b'], ['c']] 1 0).cursor_x = 0 →
      ∃ s', insert_mode (sample [['a', 'b'], ['c']] 1 0) 7 = .ok s' ∧
        s'.lines = (sample [['a', 'b'], ['c']] 1 0).lines.take k ++
          ((sample [['a', 'b'], ['c']] 1 0).lines.getD k [] ++
            (sample [['a', 'b'], ['c']] 1 0).lines.getD (k + 1) []) ::
          (sample [['a', 'b'], ['c']] 1 0).lines.drop (k + 2) ∧
        s'.cursor_y = (k : Int) ∧
        s'.cursor_x = (((sample [['a', 'b'], ['c']] 1 0).lines.getD k []).length : Int)) ∧
    (1 = 0 → (sample [['a', 'b'], ['c']] 1 0).cursor_x = 0 →
      ∃ s', insert_mode (sample [['a', 'b'], ['c']] 1 0) 7 = .ok s' ∧
        s'.lines = (sample [['a', 'b'], ['c']] 1 0).lines ∧
        s'.cursor_y = (sample [['a', 'b'], ['c']] 1 0).cursor_y ∧
        s'.cursor_x = (sample [['a', 'b'], ['c']] 1 0).cursor_x) ∧
    (∀ c : Nat, (sample [['a', 'b'], ['c']] 1 0).cursor_x = (c : Int) → 0 < c →
      c ≤ ((sample [['a', 'b'], ['c']] 1 0).lines.getD 1 []).length →
      ∃ s', insert_mode (sample [['a', 'b'], ['c']] 1 0) 7 = .ok s' ∧
        s'.lines = (sample [['a', 'b'], ['c']] 1 0).lines.set 1
          (((sample [['a', 'b'], ['c']] 1 0).lines.getD 1 []).take (c - 1) ++
            ((sample [['a', 'b'], ['c']] 1 0).lines.getD 1 []).drop c) ∧
        s'.cursor_y = ((1 : Nat) : Int) ∧ s'.cursor_x = (c : Int) - 1) :=
  ⟨by decide, rfl, Or.inl rfl,
    insert_backspace_effect (sample [['a', 'b'], ['c']] 1 0) 1 7 (by decide) rfl (Or.inl rfl)⟩

/-- C15: `adjust_window` sets `top_line` to the cursor row when the cursor is
above the window, to `cursor row - (screen_height - 3)` when the cursor row is
at or beyond `top_line + screen_height - 2`, and leaves it alone otherwise;
with `top_line = 0`, cursor row 50 and `screen_height = 20` the new `top_line`
is `50 - (20 - 3) = 33`. -/
theorem adjust_window_top_line (s : MiniVim) :
    (adjust_window s).top_line =
      (if s.cursor_y < s.top_line then s.cursor_y
       else if s.cursor_y ≥ s.top_line + s.screen_height - 2 then
         s.cursor_y - (s.screen_height - 3)
       else s.top_line) ∧
    (adjust_window { s with top_line := 0, cursor_y := 50, screen_height := 20 }).top_line
      = 50 - (20 - 3) ∧
    (adjust_window { s with top_line := 0, cursor_y := 50, screen_height := 20 }).top_line = 33 := by
  refine ⟨rfl, ?_, ?_⟩ <;> simp [adjust_window]

/-- C16: for every previous viewport and every cursor, on a screen with
`screen_height >= 3` and `screen_width >= 11`, the viewport computed by
`adjust_window` contains the cursor (which `adjust_window` does not move). -/
theorem adjust_window_contains_cursor (s : MiniVim)
    (hh : 3 ≤ s.screen_height) (hw : 11 ≤ s.screen_width) :
    InWindow (adjust_window s) ∧
    (adjust_window s).cursor_y = s.cursor_y ∧ (adjust_window s).cursor_x = s.cursor_x ∧
    (adjust_window s).top_line ≤ s.cursor_y ∧
    s.cursor_y < (adjust_window s).top_line + s.screen_height - 2 ∧
    (adjust_window s).left_column ≤ s.cursor_x ∧
    s.cursor_x < (adjust_window s).left_column + s.screen_width - 10 := by
  have hv : (adjust_window s).top_line ≤ s.cursor_y ∧
      s.cursor_y < (adjust_window s).top_line + s.screen_height - 2 := by
    simp only [adjust_window]
    split_ifs <;> constructor <;> omega
  have hz : (adjust_window s).left_column ≤ s.cursor_x ∧
      s.cursor_x < (adjust_window s).left_column + s.screen_width - 10 := by
    simp only [adjust_window]
    split_ifs <;> constructor <;> omega
  exact ⟨⟨hv.1, hv.2, hz.1, hz.2⟩, rfl, rfl, hv.1, hv.2, hz.1, hz.2⟩

theorem adjust_window_contains_cursor_witness :
    (3 : Int) ≤ (sample [[]] 50 200).screen_height ∧
    (11 : Int) ≤ (sample [[]] 50 200).screen_width ∧
    InWindow (adjust_window (sample [[]] 50 200)) ∧
    (adjust_window (sample [[]] 50 200)).cursor_y = (sample [[]] 50 200).cursor_y ∧
    (adjust_window (sample [[]] 50 200)).cursor_x = (sample [[]] 50 200).cursor_x ∧
    (adjust_window (sample [[]] 50 200)).top_line ≤ (sample [[]] 50 200).cursor_y ∧
    (sample [[]] 50 200).cursor_y
      < (adjust_window (sample [[]] 50 200)).top_line + (sample [[]] 50 200).screen_height - 2 ∧
    (adjust_window (sample [[]] 50 200)).left_column ≤ (sample [[]] 50 200).cursor_x ∧
    (sample [[]] 50 200).cursor_x
      < (adjust_window (sample [[]] 50 200)).left_column + (sample [[]] 50 200).screen_width - 10 :=
  ⟨by decide, by decide,
    adjust_window_contains_cursor (sample [[]] 50 200) (by decide) (by decide)⟩

theorem adjust_window_of_in_window (s : MiniVim) (h : InWindow s) : adjust_window s = s := by
  obtain ⟨h1, h2, h3, h4⟩ := h
  have a1 : ¬ s.cursor_y < s.top_line := by omega
  have a2 : ¬ s.cursor_y ≥ s.top_line + s.screen_height - 2 := by omega
  have a3 : ¬ s.cursor_x < s.left_column := by omega
  have a4 : ¬ s.cursor_x ≥ s.left_column + s.screen_width - 10 := by omega
  simp only [adjust_window, if_neg a1, if_neg a2, if_neg a3, if_neg a4]

/-- C17, as stated, fails: on a screen of height 2 with `top_line = 0` and
cursor row 0 the first `adjust_window` sets `top_line` to 1 and the second
sets it back to 0. -/
theorem adjust_window_not_idempotent_on_tiny_screen :
    (adjust_window { sample [[]] 0 0 with screen_height := 2 }).top_line = 1 ∧
    (adjust_window (adjust_window { sample [[]] 0 0 with screen_height := 2 })).top_line = 0 ∧
    adjust_window (adjust_window { sample [[]] 0 0 with screen_height := 2 })
      ≠ adjust_window { sample [[]] 0 0 with screen_height := 2 } := by
  refine ⟨by decide, by decide, ?_⟩
  intro h
  have h' := congrArg MiniVim.top_line h
  exact absurd h' (by decide)

/-- C17, amended: on a screen with `screen_height >= 3` and
`screen_width >= 11`, applying `adjust_window` twice gives the same state (the
same `top_line` and `left_column`) as applying it once; and on a screen of any
size, when the cursor is already within the window, `adjust_window` leaves the
viewport unchanged. -/
theorem adjust_window_idempotent (s : MiniVim) :
    (3 ≤ s.screen_height → 11 ≤ s.screen_width →
      adjust_window (adjust_window s) = adjust_window s) ∧
    (InWindow s → adjust_window s = s) := by
  refine ⟨fun hh hw => ?_, adjust_window_of_in_window s⟩
  exact adjust_window_of_in_window _ (adjust_window_contains_cursor s hh hw).1

theorem adjust_window_idempotent_witness :
    (3 : Int) ≤ (sample [[]] 50 200).screen_height ∧
    (11 : Int) ≤ (sample [[]] 50 200).screen_width ∧ InWindow (sample [[]] 0 0) ∧
    adjust_window (adjust_window (sample [[]] 50 200)) = adjust_window (sample [[]] 50 200) ∧
    adjust_window (sample [[]] 0 0) = sample [[]] 0 0 :=
  ⟨by decide, by decide, by unfold InWindow; decide,
    (adjust_window_idempotent (sample [[]] 50 200)).1 (by decide) (by decide),
    (adjust_window_idempotent (sample [[]] 0 0)).2 (by unfold InWindow; decide)⟩

/-- After any cursor-moving key of Normal mode (`h`, `j`, `k`, `l`, `0`, `$`,
`G`, their Ctrl equivalents, and `g` `g`) on a screen with
`screen_height >= 3` and `screen_width >= 11`, the handler returns with the
cursor inside the window: every one of these cases ends in `adjust_window`. -/
theorem cursor_keys_end_in_window (s : MiniVim) (r : Nat) (ch : Int) (input : List Int)
    (hr : r < s.lines.length) (hy : s.cursor_y = (r : Int))
    (hh : 3 ≤ s.screen_height) (hw : 11 ≤ s.screen_width)
    (hch : ch = 104 ∨ ch = 4 ∨ ch = 106 ∨ ch = 2 ∨ ch = 107 ∨ ch = 3 ∨ ch = 108 ∨ ch = 5 ∨
      ch = 48 ∨ ch = 36 ∨ ch = 71 ∨ ch = 103) :
    ∃ s' rest, normal_mode s ch (103 :: input) = .ok (s', rest) ∧ InWindow s' := by
  have key : ∀ t : MiniVim, t.screen_height = s.screen_height → t.screen_width = s.screen_width →
      InWindow (adjust_window t) := fun t h1 h2 =>
    (adjust_window_contains_cursor t (h1 ▸ hh) (h2 ▸ hw)).1
  rcases hch with h | h | h | h | h | h | h | h | h | h | h | h <;> subst h
  · exact ⟨_, _, rfl, key _ (by split_ifs <;> rfl) (by split_ifs <;> rfl)⟩
  · exact ⟨_, _, rfl, key _ (by split_ifs <;> rfl) (by split_ifs <;> rfl)⟩
  · exact ⟨_, _, rfl, key _ (by split_ifs <;> rfl) (by split_ifs <;> rfl)⟩
  · exact ⟨_, _, rfl, key _ (by split_ifs <;> rfl) (by split_ifs <;> rfl)⟩
  · exact ⟨_, _, rfl, key _ (by split_ifs <;> rfl) (by split_ifs <;> rfl)⟩
  · exact ⟨_, _, rfl, key _ (by split_ifs <;> rfl) (by split_ifs <;> rfl)⟩
  · have h1 : normal_mode s 108 (103 :: input) =
        (lineAt s.lines s.cursor_y).bind (fun line => .ok (adjust_window
          (if toSizeT s.cursor_x < (line.length : Int) then { s with cursor_x := s.cursor_x + 1 }
            else s), 103 :: input)) := rfl
    rw [h1, hy, lineAt_natCast _ _ hr]
    exact ⟨_, _, rfl, key _ (by split_ifs <;> rfl) (by split_ifs <;> rfl)⟩
  · have h1 : normal_mode s 5 (103 :: input) =
        (lineAt s.lines s.cursor_y).bind (fun line => .ok (adjust_window
          (if toSizeT s.cursor_x < (line.length : Int) then { s with cursor_x := s.cursor_x + 1 }
            else s), 103 :: input)) := rfl
    rw [h1, hy, lineAt_natCast _ _ hr]
    exact ⟨_, _, rfl, key _ (by split_ifs <;> rfl) (by split_ifs <;> rfl)⟩
  · exact ⟨_, _, rfl, key _ rfl rfl⟩
  · have h1 : normal_mode s 36 (103 :: input) =
        (lineAt s.lines s.cursor_y).bind (fun line => .ok (adjust_window
          (if !line.isEmpty then { s with cursor_x := (line.length : Int) - 1 }
            else { s with cursor_x := 0 }), 103 :: input)) := rfl
    rw [h1, hy, lineAt_natCast _ _ hr]
    exact ⟨_, _, rfl, key _ (by split_ifs <;> rfl) (by split_ifs <;> rfl)⟩
  · exact ⟨_, _, rfl, key _ rfl rfl⟩
  · exact ⟨_, _, rfl, key _ rfl rfl⟩

/-- C18: the claim fails on the code for the line-number jump.  The state
`wideState` has a valid cursor (row 0, column 90 of a 100-character line)
inside the window (`top_line = 0`, `left_column = 30`, screen 24 x 80); the
command `2` then returns with the cursor at (row 1, column 5) and
`left_column` still 30: the cursor is left of the window, because the handler
calls `adjust_window` before it clamps the column to the new line. -/
theorem line_jump_leaves_cursor_outside_window :
    InWindow wideState ∧
    lineAt wideState.lines wideState.cursor_y = .ok (List.replicate 100 'x') ∧
    wideState.cursor_x ≤ ((List.replicate 100 'x').length : Int) ∧
    ∃ s', command_mode 0 wideState 10 [] = .ok (s', []) ∧
      s'.cursor_y = 1 ∧ s'.cursor_x = 5 ∧ s'.top_line = 0 ∧ s'.left_column = 30 ∧
      ¬ InWindow s' := by
  refine ⟨by unfold InWindow; decide, rfl, by decide, _, rfl, rfl, rfl, rfl, rfl, ?_⟩
  unfold InWindow
  decide

theorem loadFile_of_index (s : MiniVim) (h : s.current_file_index < s.file_history.length) :
    ∃ s', loadFile s = .ok s' ∧ s'.file_history = s.file_history ∧
      s'.current_file_index = s.current_file_index ∧
      s'.file_history[s'.current_file_index]? = some s'.filename ∧
      s'.cursor_x = s.cursor_x ∧ s'.cursor_y = s.cursor_y ∧
      s'.top_line = s.top_line ∧ s'.left_column = s.left_column ∧
      s'.undo_stack = s.undo_stack ∧ s'.redo_stack = s.redo_stack ∧ s'.lines ≠ [] := by
  unfold loadFile
  rw [List.getElem?_eq_getElem h]
  refine ⟨_, rfl, rfl, rfl, ?_, rfl, rfl, rfl, rfl, rfl, rfl, ?_⟩
  · simp
  · simp only []
    split_ifs with he
    · simp
    · intro h0; apply he; rw [h0]; rfl

theorem execute_command_n (fuel : Nat) (s : MiniVim) (input : List Int)
    (hb : s.command_buffer = ['n']) :
    execute_command fuel s input =
      (if (s.current_file_index : Int) < sizeMinusOne s.file_history.length then do
        let s1 ← loadFile { s with current_file_index := s.current_file_index + 1 }
        pure ({ s1 with cursor_x := 0, cursor_y := 0, top_line := 0, left_column := 0 }, input)
      else pure (s, input)) := by
  unfold execute_command
  rw [hb]
  rfl

theorem execute_command_N (fuel : Nat) (s : MiniVim) (input : List Int)
    (hb : s.command_buffer = ['N']) :
    execute_command fuel s input =
      (if s.current_file_index > 0 then do
        let s1 ← loadFile { s with current_file_index := s.current_file_index - 1 }
        pure ({ s1 with cursor_x := 0, cursor_y := 0, top_line := 0, left_column := 0 }, input)
      else pure (s, input)) := by
  unfold execute_command
  rw [hb]
  rfl

/-- C19: with a valid current index `i` into a file list of `k >= 1` entries,
the command `n` returns normally and sets the index to `min (i + 1) (k - 1)`,
the command `N` sets it to `max (i - 1) 0`; the file list is unchanged, and
whenever the index changes, `filename` is the list entry at the new index and
cursor and viewport are `(0, 0)`. -/
theorem next_previous_clamped (fuel : Nat) (s : MiniVim) (input : List Int)
    (hi : s.current_file_index < s.file_history.length) :
    (s.command_buffer = ['n'] →
      ∃ s', command_mode fuel s 10 input = .ok (s', input) ∧
        s'.file_history = s.file_history ∧
        s'.current_file_index = min (s.current_file_index + 1) (s.file_history.length - 1) ∧
        (s'.current_file_index ≠ s.current_file_index →
          s'.file_history[s'.current_file_index]? = some s'.filename ∧
          s'.cursor_x = 0 ∧ s'.cursor_y = 0 ∧ s'.top_line = 0 ∧ s'.left_column = 0)) ∧
    (s.command_buffer = ['N'] →
      ∃ s', command_mode fuel s 10 input = .ok (s', input) ∧
        s'.file_history = s.file_history ∧
        (s'.current_file_index : Int) = max ((s.current_file_index : Int) - 1) 0 ∧
        (s'.current_file_index ≠ s.current_file_index →
          s'.file_history[s'.current_file_index]? = some s'.filename ∧
          s'.cursor_x = 0 ∧ s'.cursor_y = 0 ∧ s'.top_line = 0 ∧ s'.left_column = 0)) := by
  have hsz : sizeMinusOne s.file_history.length = (s.file_history.length : Int) - 1 := by
    unfold sizeMinusOne; rw [if_neg (by omega)]
  constructor
  · intro hb
    unfold command_mode
    simp only [show ¬ ((10 : Int) = 27) by decide, if_false, if_true,
      execute_command_n fuel s input hb, hsz]
    by_cases hlt : (s.current_file_index : Int) < (s.file_history.length : Int) - 1
    · have hlt' : s.current_file_index + 1 < s.file_history.length := by omega
      obtain ⟨s1, hs1, hf, hidx, hname, -⟩ :=
        loadFile_of_index { s with current_file_index := s.current_file_index + 1 } hlt'
      rw [if_pos hlt]
      simp only [hs1, bind, Except.bind, pure, Except.pure]
      refine ⟨_, rfl, hf, ?_, fun _ => ⟨hname, rfl, rfl, rfl, rfl⟩⟩
      simp only [hidx]; omega
    · rw [if_neg hlt]
      simp only [bind, Except.bind, pure, Except.pure]
      refine ⟨_, rfl, rfl, ?_, fun h => absurd rfl h⟩
      simp only []; omega
  · intro hb
    unfold command_mode
    simp only [show ¬ ((10 : Int) = 27) by decide, if_false, if_true,
      execute_command_N fuel s input hb]
    by_cases hpos : s.current_file_index > 0
    · have hlt' : s.current_file_index - 1 < s.file_history.length := by omega
      obtain ⟨s1, hs1, hf, hidx, hname, -⟩ :=
        loadFile_of_index { s with current_file_index := s.current_file_index - 1 } hlt'
      rw [if_pos hpos]
      simp only [hs1, bind, Except.bind, pure, Except.pure]
      refine ⟨_, rfl, hf, ?_, fun _ => ⟨hname, rfl, rfl, rfl, rfl⟩⟩
      simp only [hidx]; omega
    · rw [if_neg hpos]
      simp only [bind, Except.bind, pure, Except.pure]
      refine ⟨_, rfl, rfl, ?_, fun h => absurd rfl h⟩
      simp only []; omega

theorem next_previous_clamped_witness :
    (twoFiles 0 ['n']).current_file_index < (twoFiles 0 ['n']).file_history.length ∧
    (twoFiles 1 ['N']).current_file_index < (twoFiles 1 ['N']).file_history.length ∧
    (∃ s', command_mode 0 (twoFiles 0 ['n']) 10 [] = .ok (s', []) ∧
      s'.file_history = (twoFiles 0 ['n']).file_history ∧
      s'.current_file_index = min (0 + 1) (2 - 1) ∧
      (s'.current_file_index ≠ 0 →
        s'.file_history[s'.current_file_index]? = some s'.filename ∧
        s'.cursor_x = 0 ∧ s'.cursor_y = 0 ∧ s'.top_line = 0 ∧ s'.left_column = 0)) ∧
    (∃ s', command_mode 0 (twoFiles 1 ['N']) 10 [] = .ok (s', []) ∧
      s'.file_history = (twoFiles 1 ['N']).file_history ∧
      (s'.current_file_index : Int) = max (((1 : Nat) : Int) - 1) 0 ∧
      (s'.current_file_index ≠ 1 →
        s'.file_history[s'.current_file_index]? = some s'.filename ∧
        s'.cursor_x = 0 ∧ s'.cursor_y = 0 ∧ s'.top_line = 0 ∧ s'.left_column = 0)) ∧
    command_mode 0 (twoFiles 0 ['n']) 10 []
      = .ok ({ twoFiles 1 [] with command_mode_active := false }, []) ∧
    command_mode 0 (twoFiles 1 ['N']) 10 []
      = .ok ({ twoFiles 0 [] with command_mode_active := false }, []) :=
  ⟨by decide, by decide,
    (next_previous_clamped 0 (twoFiles 0 ['n']) [] (by decide)).1 rfl,
    (next_previous_clamped 0 (twoFiles 1 ['N']) [] (by decide)).2 rfl, rfl, rfl⟩

theorem draw_file_fields (s s' : MiniVim) (h : draw s = .ok s') :
    s'.file_history = s.file_history ∧ s'.current_file_index = s.current_file_index := by
  unfold draw at h
  simp only [bind, Except.bind, pure, Except.pure] at h
  split at h
  · exact absurd h (by simp)
  · injection h with h; subst h; exact ⟨rfl, rfl⟩

theorem handle_search_replace_file_fields (fuel : Nat) (s s' : MiniVim) (command : Str)
    (h : handle_search_replace fuel s command = .ok s') :
    s'.file_history = s.file_history ∧ s'.current_file_index = s.current_file_index := by
  unfold handle_search_replace at h
  simp only [bind, Except.bind, pure, Except.pure] at h
  split at h
  · exact absurd h (by simp)
  · split at h
    · injection h with h; subst h; exact ⟨rfl, rfl⟩
    · split at h
      · exact absurd h (by simp)
      · split at h
        · exact absurd h (by simp)
        · have hd := draw_file_fields _ _ h
          exact hd

theorem loadFile_keeps_inv (s s' : MiniVim) (hlt : s.current_file_index < s.file_history.length)
    (h : loadFile s = .ok s') : BufferSetInv s' := by
  obtain ⟨t, ht, hf, hidx, -⟩ := loadFile_of_index s hlt
  rw [ht] at h
  injection h with h
  subst h
  refine ⟨?_, by rw [hf, hidx]; exact hlt⟩
  rw [hf]
  intro h0
  rw [h0] at hlt
  simp at hlt

theorem stoi_range (str : Str) (v : Int) (h : stoi str = .ok v) : 0 ≤ v ∧ v ≤ INT_MAX := by
  unfold stoi at h
  simp only [] at h
  split at h
  · exact absurd h (by simp)
  · injection h with h
    subst h
    constructor <;> omega

theorem execute_command_keeps_inv (fuel : Nat) (s s' : MiniVim) (input rest : List Int)
    (hinv : BufferSetInv s) (h : execute_command fuel s input = .ok (s', rest)) :
    BufferSetInv s' := by
  obtain ⟨hne, hlt⟩ := hinv
  have hsz : sizeMinusOne s.file_history.length = (s.file_history.length : Int) - 1 := by
    unfold sizeMinusOne
    rw [if_neg (by intro h0; rw [h0] at hlt; omega)]
  unfold execute_command at h
  by_cases h1 : s.command_buffer = ['q']
  · rw [if_pos h1] at h; exact absurd h (by simp)
  rw [if_neg h1] at h
  by_cases h2 : s.command_buffer = ['w']
  · rw [if_pos h2] at h
    injection h with h; injection h with h _; subst h
    exact ⟨hne, hlt⟩
  rw [if_neg h2] at h
  by_cases h3 : s.command_buffer = ['w', 'q']
  · rw [if_pos h3] at h; exact absurd h (by simp)
  rw [if_neg h3] at h
  by_cases h4 : ['s', '/'].isPrefixOf s.command_buffer = true
  · rw [if_pos h4] at h
    cases hs : handle_search_replace fuel s s.command_buffer with
    | error e => rw [hs] at h; exact absurd h (by simp [bind, Except.bind])
    | ok t =>
      rw [hs] at h
      injection h with h; injection h with h _; subst h
      obtain ⟨hf, hi⟩ := handle_search_replace_file_fields fuel s _ _ hs
      exact ⟨by rw [hf]; exact hne, by rw [hf, hi]; exact hlt⟩
  rw [if_neg h4] at h
  by_cases h5 : is_number s.command_buffer = true
  · rw [if_pos h5] at h
    cases hs : stoi s.command_buffer with
    | error e => rw [hs] at h; exact absurd h (by simp [bind, Except.bind])
    | ok v =>
      rw [hs] at h
      simp only [bind, Except.bind, pure, Except.pure] at h
      split at h
      · split at h
        · exact absurd h (by simp)
        · injection h with h; injection h with h _; subst h
          exact ⟨hne, hlt⟩
      · injection h with h; injection h with h _; subst h
        exact ⟨hne, hlt⟩
  rw [if_neg h5] at h
  by_cases h6 : ['e', ' '].isPrefixOf s.command_buffer = true
  · rw [if_pos h6] at h
    simp only [bind, Except.bind, pure, Except.pure] at h
    split at h
    · exact absurd h (by simp)
    · rename_i t ht
      injection h with h; injection h with h _; subst h
      have ht' := loadFile_keeps_inv _ t (by simp) ht
      exact ⟨ht'.1, ht'.2⟩
  rw [if_neg h6] at h
  by_cases h7 : s.command_buffer = ['N']
  · rw [if_pos h7] at h
    split at h
    · simp only [bind, Except.bind, pure, Except.pure] at h
      split at h
      · exact absurd h (by simp)
      · rename_i t ht
        injection h with h; injection h with h _; subst h
        have ht' := loadFile_keeps_inv _ t (by simp only []; omega) ht
        exact ⟨ht'.1, ht'.2⟩
    · injection h with h; injection h with h _; subst h
      exact ⟨hne, hlt⟩
  rw [if_neg h7] at h
  by_cases h8 : s.command_buffer = ['n']
  · rw [if_pos h8] at h
    split at h
    · rename_i hcond
      rw [hsz] at hcond
      simp only [bind, Except.bind, pure, Except.pure] at h
      split at h
      · exact absurd h (by simp)
      · rename_i t ht
        injection h with h; injection h with h _; subst h
        have ht' := loadFile_keeps_inv _ t (by simp only []; omega) ht
        exact ⟨ht'.1, ht'.2⟩
    · injection h with h; injection h with h _; subst h
      exact ⟨hne, hlt⟩
  rw [if_neg h8] at h
  by_cases h9 : s.command_buffer = ['l', 's']
  · rw [if_pos h9] at h
    injection h with h; injection h with h _; subst h
    exact ⟨hne, hlt⟩
  rw [if_neg h9] at h
  by_cases h10 : ['b', ' '].isPrefixOf s.command_buffer = true
  · rw [if_pos h10] at h
    simp only [] at h
    split at h
    · cases hs : stoi (s.command_buffer.drop 2) with
      | error e => rw [hs] at h; exact absurd h (by simp [bind, Except.bind])
      | ok v =>
        rw [hs] at h
        simp only [bind, Except.bind, pure, Except.pure] at h
        split at h
        · rename_i hcond
          split at h
          · exact absurd h (by simp)
          · rename_i t ht
            injection h with h; injection h with h _; subst h
            have hv := (stoi_range _ _ hs).1
            have h0 : 0 ≤ toSizeT (v - 1) := by unfold toSizeT; split_ifs <;> omega
            have ht' := loadFile_keeps_inv _ t (by simp only []; omega) ht
            exact ⟨ht'.1, ht'.2⟩
        · injection h with h; injection h with h _; subst h
          exact ⟨hne, hlt⟩
    · injection h with h; injection h with h _; subst h
      exact ⟨hne, hlt⟩
  rw [if_neg h10] at h
  injection h with h; injection h with h _; subst h
  exact ⟨hne, hlt⟩

theorem command_mode_keeps_inv (fuel : Nat) (s s' : MiniVim) (ch : Int) (input rest : List Int)
    (hinv : BufferSetInv s) (h : command_mode fuel s ch input = .ok (s', rest)) :
    BufferSetInv s' := by
  unfold command_mode at h
  split_ifs at h
  · injection h with h; injection h with h _; subst h; exact hinv
  · cases he : execute_command fuel s input with
    | error e => rw [he] at h; exact absurd h (by simp [bind, Except.bind])
    | ok p =>
      obtain ⟨t, r⟩ := p
      rw [he] at h
      injection h with h; injection h with h _; subst h
      have ht := execute_command_keeps_inv fuel s t input r hinv he
      exact ⟨ht.1, ht.2⟩
  · injection h with h; injection h with h _; subst h; exact hinv
  · injection h with h; injection h with h _; subst h; exact hinv

/-- The BufferSet invariant is kept by every sequence of commands that the
editor survives: whenever `run_commands` returns a state, the file list is
non-empty and the current index points into it. -/
theorem run_commands_keeps_inv (fuel : Nat) (commands : List Str) :
    ∀ (s s' : MiniVim) (input rest : List Int), BufferSetInv s →
      run_commands fuel commands s input = .ok (s', rest) → BufferSetInv s' := by
  induction commands with
  | nil =>
    intro s s' input rest hinv h
    injection h with h; injection h with h _; subst h; exact hinv
  | cons c cs ih =>
    intro s s' input rest hinv h
    rw [run_commands] at h
    cases hc : command_mode fuel { s with command_buffer := c, command_mode_active := true } 10 input with
    | error e => rw [hc] at h; exact absurd h (by simp [bind, Except.bind])
    | ok p =>
      obtain ⟨t, r⟩ := p
      rw [hc] at h
      exact ih t s' r rest (command_mode_keeps_inv fuel
        { s with command_buffer := c, command_mode_active := true } t 10 input r
        ⟨hinv.1, hinv.2⟩ hc) h

/-- The command `b <text>`: non-numeric text is ignored; a number `N` that
fits an `int` switches to index `N - 1` when `1 <= N <= list size` and is
ignored otherwise (for a list of fewer than `2 ^ 64` entries). -/
theorem buffer_command_effect (fuel : Nat) (s : MiniVim) (text : Str) (input : List Int)
    (hb : s.command_buffer = 'b' :: ' ' :: text) :
    (is_number text = false →
      command_mode fuel s 10 input
        = .ok ({ s with command_buffer := [], command_mode_active := false }, input)) ∧
    (∀ v, is_number text = true → stoi text = .ok v →
      ¬ (1 ≤ v ∧ v ≤ (s.file_history.length : Int)) → (s.file_history.length : Int) < 2 ^ 64 →
      command_mode fuel s 10 input
        = .ok ({ s with command_buffer := [], command_mode_active := false }, input)) ∧
    (∀ v, is_number text = true → stoi text = .ok v →
      (1 ≤ v ∧ v ≤ (s.file_history.length : Int)) →
      ∃ s', command_mode fuel s 10 input = .ok (s', input) ∧
        s'.file_history = s.file_history ∧ (s'.current_file_index : Int) = v - 1) := by
  have hex : execute_command fuel s input =
      (if is_number text = true then do
        let n ← stoi text
        if toSizeT (n - 1) < s.file_history.length then do
          let s1 ← loadFile { s with current_file_index := (toSizeT (n - 1)).toNat }
          pure ({ s1 with cursor_x := 0, cursor_y := 0, top_line := 0, left_column := 0 }, input)
        else pure (s, input)
      else pure (s, input)) := by
    have h1 : ¬ s.command_buffer = ['q'] := by rw [hb]; simp
    have h2 : ¬ s.command_buffer = ['w'] := by rw [hb]; simp
    have h3 : ¬ s.command_buffer = ['w', 'q'] := by rw [hb]; simp
    have h4 : ¬ ['s', '/'].isPrefixOf s.command_buffer = true := by
      rw [hb]; simp [List.isPrefixOf]
    have h5 : ¬ is_number s.command_buffer = true := by
      rw [hb]; simp [is_number]
    have h6 : ¬ ['e', ' '].isPrefixOf s.command_buffer = true := by
      rw [hb]; simp [List.isPrefixOf]
    have h7 : ¬ s.command_buffer = ['N'] := by rw [hb]; simp
    have h8 : ¬ s.command_buffer = ['n'] := by rw [hb]; simp
    have h9 : ¬ s.command_buffer = ['l', 's'] := by rw [hb]; simp
    have h10 : ['b', ' '].isPrefixOf s.command_buffer = true := by
      rw [hb]; simp [List.isPrefixOf]
    have hd : s.command_buffer.drop 2 = text := by rw [hb]; rfl
    unfold execute_command
    rw [if_neg h1, if_neg h2, if_neg h3, if_neg h4, if_neg h5, if_neg h6, if_neg h7, if_neg h8,
      if_neg h9, if_pos h10]
    simp only [hd]
  unfold command_mode
  simp only [show ¬ ((10 : Int) = 27) by decide, if_false, if_true, hex]
  refine ⟨?_, ?_, ?_⟩
  · intro hn
    simp [hn, bind, Except.bind, pure, Except.pure]
  · intro v hn hv hrange hsize
    have hv0 := (stoi_range _ _ hv).1
    have hcond : ¬ (toSizeT (v - 1) < (s.file_history.length : Int)) := by
      unfold toSizeT
      split_ifs <;> omega
    simp only [hn, if_true, hv, bind, Except.bind, if_neg hcond, pure, Except.pure]
  · intro v hn hv hrange
    have hts : toSizeT (v - 1) = v - 1 := by
      unfold toSizeT; rw [if_neg (by omega)]
    have hcond : v - 1 < (s.file_history.length : Int) := by omega
    have hlt : (v - 1).toNat < s.file_history.length := by omega
    obtain ⟨s1, hs1, hf, hidx, -⟩ :=
      loadFile_of_index { s with current_file_index := (v - 1).toNat } hlt
    simp only [hn, if_true, hv, bind, Except.bind, if_pos hcond, hts, hs1, pure, Except.pure]
    refine ⟨_, rfl, hf, ?_⟩
    simp only [hidx]
    omega

/-- C20: the claim fails on the code for `b N` with `N` above `INT_MAX`.  With
the file list `[a.txt, b.txt]` at index 0, the command `b 2147483648` passes
`is_number`, and `std::stoi` throws `std::out_of_range`, which nothing
catches: the command is not ignored, the editor stops.  On the same state
`b 0`, `b 3` and `b x` are ignored and `b 2` switches to `b.txt`. -/
theorem buffer_command_overflow_throws :
    BufferSetInv (twoFiles 0 []) ∧
    command_mode 0
      (twoFiles 0 ['b', ' ', '2', '1', '4', '7', '4', '8', '3', '6', '4', '8']) 10 []
      = .error .uncaught ∧
    run_commands 0 [['b', ' ', '2', '1', '4', '7', '4', '8', '3', '6', '4', '8']]
      { twoFiles 0 [] with command_mode_active := false } [] = .error .uncaught ∧
    command_mode 0 (twoFiles 0 ['b', ' ', '0']) 10 []
      = .ok ({ twoFiles 0 [] with command_mode_active := false }, []) ∧
    command_mode 0 (twoFiles 0 ['b', ' ', '3']) 10 []
      = .ok ({ twoFiles 0 [] with command_mode_active := false }, []) ∧
    command_mode 0 (twoFiles 0 ['b', ' ', 'x']) 10 []
      = .ok ({ twoFiles 0 [] with command_mode_active := false }, []) ∧
    command_mode 0 (twoFiles 0 ['b', ' ', '2']) 10 []
      = .ok ({ twoFiles 1 [] with command_mode_active := false }, []) :=
  ⟨⟨by decide, by decide⟩, rfl, rfl, rfl, rfl, rfl, rfl⟩

theorem getlinesAux_line (l rest acc : Str) (h : '\n' ∉ l) :
    getlinesAux (l ++ '\n' :: rest) acc = (acc.reverse ++ l) :: getlinesAux rest [] := by
  induction l generalizing acc with
  | nil => simp [getlinesAux]
  | cons c cs ih =>
    have hc : c ≠ '\n' := fun e => h (by simp [e])
    have hcs : '\n' ∉ cs := fun e => h (by simp [e])
    have hstep : getlinesAux ((c :: cs) ++ '\n' :: rest) acc
        = getlinesAux (cs ++ '\n' :: rest) (c :: acc) := by
      simp [getlinesAux, hc]
    rw [hstep, ih (c :: acc) hcs]
    simp

theorem getlines_writtenText (ls : List Str) (h : ∀ l ∈ ls, '\n' ∉ l) :
    getlines (writtenText ls) = ls := by
  induction ls with
  | nil => rfl
  | cons l ls ih =>
    have hl : '\n' ∉ l := h l (by simp)
    have hls : ∀ m ∈ ls, '\n' ∉ m := fun m hm => h m (by simp [hm])
    have hw : writtenText (l :: ls) = l ++ '\n' :: writtenText ls := by
      simp [writtenText]
    rw [hw]
    unfold getlines
    rw [getlinesAux_line l _ [] hl]
    have := ih hls
    unfold getlines at this
    rw [this]
    simp

/-- The command `w` after `e d/f`: when `d/f` cannot be opened for writing
nothing is stored and the editor goes on; when it can, the one empty line of
the new buffer is stored under that path. -/
theorem write_command_on_new_path :
    (∃ s', run_commands 0 [['e', ' ', 'd', '/', 'f'], ['w']]
        { sample [['x']] 0 0 with unwritable := [['d', '/', 'f']] } [] = .ok (s', []) ∧
      s'.filename = ['d', '/', 'f'] ∧ s'.lines = [[]] ∧ s'.disk = []) ∧
    (∃ s', run_commands 0 [['e', ' ', 'd', '/', 'f'], ['w']] (sample [['x']] 0 0) []
        = .ok (s', []) ∧
      s'.filename = ['d', '/', 'f'] ∧ s'.lines = [[]] ∧ s'.disk = [(['d', '/', 'f'], ['\n'])]) :=
  ⟨⟨_, rfl, rfl, rfl, rfl⟩, ⟨_, rfl, rfl, rfl, rfl⟩⟩

/-- C30: for every non-empty list of lines none of which contains a newline,
the text `saveFile` writes (each line followed by a newline) is parsed back by
the `getline` loop into exactly the same lines, and `loadFile` of a file
holding that text returns normally with exactly these lines (no empty line is
added); when the current file can be opened for writing, `saveFile` stores
that text under its name and `saveFile` followed by `loadFile` returns the
lines unchanged, and when it cannot be opened `saveFile` changes nothing; and
`loadFile` of a missing file or of an empty file yields exactly one empty
line. -/
theorem save_load_round_trip (s : MiniVim) (name : Str)
    (hname : s.file_history[s.current_file_index]? = some name) :
    (s.lines ≠ [] → (∀ l ∈ s.lines, '\n' ∉ l) →
      getlines (writtenText s.lines) = s.lines ∧
      (∀ t : MiniVim, t.file_history[t.current_file_index]? = some name →
        t.disk.lookup name = some (writtenText s.lines) →
        ∃ t', loadFile t = .ok t' ∧ t'.lines = s.lines) ∧
      (s.filename = name → s.filename ∉ s.unwritable →
        (saveFile s).disk.lookup name = some (writtenText s.lines) ∧
        ∃ s', loadFile (saveFile s) = .ok s' ∧ s'.lines = s.lines)) ∧
    (s.filename ∈ s.unwritable → saveFile s = s) ∧
    (s.disk.lookup name = none → ∃ s', loadFile s = .ok s' ∧ s'.lines = [[]]) ∧
    (s.disk.lookup name = some [] → ∃ s', loadFile s = .ok s' ∧ s'.lines = [[]]) := by
  refine ⟨?_, ?_, ?_, ?_⟩
  · intro hne hnl
    have hrt := getlines_writtenText s.lines hnl
    have hload : ∀ t : MiniVim, t.file_history[t.current_file_index]? = some name →
        t.disk.lookup name = some (writtenText s.lines) →
        ∃ t', loadFile t = .ok t' ∧ t'.lines = s.lines := by
      intro t ht hlk
      unfold loadFile
      rw [ht]
      simp only [hlk, hrt]
      refine ⟨_, rfl, ?_⟩
      simp only []
      rw [if_neg]
      cases hl : s.lines with
      | nil => exact absurd hl hne
      | cons a as => simp
    refine ⟨hrt, hload, ?_⟩
    intro hfn hw
    have hlk : (saveFile s).disk.lookup name = some (writtenText s.lines) := by
      unfold saveFile
      simp only []
      rw [if_neg hw, hfn]
      simp [List.lookup]
    exact ⟨hlk, hload (saveFile s) hname hlk⟩
  · intro hu
    unfold saveFile
    rw [if_pos hu]
  · intro hnone
    unfold loadFile
    rw [hname]
    simp only [hnone]
    exact ⟨_, rfl, rfl⟩
  · intro hempty
    unfold loadFile
    rw [hname]
    simp only [hempty]
    exact ⟨_, rfl, rfl⟩

theorem save_load_round_trip_witness :
    (twoFiles 0 []).file_history[(twoFiles 0 []).current_file_index]?
      = some ['a', '.', 't', 'x', 't'] ∧
    (twoFiles 0 []).lines ≠ [] ∧ (∀ l ∈ (twoFiles 0 []).lines, '\n' ∉ l) ∧
    (twoFiles 0 []).disk.lookup ['a', '.', 't', 'x', 't']
      = some (writtenText (twoFiles 0 []).lines) ∧
    (twoFiles 0 []).filename = ['a', '.', 't', 'x', 't'] ∧
    (twoFiles 0 []).filename ∉ (twoFiles 0 []).unwritable ∧
    ({ sample [['x']] 0 0 with unwritable := [['a']] } : MiniVim).filename
      ∈ ({ sample [['x']] 0 0 with unwritable := [['a']] } : MiniVim).unwritable ∧
    (sample [['x']] 0 0).disk.lookup ['a'] = none ∧
    ({ sample [['x']] 0 0 with disk := [(['a'], [])] } : MiniVim).disk.lookup ['a'] = some [] ∧
    getlines (writtenText (twoFiles 0 []).lines) = (twoFiles 0 []).lines ∧
    (∃ t', loadFile (twoFiles 0 []) = .ok t' ∧ t'.lines = (twoFiles 0 []).lines) ∧
    ((saveFile (twoFiles 0 [])).disk.lookup ['a', '.', 't', 'x', 't']
        = some (writtenText (twoFiles 0 []).lines) ∧
      ∃ s', loadFile (saveFile (twoFiles 0 [])) = .ok s' ∧ s'.lines = (twoFiles 0 []).lines) ∧
    saveFile { sample [['x']] 0 0 with unwritable := [['a']] }
      = { sample [['x']] 0 0 with unwritable := [['a']] } ∧
    (∃ s', loadFile (sample [['x']] 0 0) = .ok s' ∧ s'.lines = [[]]) ∧
    (∃ s', loadFile { sample [['x']] 0 0 with disk := [(['a'], [])] } = .ok s' ∧ s'.lines = [[]]) :=
  ⟨rfl, by decide, by decide, rfl, rfl, by decide, by decide, rfl, rfl,
    ((save_load_round_trip (twoFiles 0 []) ['a', '.', 't', 'x', 't'] rfl).1
      (by decide) (by decide)).1,
    ((save_load_round_trip (twoFiles 0 []) ['a', '.', 't', 'x', 't'] rfl).1
      (by decide) (by decide)).2.1 (twoFiles 0 []) rfl rfl,
    ((save_load_round_trip (twoFiles 0 []) ['a', '.', 't', 'x', 't'] rfl).1
      (by decide) (by decide)).2.2 rfl (by decide),
    (save_load_round_trip { sample [['x']] 0 0 with unwritable := [['a']] } ['a'] rfl).2.1
      (by decide),
    (save_load_round_trip (sample [['x']] 0 0) ['a'] rfl).2.2.1 rfl,
    (save_load_round_trip { sample [['x']] 0 0 with disk := [(['a'], [])] } ['a'] rfl).2.2.2 rfl⟩

theorem find_empty (line : Str) (pos : Nat) (h : pos ≤ line.length) :
    find line [] pos = some pos := by
  unfold find
  rw [if_neg (by omega)]
  cases hd : line.drop pos with
  | nil => simp [findAt]
  | cons c cs => simp [findAt, List.isPrefixOf]

theorem replace_loop_empty_pattern (new : Str) :
    ∀ (fuel : Nat) (line : Str) (pos : Nat), pos ≤ line.length →
      replace_loop [] new true fuel line pos = .error .outOfFuel := by
  intro fuel
  induction fuel with
  | zero => intro line pos _; rfl
  | succ fuel ih =>
    intro line pos hpos
    rw [replace_loop, find_empty line pos hpos]
    simp only [Bool.not_true, Bool.false_eq_true, if_false]
    apply ih
    simp only [List.length_append, List.length_take, List.length_drop, List.length_nil]
    omega

/-- C29: the claim fails on the code when the old pattern is empty and the
command is global.  For `s///g` and for `s//x/g` on the line `foofoofoo` the
replacement loop is still running after any number of iterations: `find("", pos)`
succeeds at `pos` itself, and `pos` advances only by the length of the new
text, staying within the (growing) line.  The same holds for every line and
every new text (`replace_loop_empty_pattern`).  Without the trailing `g`, or
with a non-empty old pattern, the loop ends. -/
theorem substitute_empty_pattern_never_ends (fuel : Nat) :
    parse_search_replace ['s', '/', '/', '/', 'g'] = .ok (some ([], [], true)) ∧
    parse_search_replace ['s', '/', '/', 'x', '/', 'g'] = .ok (some ([], ['x'], true)) ∧
    handle_search_replace fuel (fooState ['s', '/', '/', '/', 'g']) ['s', '/', '/', '/', 'g']
      = .error .outOfFuel ∧
    handle_search_replace fuel (fooState ['s', '/', '/', 'x', '/', 'g'])
      ['s', '/', '/', 'x', '/', 'g'] = .error .outOfFuel ∧
    command_mode fuel (fooState ['s', '/', '/', 'x', '/', 'g']) 10 [] = .error .outOfFuel ∧
    (∃ s', handle_search_replace 1 (fooState ['s', '/', '/', 'x', '/']) ['s', '/', '/', 'x', '/']
      = .ok s' ∧ s'.lines = [['x', 'f', 'o', 'o', 'f', 'o', 'o', 'f', 'o', 'o']]) := by
  have h1 : parse_search_replace ['s', '/', '/', '/', 'g'] = .ok (some ([], [], true)) := rfl
  have h2 : parse_search_replace ['s', '/', '/', 'x', '/', 'g'] = .ok (some ([], ['x'], true)) :=
    rfl
  have e1 := handle_search_replace_fuel fuel (fooState ['s', '/', '/', '/', 'g']) 0 _ _ _ _
    (by decide) rfl h1 (replace_loop_empty_pattern [] fuel _ 0 (Nat.zero_le _))
  have e2 := handle_search_replace_fuel fuel (fooState ['s', '/', '/', 'x', '/', 'g']) 0 _ _ _ _
    (by decide) rfl h2 (replace_loop_empty_pattern ['x'] fuel _ 0 (Nat.zero_le _))
  refine ⟨h1, h2, e1, e2, ?_, ⟨_, rfl, rfl⟩⟩
  rw [command_mode_search_replace fuel _ ['/', 'x', '/', 'g'] [] rfl, e2]
  rfl

/-- C25: the claim fails on the code when the deleted row is not the last
one.  On `["abc", "", "x"]` with the valid cursor (row 0, column 3), `d d`
returns with lines `["", "x"]` and the cursor still at (row 0, column 3),
beyond the end of the empty line now on row 0: the handler clamps the column
only inside `if (cursor_y >= lines.size())`.  The row is always within the
buffer (`DdPost.cursor_valid`). -/
theorem dd_leaves_column_unclamped :
    lineAt (sample [['a', 'b', 'c'], [], ['x']] 0 3).lines 0 = .ok ['a', 'b', 'c'] ∧
    ∃ s', normal_mode (sample [['a', 'b', 'c'], [], ['x']] 0 3) 100 [100] = .ok (s', []) ∧
      s'.lines = [[], ['x']] ∧ s'.cursor_y = 0 ∧ s'.cursor_x = 3 ∧
      lineAt s'.lines s'.cursor_y = .ok [] :=
  ⟨rfl, _, rfl, rfl, rfl, rfl, rfl⟩

theorem insert_eraseIdx_same (L : List Str) (r : Nat) (h : r < L.length) :
    (L.eraseIdx r).take r ++ L.getD r [] :: (L.eraseIdx r).drop r = L := by
  induction L generalizing r with
  | nil => simp at h
  | cons a as ih =>
    cases r with
    | zero => simp
    | succ r =>
      have h' : r < as.length := by simpa using h
      simpa using ih r h'

/-- On a buffer of at least two lines, `d d` followed by `u` gives back the
whole line sequence. -/
theorem dd_undo_restores_buffer_of_two (fuel : Nat) (s : MiniVim) (r : Nat) (rest : List Int)
    (hr : r < s.lines.length) (hy : s.cursor_y = (r : Int))
    (hi : s.insert_mode_active = false) (hc : s.command_mode_active = false)
    (h2 : 2 ≤ s.lines.length) :
    ∃ s', run_steps fuel 2 s (100 :: 100 :: 117 :: rest) = .ok (s', rest) ∧
      s'.lines = s.lines := by
  obtain ⟨s1, hs1, hpost⟩ := run_step_dd fuel s r (117 :: rest) hr hy hi hc
  obtain ⟨r1, hr1, hy1, hle⟩ := hpost.cursor_valid hr
  obtain ⟨hl, hu, hrd, -, hi1, hc1, -⟩ := hpost
  obtain ⟨s2, hs2, hl2, -⟩ := run_step_undo_delete fuel s1 r1 r _ _ rest hr1 hy1
    (hi1.trans hi) (hc1.trans hc) hu hle
  refine ⟨s2, ?_, ?_⟩
  · simp [run_steps, hs1, hs2, bind, Except.bind, pure, Except.pure]
  · have hne : ¬ s.lines.length = 1 := by omega
    rw [hl2, hl, if_neg hne]
    exact insert_eraseIdx_same s.lines r hr

/-- C27: the claim fails on the code for a buffer of exactly one line.  On
`["a"]` the keys `d d`, `u` leave the two lines `["a", ""]`: `dd` replaces the
emptied buffer by one empty line, which the undo record does not know about,
and `undo` inserts `"a"` in front of it. -/
theorem dd_undo_on_single_line_adds_line :
    ∃ s', run_steps 0 2 (sample [['a']] 0 0) [100, 100, 117] = .ok (s', []) ∧
      s'.lines = [['a'], []] ∧ s'.lines ≠ (sample [['a']] 0 0).lines ∧ s'.lines.length = 2 :=
  ⟨_, rfl, rfl, by decide, rfl⟩

/-- C28: the claim fails on the code.  From `["a", "b"]` with the cursor on
row 1, after `d d`, `u`, `d d`, `d d` the buffer is `[""]` and the redo stack
still holds the record `{delete, 1, "b"}`; Ctrl-R then erases at row 1 of a
one-line vector.  From `["a", "b", "c"]` with the cursor on row 2, after
`d d`, `i`, Backspace (joining rows 0 and 1), Escape the buffer is `["ab"]`
and the undo stack holds `{delete, 2, "c"}`; `u` then inserts at row 2 of a
one-line vector.  Both are out of range. -/
theorem stale_record_row_out_of_range :
    (∃ s4, run_steps 0 4 (sample [['a'], ['b']] 1 0) [100, 100, 117, 100, 100, 100, 100, 18]
        = .ok (s4, [18]) ∧
      s4.lines = [[]] ∧ s4.redo_stack = [("delete", 1, ['b'])] ∧
      redo s4 = .error .undefinedBehaviour) ∧
    run_steps 0 5 (sample [['a'], ['b']] 1 0) [100, 100, 117, 100, 100, 100, 100, 18]
      = .error .undefinedBehaviour ∧
    (∃ t4, run_steps 0 4 (sample [['a'], ['b'], ['c']] 2 0) [100, 100, 105, 7, 27, 117]
        = .ok (t4, [117]) ∧
      t4.lines = [['a', 'b']] ∧ t4.undo_stack = [("delete", 2, ['c'])] ∧
      undo t4 = .error .undefinedBehaviour) ∧
    run_steps 0 5 (sample [['a'], ['b'], ['c']] 2 0) [100, 100, 105, 7, 27, 117]
      = .error .undefinedBehaviour :=
  ⟨⟨_, rfl, rfl, rfl, rfl⟩, rfl, ⟨_, rfl, rfl, rfl, rfl⟩, rfl⟩

/-- C24, as stated, fails: in `multifile.cpp` the key `q` read in Normal mode
does not end the run loop.  One iteration of the loop on the key `q` returns
with the state unchanged, and the loop goes on to handle the next key (here
`i`, which enters Insert mode); the command `q` typed in Command mode does end
the run. -/
theorem q_key_does_not_end_run :
    run_step 0 (sample [['a']] 0 0) [113] = .ok (sample [['a']] 0 0, []) ∧
    run_steps 0 2 (sample [['a']] 0 0) [113, 105]
      = .ok ({ sample [['a']] 0 0 with insert_mode_active := true }, []) ∧
    run_steps 0 3 (sample [['a']] 0 0) [58, 113, 10] = .error (.exited []) :=
  ⟨rfl, rfl, rfl⟩

/-- C24, amended: in `multifile.cpp`, when the editor is in Normal mode and
the key `q` is read, the run loop does not end: `normal_mode` has no case for
`q` and returns the state unchanged, and the iteration of the run loop (with
the cursor on a row of the buffer) changes nothing but the column clamp of
`draw` and hands the remaining keys to the next iteration; a `q` command
entered in Command mode does end the run, and the file store is left as it
was (nothing is saved). -/
theorem q_key_ignored_in_normal_mode (fuel : Nat) (s : MiniVim) (input : List Int) :
    normal_mode s 113 input = .ok (s, input) ∧
    (∀ r : Nat, r < s.lines.length → s.cursor_y = (r : Int) →
      s.insert_mode_active = false → s.command_mode_active = false →
      run_step fuel s (113 :: input) = .ok
        ({ s with cursor_x := max (min s.cursor_x (((s.lines.getD r []).length : Int) - 1)) 0 },
          input)) ∧
    (s.command_buffer = ['q'] → command_mode fuel s 10 input = .error (.exited s.disk)) := by
  refine ⟨rfl, ?_, ?_⟩
  · intro r hr hy hi hc
    rw [run_step_normal fuel s r 113 input hr hy hi hc, toChar8_small 113 (by decide) (by decide)]
    rfl
  · intro hb
    unfold command_mode execute_command
    rw [hb]
    rfl

theorem q_key_ignored_in_normal_mode_witness :
    (0 : Nat) < (sample [['a']] 0 0).lines.length ∧
    (sample [['a']] 0 0).cursor_y = ((0 : Nat) : Int) ∧
    (sample [['a']] 0 0).insert_mode_active = false ∧
    (sample [['a']] 0 0).command_mode_active = false ∧
    (jumpState ['q']).command_buffer = ['q'] ∧
    normal_mode (sample [['a']] 0 0) 113 [] = .ok (sample [['a']] 0 0, []) ∧
    run_step 0 (sample [['a']] 0 0) (113 :: []) = .ok (sample [['a']] 0 0, []) ∧
    command_mode 0 (jumpState ['q']) 10 [] = .error (.exited (jumpState ['q']).disk) :=
  ⟨by decide, rfl, rfl, rfl, rfl,
    (q_key_ignored_in_normal_mode 0 (sample [['a']] 0 0) []).1,
    (q_key_ignored_in_normal_mode 0 (sample [['a']] 0 0) []).2.1 0 (by decide) rfl rfl rfl,
    (q_key_ignored_in_normal_mode 0 (jumpState ['q']) []).2.2 rfl⟩

theorem findCharAt_none (c : Char) (l : Str) (i : Nat) (h : c ∉ l) : findCharAt c l i = none := by
  induction l generalizing i with
  | nil => rfl
  | cons d ds ih =>
    have hd : d ≠ c := fun e => h (by simp [e])
    have hds : c ∉ ds := fun e => h (by simp [e])
    simp only [findCharAt, if_neg hd, ih (i + 1) hds]

theorem parse_search_replace_one_slash (body : Str) (h : '/' ∉ body) :
    parse_search_replace ('s' :: '/' :: body) = .ok none := by
  have h1 : findChar ('s' :: '/' :: body) '/' 0 = some 1 := by
    simp [findChar, findCharAt]
  have h2 : findChar ('s' :: '/' :: body) '/' 2 = none := by
    simp [findChar, findCharAt_none _ _ _ h]
  unfold parse_search_replace
  simp only [h1, nposSucc, h2]
  rfl

/-- C22: for a command buffer that matches no command of the grammar, and for
a command that begins with `s/` and has fewer than two `/`, Enter in Command
mode returns normally and changes nothing (lines, cursor, viewport,
clipboard, file list, current index, undo and redo stacks, pending input)
except that the command buffer is cleared and Command mode is left. -/
theorem unknown_command_is_ignored (fuel : Nat) (s : MiniVim) (input : List Int)
    (h : NoCommand s.command_buffer ∨ MalformedSubstitute s.command_buffer) :
    command_mode fuel s 10 input
      = .ok ({ s with command_buffer := [], command_mode_active := false }, input) := by
  rcases h with h | ⟨body, hb, hbody⟩
  · obtain ⟨h1, h2, h3, h8, h7, h9, h5, h4, h6, h10⟩ := h
    have h4' : ¬ (['s', '/'].isPrefixOf s.command_buffer = true) := by rw [h4]; simp
    have h5' : ¬ (is_number s.command_buffer = true) := by rw [h5]; simp
    have h6' : ¬ (['e', ' '].isPrefixOf s.command_buffer = true) := by rw [h6]; simp
    unfold command_mode execute_command
    simp only [show ¬ ((10 : Int) = 27) by decide, if_false, if_true]
    rw [if_neg h1, if_neg h2, if_neg h3, if_neg h4', if_neg h5', if_neg h6', if_neg h7, if_neg h8,
      if_neg h9]
    by_cases hp : ['b', ' '].isPrefixOf s.command_buffer = true
    · have hn : ¬ (is_number (s.command_buffer.drop 2) = true) := fun hn => h10 ⟨hp, hn⟩
      rw [if_pos hp]
      simp only [if_neg hn]
      rfl
    · rw [if_neg hp]
      rfl
  · rw [command_mode_search_replace fuel s body input hb,
      handle_search_replace_no_parse fuel s _ (parse_search_replace_one_slash body hbody)]
    rfl

theorem unknown_command_is_ignored_witness :
    (NoCommand (jumpState ['b', ' ', 'x']).command_buffer ∨
      MalformedSubstitute (jumpState ['b', ' ', 'x']).command_buffer) ∧
    (NoCommand (jumpState ['s', '/', 'a', 'b']).command_buffer ∨
      MalformedSubstitute (jumpState ['s', '/', 'a', 'b']).command_buffer) ∧
    command_mode 0 (jumpState ['b', ' ', 'x']) 10 []
      = .ok ({ jumpState ['b', ' ', 'x'] with command_buffer := [], command_mode_active := false },
          []) ∧
    command_mode 0 (jumpState ['s', '/', 'a', 'b']) 10 []
      = .ok ({ jumpState ['s', '/', 'a', 'b'] with
          command_buffer := [], command_mode_active := false }, []) :=
  ⟨Or.inl (by unfold NoCommand; decide), Or.inr ⟨['a', 'b'], rfl, by decide⟩,
    unknown_command_is_ignored 0 (jumpState ['b', ' ', 'x']) []
      (Or.inl (by unfold NoCommand; decide)),
    unknown_command_is_ignored 0 (jumpState ['s', '/', 'a', 'b']) []
      (Or.inr ⟨['a', 'b'], rfl, by decide⟩)⟩

theorem draw_frame (s s' : MiniVim) (h : draw s = .ok s') :
    s'.undo_stack = s.undo_stack ∧ s'.redo_stack = s.redo_stack ∧
    s'.insert_mode_active = s.insert_mode_active ∧
    s'.command_mode_active = s.command_mode_active ∧ s'.lines = s.lines := by
  unfold draw at h
  simp only [bind, Except.bind, pure, Except.pure] at h
  split at h
  · exact absurd h (by simp)
  · injection h with h; subst h; exact ⟨rfl, rfl, rfl, rfl, rfl⟩

theorem handle_search_replace_frame (fuel : Nat) (s s' : MiniVim) (command : Str)
    (h : handle_search_replace fuel s command = .ok s') :
    s'.undo_stack = s.undo_stack ∧ s'.redo_stack = s.redo_stack ∧
    s'.insert_mode_active = s.insert_mode_active ∧
    s'.command_mode_active = s.command_mode_active := by
  unfold handle_search_replace at h
  simp only [bind, Except.bind, pure, Except.pure] at h
  split at h
  · exact absurd h (by simp)
  · split at h
    · injection h with h; subst h; exact ⟨rfl, rfl, rfl, rfl⟩
    · split at h
      · exact absurd h (by simp)
      · split at h
        · exact absurd h (by simp)
        · have hd := draw_frame _ _ h
          exact ⟨hd.1, hd.2.1, hd.2.2.1, hd.2.2.2.1⟩

theorem loadFile_frame (s s' : MiniVim) (h : loadFile s = .ok s') :
    s'.undo_stack = s.undo_stack ∧ s'.redo_stack = s.redo_stack ∧
    s'.insert_mode_active = s.insert_mode_active ∧
    s'.command_mode_active = s.command_mode_active := by
  unfold loadFile at h
  split at h
  · exact absurd h (by simp)
  · injection h with h; subst h; exact ⟨rfl, rfl, rfl, rfl⟩

theorem execute_command_frame (fuel : Nat) (s s' : MiniVim) (input rest : List Int)
    (h : execute_command fuel s input = .ok (s', rest)) :
    s'.undo_stack = s.undo_stack ∧ s'.redo_stack = s.redo_stack ∧
    s'.insert_mode_active = s.insert_mode_active ∧
    s'.command_mode_active = s.command_mode_active := by
  unfold execute_command at h
  by_cases h1 : s.command_buffer = ['q']
  · rw [if_pos h1] at h; exact absurd h (by simp)
  rw [if_neg h1] at h
  by_cases h2 : s.command_buffer = ['w']
  · rw [if_pos h2] at h
    injection h with h; injection h with h _; subst h
    exact ⟨rfl, rfl, rfl, rfl⟩
  rw [if_neg h2] at h
  by_cases h3 : s.command_buffer = ['w', 'q']
  · rw [if_pos h3] at h; exact absurd h (by simp)
  rw [if_neg h3] at h
  by_cases h4 : ['s', '/'].isPrefixOf s.command_buffer = true
  · rw [if_pos h4] at h
    cases hs : handle_search_replace fuel s s.command_buffer with
    | error e => rw [hs] at h; exact absurd h (by simp [bind, Except.bind])
    | ok t =>
      rw [hs] at h
      injection h with h; injection h with h _; subst h
      exact handle_search_replace_frame fuel s _ _ hs
  rw [if_neg h4] at h
  by_cases h5 : is_number s.command_buffer = true
  · rw [if_pos h5] at h
    cases hs : stoi s.command_buffer with
    | error e => rw [hs] at h; exact absurd h (by simp [bind, Except.bind])
    | ok v =>
      rw [hs] at h
      simp only [bind, Except.bind, pure, Except.pure] at h
      split at h
      · split at h
        · exact absurd h (by simp)
        · injection h with h; injection h with h _; subst h
          exact ⟨rfl, rfl, rfl, rfl⟩
      · injection h with h; injection h with h _; subst h
        exact ⟨rfl, rfl, rfl, rfl⟩
  rw [if_neg h5] at h
  by_cases h6 : ['e', ' '].isPrefixOf s.command_buffer = true
  · rw [if_pos h6] at h
    simp only [bind, Except.bind, pure, Except.pure] at h
    split at h
    · exact absurd h (by simp)
    · rename_i t ht
      injection h with h; injection h with h _; subst h
      have hf := loadFile_frame _ t ht
      exact ⟨hf.1, hf.2.1, hf.2.2.1, hf.2.2.2⟩
  rw [if_neg h6] at h
  by_cases h7 : s.command_buffer = ['N']
  · rw [if_pos h7] at h
    split at h
    · simp only [bind, Except.bind, pure, Except.pure] at h
      split at h
      · exact absurd h (by simp)
      · rename_i t ht
        injection h with h; injection h with h _; subst h
        have hf := loadFile_frame _ t ht
        exact ⟨hf.1, hf.2.1, hf.2.2.1, hf.2.2.2⟩
    · injection h with h; injection h with h _; subst h
      exact ⟨rfl, rfl, rfl, rfl⟩
  rw [if_neg h7] at h
  by_cases h8 : s.command_buffer = ['n']
  · rw [if_pos h8] at h
    split at h
    · simp only [bind, Except.bind, pure, Except.pure] at h
      split at h
      · exact absurd h (by simp)
      · rename_i t ht
        injection h with h; injection h with h _; subst h
        have hf := loadFile_frame _ t ht
        exact ⟨hf.1, hf.2.1, hf.2.2.1, hf.2.2.2⟩
    · injection h with h; injection h with h _; subst h
      exact ⟨rfl, rfl, rfl, rfl⟩
  rw [if_neg h8] at h
  by_cases h9 : s.command_buffer = ['l', 's']
  · rw [if_pos h9] at h
    injection h with h; injection h with h _; subst h
    exact ⟨rfl, rfl, rfl, rfl⟩
  rw [if_neg h9] at h
  by_cases h10 : ['b', ' '].isPrefixOf s.command_buffer = true
  · rw [if_pos h10] at h
    simp only [] at h
    split at h
    · cases hs : stoi (s.command_buffer.drop 2) with
      | error e => rw [hs] at h; exact absurd h (by simp [bind, Except.bind])
      | ok v =>
        rw [hs] at h
        simp only [bind, Except.bind, pure, Except.pure] at h
        split at h
        · split at h
          · exact absurd h (by simp)
          · rename_i t ht
            injection h with h; injection h with h _; subst h
            have hf := loadFile_frame _ t ht
            exact ⟨hf.1, hf.2.1, hf.2.2.1, hf.2.2.2⟩
        · injection h with h; injection h with h _; subst h
          exact ⟨rfl, rfl, rfl, rfl⟩
    · injection h with h; injection h with h _; subst h
      exact ⟨rfl, rfl, rfl, rfl⟩
  rw [if_neg h10] at h
  injection h with h; injection h with h _; subst h
  exact ⟨rfl, rfl, rfl, rfl⟩

theorem command_mode_frame (fuel : Nat) (s s' : MiniVim) (ch : Int) (input rest : List Int)
    (h : command_mode fuel s ch input = .ok (s', rest)) :
    s'.undo_stack = s.undo_stack ∧ s'.redo_stack = s.redo_stack ∧
    s'.insert_mode_active = s.insert_mode_active ∧
    (ch = 27 ∨ ch = 10 → s'.command_mode_active = false ∧ s'.command_buffer = []) ∧
    (s.command_mode_active = true → ¬ (ch = 27 ∨ ch = 10) → s'.command_mode_active = true) := by
  unfold command_mode at h
  split_ifs at h with c1 c2 c3
  · injection h with h; injection h with h _; subst h
    exact ⟨rfl, rfl, rfl, fun _ => ⟨rfl, rfl⟩, fun _ hn => absurd (Or.inl c1) hn⟩
  · cases he : execute_command fuel s input with
    | error e => rw [he] at h; exact absurd h (by simp [bind, Except.bind])
    | ok p =>
      obtain ⟨t, r⟩ := p
      rw [he] at h
      injection h with h; injection h with h _; subst h
      have hf := execute_command_frame fuel s t input r he
      exact ⟨hf.1, hf.2.1, hf.2.2.1, fun _ => ⟨rfl, rfl⟩, fun _ hn => absurd (Or.inr c2) hn⟩
  · injection h with h; injection h with h _; subst h
    exact ⟨rfl, rfl, rfl, fun hc => by rcases hc with hc | hc <;> contradiction, fun ha _ => ha⟩
  · injection h with h; injection h with h _; subst h
    exact ⟨rfl, rfl, rfl, fun hc => by rcases hc with hc | hc <;> contradiction, fun ha _ => ha⟩

theorem next_previous_return (fuel : Nat) (s : MiniVim) (input : List Int)
    (hi : s.current_file_index < s.file_history.length)
    (hb : s.command_buffer = ['n'] ∨ s.command_buffer = ['N']) :
    ∃ s', command_mode fuel s 10 input = .ok (s', input) := by
  have hsz : sizeMinusOne s.file_history.length = (s.file_history.length : Int) - 1 := by
    unfold sizeMinusOne; rw [if_neg (by omega)]
  unfold command_mode
  rcases hb with hb | hb
  · simp only [show ¬ ((10 : Int) = 27) by decide, if_false, if_true,
      execute_command_n fuel s input hb, hsz]
    by_cases hlt : (s.current_file_index : Int) < (s.file_history.length : Int) - 1
    · have hlt' : s.current_file_index + 1 < s.file_history.length := by omega
      obtain ⟨s1, hs1, -⟩ :=
        loadFile_of_index { s with current_file_index := s.current_file_index + 1 } hlt'
      rw [if_pos hlt]
      simp only [hs1, bind, Except.bind, pure, Except.pure]
      exact ⟨_, rfl⟩
    · rw [if_neg hlt]
      exact ⟨_, rfl⟩
  · simp only [show ¬ ((10 : Int) = 27) by decide, if_false, if_true,
      execute_command_N fuel s input hb]
    by_cases hpos : s.current_file_index > 0
    · have hlt' : s.current_file_index - 1 < s.file_history.length := by omega
      obtain ⟨s1, hs1, -⟩ :=
        loadFile_of_index { s with current_file_index := s.current_file_index - 1 } hlt'
      rw [if_pos hpos]
      simp only [hs1, bind, Except.bind, pure, Except.pure]
      exact ⟨_, rfl⟩
    · rw [if_neg hpos]
      exact ⟨_, rfl⟩

theorem edit_command_effect (fuel : Nat) (s : MiniVim) (path : Str) (input : List Int)
    (hb : s.command_buffer = 'e' :: ' ' :: path) :
    ∃ s', command_mode fuel s 10 input = .ok (s', input) ∧
      s'.file_history = s.file_history ++ [path] ∧
      s'.current_file_index = s.file_history.length ∧ s'.filename = path ∧
      s'.cursor_x = 0 ∧ s'.cursor_y = 0 ∧ s'.top_line = 0 ∧ s'.left_column = 0 := by
  have h1 : ¬ s.command_buffer = ['q'] := by rw [hb]; simp
  have h2 : ¬ s.command_buffer = ['w'] := by rw [hb]; simp
  have h3 : ¬ s.command_buffer = ['w', 'q'] := by rw [hb]; simp
  have h4 : ¬ ['s', '/'].isPrefixOf s.command_buffer = true := by
    rw [hb]; simp [List.isPrefixOf]
  have h5 : ¬ is_number s.command_buffer = true := by
    rw [hb]; simp [is_number]
  have h6 : ['e', ' '].isPrefixOf s.command_buffer = true := by
    rw [hb]; simp [List.isPrefixOf]
  have hd : s.command_buffer.drop 2 = path := by rw [hb]; rfl
  have hlt : (s.file_history ++ [path]).length - 1 < (s.file_history ++ [path]).length := by
    simp
  obtain ⟨s1, hs1, hf, hidx, hname, -⟩ := loadFile_of_index
    { s with file_history := s.file_history ++ [path],
             current_file_index := (s.file_history ++ [path]).length - 1 } hlt
  unfold command_mode execute_command
  simp only [show ¬ ((10 : Int) = 27) by decide, if_false, if_true]
  rw [if_neg h1, if_neg h2, if_neg h3, if_neg h4, if_neg h5, if_pos h6]
  simp only [hd, hs1, bind, Except.bind, pure, Except.pure]
  have hidx' : s1.current_file_index = s.file_history.length := by
    rw [hidx]; simp
  refine ⟨_, rfl, hf, hidx', ?_, rfl, rfl, rfl, rfl⟩
  have hn : s1.file_history[s1.current_file_index]? = some path := by
    rw [hf, hidx']; simp
  have : some s1.filename = some path := by rw [← hname, hn]
  exact Option.some.inj this

/-- C21, as stated, fails: the undo log survives a file switch.  With the file
list `[a.txt, b.txt]` (contents `A` and `B`), after `d d` in `a.txt` and the
command `n`, the file `b.txt` is loaded and the undo stack still holds the
record `{delete, 0, "A"}` of `a.txt`; `u` then inserts `"A"` into the lines of
`b.txt`. -/
theorem undo_log_survives_file_switch :
    ∃ s4 s5,
      run_steps 0 4 { twoFiles 0 [] with command_mode_active := false }
        [100, 100, 58, 110, 10, 117] = .ok (s4, [117]) ∧
      run_steps 0 5 { twoFiles 0 [] with command_mode_active := false }
        [100, 100, 58, 110, 10, 117] = .ok (s5, []) ∧
      s4.filename = ['b', '.', 't', 'x', 't'] ∧ s4.lines = [['B']] ∧
      s4.undo_stack = [("delete", 0, ['A'])] ∧ s4.undo_stack ≠ [] ∧
      s5.lines = [['A'], ['B']] ∧ s5.lines ≠ s4.lines :=
  ⟨_, _, rfl, rfl, rfl, rfl, rfl, by decide, rfl, by decide⟩

/-- C21, amended: the undo log is shared by all files and survives a file
switch.  With a valid current index, each command that switches the active
file (`e <path>`, `n`, `N`, `b N` with `N` in range) returns normally and
leaves the undo and redo stacks exactly as they were; `u` leaves the state
unchanged when the undo stack is empty, and so does Ctrl-R when the redo stack
is empty. -/
theorem file_switch_keeps_undo_log (fuel : Nat) (s : MiniVim) (input : List Int)
    (hi : s.current_file_index < s.file_history.length) :
    (∀ path, s.command_buffer = 'e' :: ' ' :: path →
      ∃ s', command_mode fuel s 10 input = .ok (s', input) ∧ s'.filename = path ∧
        s'.undo_stack = s.undo_stack ∧ s'.redo_stack = s.redo_stack) ∧
    (s.command_buffer = ['n'] ∨ s.command_buffer = ['N'] →
      ∃ s', command_mode fuel s 10 input = .ok (s', input) ∧
        s'.undo_stack = s.undo_stack ∧ s'.redo_stack = s.redo_stack) ∧
    (∀ text v, s.command_buffer = 'b' :: ' ' :: text → is_number text = true →
      stoi text = .ok v → 1 ≤ v ∧ v ≤ (s.file_history.length : Int) →
      ∃ s', command_mode fuel s 10 input = .ok (s', input) ∧
        (s'.current_file_index : Int) = v - 1 ∧
        s'.undo_stack = s.undo_stack ∧ s'.redo_stack = s.redo_stack) ∧
    (s.undo_stack = [] → normal_mode s 117 input = .ok (s, input)) ∧
    (s.redo_stack = [] → normal_mode s 18 input = .ok (s, input)) := by
  refine ⟨?_, ?_, ?_, ?_, ?_⟩
  · intro path hb
    obtain ⟨s', hs', -, -, hname, -⟩ := edit_command_effect fuel s path input hb
    have hf := command_mode_frame fuel s s' 10 input input hs'
    exact ⟨s', hs', hname, hf.1, hf.2.1⟩
  · intro hb
    obtain ⟨s', hs'⟩ := next_previous_return fuel s input hi hb
    have hf := command_mode_frame fuel s s' 10 input input hs'
    exact ⟨s', hs', hf.1, hf.2.1⟩
  · intro text v hb hn hv hrange
    obtain ⟨s', hs', -, hidx⟩ := (buffer_command_effect fuel s text input hb).2.2 v hn hv hrange
    have hf := command_mode_frame fuel s s' 10 input input hs'
    exact ⟨s', hs', hidx, hf.1, hf.2.1⟩
  · intro hu
    have h : normal_mode s 117 input = (undo s).bind (fun s1 => .ok (s1, input)) := rfl
    rw [h]
    unfold undo
    rw [hu]
    rfl
  · intro hr
    have h : normal_mode s 18 input = (redo s).bind (fun s1 => .ok (s1, input)) := rfl
    rw [h]
    unfold redo
    rw [hr]
    rfl

theorem file_switch_keeps_undo_log_witness :
    ({ twoFiles 0 ['n'] with undo_stack := [("delete", 0, ['A'])] } : MiniVim).current_file_index
      < ({ twoFiles 0 ['n'] with undo_stack := [("delete", 0, ['A'])] } : MiniVim).file_history.length ∧
    (∃ s', command_mode 0 { twoFiles 0 ['n'] with undo_stack := [("delete", 0, ['A'])] } 10 []
        = .ok (s', []) ∧
      s'.undo_stack = [("delete", 0, ['A'])] ∧ s'.redo_stack = []) ∧
    normal_mode (twoFiles 1 []) 117 [] = .ok (twoFiles 1 [], []) :=
  ⟨by decide,
    (file_switch_keeps_undo_log 0 { twoFiles 0 ['n'] with undo_stack := [("delete", 0, ['A'])] } []
      (by decide)).2.1 (Or.inl rfl),
    (file_switch_keeps_undo_log 0 (twoFiles 1 []) [] (by decide)).2.2.2.1 rfl⟩

theorem insert_mode_frame (s s' : MiniVim) (ch : Int) (h : insert_mode s ch = .ok s') :
    s'.undo_stack = s.undo_stack ∧ s'.redo_stack = s.redo_stack ∧
    s'.command_mode_active = s.command_mode_active ∧
    (ch = 27 → s'.insert_mode_active = false ∧ s'.lines = s.lines ∧
      s'.cursor_x = s.cursor_x ∧ s'.cursor_y = s.cursor_y) ∧
    (ch ≠ 27 → s'.insert_mode_active = s.insert_mode_active) := by
  unfold insert_mode at h
  by_cases c1 : ch = 27
  · rw [if_pos c1] at h
    injection h with h; subst h
    exact ⟨rfl, rfl, rfl, fun _ => ⟨rfl, rfl, rfl, rfl⟩, fun hn => absurd c1 hn⟩
  rw [if_neg c1] at h
  suffices hq : s'.undo_stack = s.undo_stack ∧ s'.redo_stack = s.redo_stack ∧
      s'.command_mode_active = s.command_mode_active ∧
      s'.insert_mode_active = s.insert_mode_active from
    ⟨hq.1, hq.2.1, hq.2.2.1, fun hc => absurd hc c1, fun _ => hq.2.2.2⟩
  by_cases c2 : ch = 4
  · rw [if_pos c2] at h
    injection h with h; subst h
    refine ⟨?_, ?_, ?_, ?_⟩ <;> simp only [adjust_window] <;> split_ifs <;> rfl
  rw [if_neg c2] at h
  by_cases c3 : ch = 5
  · rw [if_pos c3] at h
    simp only [bind, Except.bind, pure, Except.pure] at h
    split at h
    · exact absurd h (by simp)
    · injection h with h; subst h
      refine ⟨?_, ?_, ?_, ?_⟩ <;> simp only [adjust_window] <;> split_ifs <;> rfl
  rw [if_neg c3] at h
  by_cases c4 : ch = 3
  · rw [if_pos c4] at h
    injection h with h; subst h
    refine ⟨?_, ?_, ?_, ?_⟩ <;> simp only [adjust_window] <;> split_ifs <;> rfl
  rw [if_neg c4] at h
  by_cases c5 : ch = 2
  · rw [if_pos c5] at h
    injection h with h; subst h
    refine ⟨?_, ?_, ?_, ?_⟩ <;> simp only [adjust_window] <;> split_ifs <;> rfl
  rw [if_neg c5] at h
  by_cases c6 : ch = 10
  · rw [if_pos c6] at h
    simp only [bind, Except.bind, pure, Except.pure] at h
    split at h
    · exact absurd h (by simp)
    · split at h
      · exact absurd h (by simp)
      · split at h
        · exact absurd h (by simp)
        · split at h
          · exact absurd h (by simp)
          · injection h with h; subst h
            exact ⟨rfl, rfl, rfl, rfl⟩
  rw [if_neg c6] at h
  by_cases c7 : ch = 7 ∨ ch = KEY_BACKSPACE
  · rw [if_pos c7] at h
    by_cases cx : s.cursor_x > 0
    · rw [if_pos cx] at h
      simp only [bind, Except.bind, pure, Except.pure] at h
      split at h
      · exact absurd h (by simp)
      · split at h
        · exact absurd h (by simp)
        · injection h with h; subst h
          exact ⟨rfl, rfl, rfl, rfl⟩
    · rw [if_neg cx] at h
      by_cases cy : s.cursor_y > 0
      · rw [if_pos cy] at h
        simp only [bind, Except.bind, pure, Except.pure] at h
        split at h
        · exact absurd h (by simp)
        · split at h
          · exact absurd h (by simp)
          · split at h
            · exact absurd h (by simp)
            · injection h with h; subst h
              exact ⟨rfl, rfl, rfl, rfl⟩
      · rw [if_neg cy] at h
        injection h with h; subst h
        exact ⟨rfl, rfl, rfl, rfl⟩
  rw [if_neg c7] at h
  simp only [bind, Except.bind, pure, Except.pure] at h
  split at h
  · exact absurd h (by simp)
  · split_ifs at h <;> (injection h with h; subst h; exact ⟨rfl, rfl, rfl, rfl⟩)

theorem insert_mode_returns (s : MiniVim) (r c : Nat) (ch : Int)
    (hr : r < s.lines.length) (hy : s.cursor_y = (r : Int)) (hx : s.cursor_x = (c : Int))
    (hc : c ≤ (s.lines.getD r []).length) :
    ∃ s', insert_mode s ch = .ok s' := by
  have hla := lineAt_natCast s.lines r hr
  unfold insert_mode
  by_cases c1 : ch = 27
  · rw [if_pos c1]; exact ⟨_, rfl⟩
  rw [if_neg c1]
  by_cases c2 : ch = 4
  · rw [if_pos c2]; exact ⟨_, rfl⟩
  rw [if_neg c2]
  by_cases c3 : ch = 5
  · rw [if_pos c3, hy, hla]; exact ⟨_, rfl⟩
  rw [if_neg c3]
  by_cases c4 : ch = 3
  · rw [if_pos c4]; exact ⟨_, rfl⟩
  rw [if_neg c4]
  by_cases c5 : ch = 2
  · rw [if_pos c5]; exact ⟨_, rfl⟩
  rw [if_neg c5]
  by_cases c6 : ch = 10
  · have hle : r + 1 ≤ (s.lines.set r ((s.lines.getD r []).take c)).length := by
      simpa using hr
    have hins := vecInsert_natCast (s.lines.set r ((s.lines.getD r []).take c)) (r + 1)
      ((s.lines.getD r []).drop c) hle
    push_cast at hins
    have hc' : ¬ (c > (s.lines.getD r []).length) := by omega
    have h0 : ¬ (0 > (s.lines.getD r []).length) := by omega
    rw [if_pos c6]
    simp only [hy, hx, toSizeT_natCast, Int.toNat_ofNat, hla, substr, if_neg hc', if_neg h0,
      List.drop_zero, bind, Except.bind, hins, pure, Except.pure]
    exact ⟨_, rfl⟩
  rw [if_neg c6]
  by_cases c7 : ch = 7 ∨ ch = KEY_BACKSPACE
  · rw [if_pos c7]
    by_cases cx : s.cursor_x > 0
    · have hnot : ¬ ((s.cursor_x - 1).toNat > (s.lines.getD r []).length) := by
        rw [hx]; omega
      rw [if_pos cx]
      simp only [hy, hla, if_neg hnot, bind, Except.bind, pure, Except.pure]
      exact ⟨_, rfl⟩
    · rw [if_neg cx]
      by_cases cy : s.cursor_y > 0
      · obtain ⟨k, rfl⟩ : ∃ k, r = k + 1 := ⟨r - 1, by omega⟩
        have hk : k < s.lines.length := by omega
        have hprev : s.cursor_y - 1 = (k : Int) := by rw [hy]; push_cast; omega
        have hlen : k + 1 < (s.lines.set k (s.lines.getD k [] ++ s.lines.getD (k + 1) [])).length := by
          simpa using hr
        rw [if_pos cy]
        simp only [hprev, lineAt_natCast _ _ hk, Int.toNat_ofNat, bind, Except.bind]
        rw [hy, hla]
        simp only [vecErase_natCast _ _ hlen, pure, Except.pure]
        exact ⟨_, rfl⟩
      · rw [if_neg cy]; exact ⟨_, rfl⟩
  rw [if_neg c7]
  have hgt : ¬ ((c : Int) > ((s.lines.getD r []).length : Int)) := by omega
  have hpos : ¬ (c > (s.lines.getD r []).length) := by omega
  simp only [hy, hx, hla, toSizeT_natCast, if_neg hgt, Int.toNat_ofNat, if_neg hpos,
    bind, Except.bind, pure, Except.pure]
  exact ⟨_, rfl⟩

theorem normal_mode_paste (s : MiniVim) (r : Nat) (input : List Int)
    (hr : r < s.lines.length) (hy : s.cursor_y = (r : Int)) (hne : s.copied_line ≠ []) :
    normal_mode s 112 input = .ok (adjust_window { s with
      undo_stack := ("paste", (r : Int), s.copied_line) :: s.undo_stack,
      lines := s.lines.take (r + 1) ++ s.copied_line :: s.lines.drop (r + 1),
      cursor_y := (r : Int) + 1 }, input) := by
  have hle : r + 1 ≤ s.lines.length := hr
  have hins := vecInsert_natCast s.lines (r + 1) s.copied_line hle
  push_cast at hins
  have h : normal_mode s 112 input =
      (if !s.copied_line.isEmpty then
        (vecInsert s.lines (s.cursor_y + 1) s.copied_line).bind (fun lines =>
          .ok (adjust_window { s with
            undo_stack := ("paste", s.cursor_y, s.copied_line) :: s.undo_stack,
            lines := lines, cursor_y := s.cursor_y + 1 }, input))
      else .ok (adjust_window s, input)) := rfl
  have hne' : (!s.copied_line.isEmpty) = true := by
    cases hcl : s.copied_line with
    | nil => exact absurd hcl hne
    | cons a as => rfl
  rw [h, if_pos hne', hy, hins]
  rfl

/-- C26: new edits never clear the redo stack.  With the cursor on a valid
row `r`, the handler of `d d` returns normally having pushed exactly the
record `{delete, r, line}` onto the undo stack, the handler of `p` with a
non-empty clipboard returns normally having pushed exactly
`{paste, r, clipboard}`, and both leave the redo stack as it was; every
Insert-mode key returns normally (cursor column within the line) and leaves
both stacks as they were, and no call of `insert_mode` that returns changes
either stack, whatever the state. -/
theorem edits_keep_redo_stack (s : MiniVim) (r : Nat)
    (hr : r < s.lines.length) (hy : s.cursor_y = (r : Int)) :
    (∀ rest, ∃ s', normal_mode s 100 (100 :: rest) = .ok (s', rest) ∧
      s'.undo_stack = ("delete", (r : Int), s.lines.getD r []) :: s.undo_stack ∧
      s'.redo_stack = s.redo_stack) ∧
    (∀ input, s.copied_line ≠ [] →
      ∃ s', normal_mode s 112 input = .ok (s', input) ∧
        s'.undo_stack = ("paste", (r : Int), s.copied_line) :: s.undo_stack ∧
        s'.redo_stack = s.redo_stack) ∧
    (∀ (ch : Int) (c : Nat), s.cursor_x = (c : Int) → c ≤ (s.lines.getD r []).length →
      ∃ s', insert_mode s ch = .ok s' ∧
        s'.undo_stack = s.undo_stack ∧ s'.redo_stack = s.redo_stack) ∧
    (∀ (t t' : MiniVim) (ch : Int), insert_mode t ch = .ok t' →
      t'.undo_stack = t.undo_stack ∧ t'.redo_stack = t.redo_stack) := by
  refine ⟨?_, ?_, ?_, ?_⟩
  · intro rest
    obtain ⟨s', hs', hpost⟩ := normal_mode_dd s r rest hr hy
    exact ⟨s', hs', hpost.2.1, hpost.2.2.1⟩
  · intro input hne
    exact ⟨_, normal_mode_paste s r input hr hy hne, rfl, rfl⟩
  · intro ch c hx hc
    obtain ⟨s', hs'⟩ := insert_mode_returns s r c ch hr hy hx hc
    have hf := insert_mode_frame s s' ch hs'
    exact ⟨s', hs', hf.1, hf.2.1⟩
  · intro t t' ch h
    have hf := insert_mode_frame t t' ch h
    exact ⟨hf.1, hf.2.1⟩

theorem edits_keep_redo_stack_witness :
    (0 : Nat) < ({ sample [['a'], ['b']] 0 0 with
      copied_line := ['c'], redo_stack := [("delete", 1, ['z'])] } : MiniVim).lines.length ∧
    ({ sample [['a'], ['b']] 0 0 with
      copied_line := ['c'], redo_stack := [("delete", 1, ['z'])] } : MiniVim).cursor_y
      = ((0 : Nat) : Int) ∧
    (∃ s', normal_mode { sample [['a'], ['b']] 0 0 with
        copied_line := ['c'], redo_stack := [("delete", 1, ['z'])] } 100 (100 :: []) = .ok (s', []) ∧
      s'.undo_stack = [("delete", 0, ['a'])] ∧ s'.redo_stack = [("delete", 1, ['z'])]) ∧
    (∃ s', normal_mode { sample [['a'], ['b']] 0 0 with
        copied_line := ['c'], redo_stack := [("delete", 1, ['z'])] } 112 [] = .ok (s', []) ∧
      s'.undo_stack = [("paste", 0, ['c'])] ∧ s'.redo_stack = [("delete", 1, ['z'])]) ∧
    (∃ s', insert_mode { sample [['a'], ['b']] 0 0 with
        copied_line := ['c'], redo_stack := [("delete", 1, ['z'])] } 10 = .ok s' ∧
      s'.undo_stack = [] ∧ s'.redo_stack = [("delete", 1, ['z'])]) :=
  ⟨by decide, rfl,
    (edits_keep_redo_stack { sample [['a'], ['b']] 0 0 with
      copied_line := ['c'], redo_stack := [("delete", 1, ['z'])] } 0 (by decide) rfl).1 [],
    (edits_keep_redo_stack { sample [['a'], ['b']] 0 0 with
      copied_line := ['c'], redo_stack := [("delete", 1, ['z'])] } 0 (by decide) rfl).2.1 []
      (by decide),
    (edits_keep_redo_stack { sample [['a'], ['b']] 0 0 with
      copied_line := ['c'], redo_stack := [("delete", 1, ['z'])] } 0 (by decide) rfl).2.2.1 10 0
      rfl (by decide)⟩

theorem undo_frame (s s' : MiniVim) (h : undo s = .ok s') :
    s'.insert_mode_active = s.insert_mode_active ∧
    s'.command_mode_active = s.command_mode_active := by
  unfold undo at h
  split at h
  · injection h with h; subst h; exact ⟨rfl, rfl⟩
  · simp only [bind, Except.bind, pure, Except.pure] at h
    split_ifs at h
    · split at h
      · injection h
      · injection h with h; subst h; exact ⟨rfl, rfl⟩
    · split at h
      · injection h
      · injection h with h; subst h; exact ⟨rfl, rfl⟩
    · injection h with h; subst h; exact ⟨rfl, rfl⟩

theorem redo_frame (s s' : MiniVim) (h : redo s = .ok s') :
    s'.insert_mode_active = s.insert_mode_active ∧
    s'.command_mode_active = s.command_mode_active := by
  unfold redo at h
  split at h
  · injection h with h; subst h; exact ⟨rfl, rfl⟩
  · simp only [bind, Except.bind, pure, Except.pure] at h
    split_ifs at h
    · split at h
      · injection h
      · injection h with h; subst h; exact ⟨rfl, rfl⟩
    · split at h
      · injection h
      · injection h with h; subst h; exact ⟨rfl, rfl⟩
    · injection h with h; subst h; exact ⟨rfl, rfl⟩

theorem normal_mode_other_keys_keep_modes (s s' : MiniVim) (ch : Int) (input rest : List Int)
    (ci : ch ≠ 105) (cc : ch ≠ 58) (h : normal_mode s ch input = .ok (s', rest)) :
    s'.insert_mode_active = s.insert_mode_active ∧
    s'.command_mode_active = s.command_mode_active := by
  unfold normal_mode at h
  by_cases c1 : ch = 104 ∨ ch = 4
  · rw [if_pos c1] at h
    injection h with h; injection h with h _; subst h
    constructor <;> simp only [adjust_window] <;> split_ifs <;> rfl
  rw [if_neg c1] at h
  by_cases c2 : ch = 106 ∨ ch = 2
  · rw [if_pos c2] at h
    injection h with h; injection h with h _; subst h
    constructor <;> simp only [adjust_window] <;> split_ifs <;> rfl
  rw [if_neg c2] at h
  by_cases c3 : ch = 107 ∨ ch = 3
  · rw [if_pos c3] at h
    injection h with h; injection h with h _; subst h
    constructor <;> simp only [adjust_window] <;> split_ifs <;> rfl
  rw [if_neg c3] at h
  by_cases c4 : ch = 108 ∨ ch = 5
  · rw [if_pos c4] at h
    simp only [bind, Except.bind, pure, Except.pure] at h
    split at h
    · injection h
    · injection h with h; injection h with h _; subst h
      constructor <;> simp only [adjust_window] <;> split_ifs <;> rfl
  rw [if_neg c4, if_neg ci, if_neg cc] at h
  by_cases c7 : ch = 48
  · rw [if_pos c7] at h
    injection h with h; injection h with h _; subst h
    exact ⟨rfl, rfl⟩
  rw [if_neg c7] at h
  by_cases c8 : ch = 36
  · rw [if_pos c8] at h
    simp only [bind, Except.bind, pure, Except.pure] at h
    split at h
    · injection h
    · injection h with h; injection h with h _; subst h
      constructor <;> simp only [adjust_window] <;> split_ifs <;> rfl
  rw [if_neg c8] at h
  by_cases c9 : ch = 103
  · rw [if_pos c9] at h
    simp only [] at h
    split_ifs at h <;> (injection h with h; injection h with h _; subst h; exact ⟨rfl, rfl⟩)
  rw [if_neg c9] at h
  by_cases c10 : ch = 71
  · rw [if_pos c10] at h
    injection h with h; injection h with h _; subst h
    exact ⟨rfl, rfl⟩
  rw [if_neg c10] at h
  by_cases c11 : ch = 100
  · rw [if_pos c11] at h
    simp only [bind, Except.bind, pure, Except.pure] at h
    by_cases cd : (getch input).1 = 100 ∧ toSizeT s.cursor_y < s.lines.length
    · rw [if_pos cd] at h
      split at h
      · injection h
      · split at h
        · injection h
        · split_ifs at h <;>
            first
              | (injection h with h; injection h with h _; subst h; exact ⟨rfl, rfl⟩)
              | (split at h <;>
                  first
                    | (injection h with h; injection h with h _; subst h; exact ⟨rfl, rfl⟩)
                    | injection h)
    · rw [if_neg cd] at h
      injection h with h; injection h with h _; subst h
      exact ⟨rfl, rfl⟩
  rw [if_neg c11] at h
  by_cases c12 : ch = 121
  · rw [if_pos c12] at h
    simp only [bind, Except.bind, pure, Except.pure] at h
    split_ifs at h
    · split at h
      · injection h
      · injection h with h; injection h with h _; subst h
        exact ⟨rfl, rfl⟩
    · injection h with h; injection h with h _; subst h
      exact ⟨rfl, rfl⟩
  rw [if_neg c12] at h
  by_cases c13 : ch = 112
  · rw [if_pos c13] at h
    simp only [bind, Except.bind, pure, Except.pure] at h
    split_ifs at h
    · split at h
      · injection h
      · injection h with h; injection h with h _; subst h
        exact ⟨rfl, rfl⟩
    · injection h with h; injection h with h _; subst h
      exact ⟨rfl, rfl⟩
  rw [if_neg c13] at h
  by_cases c14 : ch = 117
  · rw [if_pos c14] at h
    simp only [bind, Except.bind, pure, Except.pure] at h
    split at h
    · injection h
    · rename_i t ht
      injection h with h; injection h with h _; subst h
      exact undo_frame s t ht
  rw [if_neg c14] at h
  by_cases c15 : ch = 18
  · rw [if_pos c15] at h
    simp only [bind, Except.bind, pure, Except.pure] at h
    split at h
    · injection h
    · rename_i t ht
      injection h with h; injection h with h _; subst h
      exact redo_frame s t ht
  rw [if_neg c15] at h
  injection h with h; injection h with h _; subst h
  exact ⟨rfl, rfl⟩

/-- The mode keys: from Normal mode `i` sets the insert flag and `:` sets the
command flag and empties the command buffer; Escape clears the insert flag in
Insert mode and clears the command flag and the command buffer in Command
mode.  None of them touches any other field. -/
theorem mode_keys_effect (fuel : Nat) (s : MiniVim) (input : List Int) :
    normal_mode s 105 input = .ok ({ s with insert_mode_active := true }, input) ∧
    normal_mode s 58 input
      = .ok ({ s with command_mode_active := true, command_buffer := [] }, input) ∧
    insert_mode s 27 = .ok { s with insert_mode_active := false } ∧
    command_mode fuel s 27 input
      = .ok ({ s with command_mode_active := false, command_buffer := [] }, input) :=
  ⟨rfl, rfl, rfl, rfl⟩

/-- Whenever Enter in Command mode returns, the command buffer is empty, the
command flag is cleared and the insert flag is as before. -/
theorem enter_clears_command_mode (fuel : Nat) (s s' : MiniVim) (input rest : List Int)
    (h : command_mode fuel s 10 input = .ok (s', rest)) :
    s'.command_mode_active = false ∧ s'.command_buffer = [] ∧
    s'.insert_mode_active = s.insert_mode_active := by
  have hf := command_mode_frame fuel s s' 10 input rest h
  exact ⟨(hf.2.2.2.1 (Or.inr rfl)).1, (hf.2.2.2.1 (Or.inr rfl)).2, hf.2.2.1⟩

theorem construct_starts_normal (filenames : List Str) (disk : List (Str × Str))
    (unwritable : List Str) (sh sw : Int) (s : MiniVim)
    (h : construct filenames disk unwritable sh sw = .ok s) :
    s.insert_mode_active = false ∧ s.command_mode_active = false ∧ s.command_buffer = [] ∧
    s.undo_stack = [] ∧ s.redo_stack = [] ∧ ModeInv s := by
  unfold construct loadFile at h
  split at h
  · injection h
  · injection h with h
    subst h
    exact ⟨rfl, rfl, rfl, rfl, rfl, fun hb => absurd hb.1 (by simp)⟩

theorem run_step_keeps_mode_inv (fuel : Nat) (s s' : MiniVim) (input rest : List Int)
    (hinv : ModeInv s) (h : run_step fuel s input = .ok (s', rest)) : ModeInv s' := by
  unfold run_step at h
  simp only [bind, Except.bind, pure, Except.pure] at h
  split at h
  · injection h
  · rename_i s1 hs1
    obtain ⟨-, -, hi1, hc1, -⟩ := draw_frame s s1 hs1
    by_cases hc : s1.command_mode_active = true
    · rw [if_pos hc] at h
      have hf := command_mode_frame fuel s1 s' _ _ rest h
      have hins : s'.insert_mode_active = false := by
        rw [hf.2.2.1, hi1]
        cases hb : s.insert_mode_active with
        | false => rfl
        | true => exact absurd ⟨hb, hc1 ▸ hc⟩ hinv
      intro hboth
      rw [hins] at hboth
      exact absurd hboth.1 (by simp)
    · rw [if_neg hc] at h
      by_cases hi : s1.insert_mode_active = true
      · rw [if_pos hi] at h
        split at h
        · injection h
        · rename_i s2 hs2
          injection h with h; injection h with h _; subst h
          have hf := insert_mode_frame s1 s2 _ hs2
          intro hboth
          rw [hf.2.2.1] at hboth
          exact hc hboth.2
      · rw [if_neg hi] at h
        by_cases k1 : toChar8 (getch input).1 = 105
        · rw [k1, (mode_keys_effect fuel s1 _).1] at h
          injection h with h; injection h with h _; subst h
          intro hboth
          exact hc hboth.2
        · by_cases k2 : toChar8 (getch input).1 = 58
          · rw [k2, (mode_keys_effect fuel s1 _).2.1] at h
            injection h with h; injection h with h _; subst h
            intro hboth
            exact hi hboth.1
          · have hf := normal_mode_other_keys_keep_modes s1 s' _ _ rest k1 k2 h
            intro hboth
            rw [hf.1] at hboth
            exact hi hboth.1

/-- In every state reached by the run loop from a state in which the mode
flags are not both set (in particular from the state the constructor builds),
the flags are not both set. -/
theorem run_steps_keeps_mode_inv (fuel : Nat) (n : Nat) :
    ∀ (s s' : MiniVim) (input rest : List Int), ModeInv s →
      run_steps fuel n s input = .ok (s', rest) → ModeInv s' := by
  induction n with
  | zero =>
    intro s s' input rest hinv h
    injection h with h; injection h with h _; subst h; exact hinv
  | succ n ih =>
    intro s s' input rest hinv h
    rw [run_steps] at h
    cases hs : run_step fuel s input with
    | error e => rw [hs] at h; exact absurd h (by simp [bind, Except.bind])
    | ok p =>
      obtain ⟨t, r⟩ := p
      rw [hs] at h
      exact ih t s' r rest (run_step_keeps_mode_inv fuel s t input r hinv hs) h

/-- C23: the claim fails on the code in its part on Enter: Enter in Command
mode does not return to Normal mode for every command other than `q` and
`wq`.  With the command `2147483648` the handler is left by the uncaught
`std::out_of_range` of `std::stoi`, and with the command `s///g` the
replacement loop never ends, whatever the iteration budget.  The other parts
hold: the constructor starts in Normal mode (`construct_starts_normal`), the
mode keys do what the claim says and touch nothing else (`mode_keys_effect`),
Enter clears buffer and flag whenever it returns (`enter_clears_command_mode`),
and the flags are never both set (`run_steps_keeps_mode_inv`). -/
theorem enter_does_not_always_return :
    command_mode 0 (jumpState ['2', '1', '4', '7', '4', '8', '3', '6', '4', '8']) 10 []
      = .error .uncaught ∧
    (∀ fuel, command_mode fuel (fooState ['s', '/', '/', '/', 'g']) 10 [] = .error .outOfFuel) ∧
    (∃ s', command_mode 0 (jumpState ['2']) 10 [] = .ok (s', []) ∧
      s'.command_mode_active = false ∧ s'.insert_mode_active = false ∧ s'.command_buffer = []) := by
  refine ⟨rfl, ?_, ⟨_, rfl, rfl, rfl, rfl⟩⟩
  intro fuel
  have h1 : parse_search_replace ['s', '/', '/', '/', 'g'] = .ok (some ([], [], true)) := rfl
  have e1 := handle_search_replace_fuel fuel (fooState ['s', '/', '/', '/', 'g']) 0 _ _ _ _
    (by decide) rfl h1 (replace_loop_empty_pattern [] fuel _ 0 (Nat.zero_le _))
  rw [command_mode_search_replace fuel _ ['/', '/', 'g'] [] rfl, e1]
  rfl

end Vim
